import Mathlib

/-!
Verification of the `jsl` (JSON Schema Language) Rust crate against its
natural-language specification.

The development shallowly embeds the crate's three subsystems:

* `Vm` — the evaluator of `src/vm.rs` (`validate` / `Vm::eval`);
* `Reg` — the registry of `src/registry.rs` (`register`, `missing_ids`,
  `is_sealed`, `compute_missing_ids`);
* `SerdeEmb` — the wire form of `src/serde.rs` (`SerdeSchema`,
  `SerdeDiscriminator`) together with the serde-derived deserializer and
  serializer semantics;
* `Gen1` — the older-generation canonicalizer `Registry::first_pass` of
  `src/schema.rs`.

Modelling conventions:

* JSON values are the inductive `Json`; JSON numbers are modelled as
  integers (no claim under scrutiny depends on non-integral numbers, and
  `serde_json` numeric fidelity is out of scope).
* Rust `HashMap`/`Map` values appear as association lists; iteration order
  of a Rust `HashMap` is unspecified, the list order is a determinization.
  Lookups are by key, as in the source.
* RFC 3339 timestamp parsing (`chrono`) is an external collaborator; the
  evaluator is parameterized by a predicate `rfc3339_ok`.
* Rust panics (`unwrap`/`expect`/indexing on a missing key) are modelled
  as an explicit `panicked` outcome.
* The evaluator in `vm.rs` is partial recursion (it can diverge when
  `max_depth = 0`); it is embedded fuel-indexed: `none` means the fuel ran
  out, `some` is the result the Rust code produces.
-/

/-- JSON values (`serde_json::Value`), with numbers abstracted to `Int`. -/
inductive Json where
  | null : Json
  | bool (b : Bool) : Json
  | num (n : Int) : Json
  | str (s : String) : Json
  | arr (elems : List Json) : Json
  | obj (fields : List (String × Json)) : Json

namespace Vm

/-- `schema::Type` of the evaluator generation (`vm.rs` matches all of
these variants). -/
inductive Ty where
  | boolean | number | float32 | float64
  | int8 | uint8 | int16 | uint16 | int32 | uint32 | int64 | uint64
  | string | timestamp
deriving DecidableEq

mutual
/-- `schema::Schema` as used by `vm.rs`: the evaluator reads only
`root_schema.definitions()` (an `Option` of a map, `None` on non-root
schemas) and `schema.form()`. -/
inductive Schema where
  | mk (definitions : Option (List (String × Schema))) (form : Form)

/-- `schema::Form` as matched by `Vm::eval`. -/
inductive Form where
  | empty
  | ref (d : String)
  | typ (t : Ty)
  | enum (values : List String)
  | elements (sub : Schema)
  | properties (required : List (String × Schema))
      (optional : List (String × Schema)) (has_required : Bool)
  | values (sub : Schema)
  | discriminator (tag : String) (mapping : List (String × Schema))
end

def Schema.definitions : Schema → Option (List (String × Schema))
  | .mk d _ => d

def Schema.form : Schema → Form
  | .mk _ f => f

/-- `validator::ValidationError`: a pair of JSON-pointer token lists. -/
structure ValidationError where
  instance_path : List String
  schema_path : List String
deriving DecidableEq

/-- The mutable state of `vm::Vm`.  The Rust `schema_tokens` stack of
frames (always non-empty, its last frame is the active one) is split into
the active frame `cur_schema_tokens` and the saved frames `schema_frames`;
both token stacks are kept most-recent-first, so a JSON-pointer readout
reverses them. -/
structure VmState where
  instance_tokens : List String
  cur_schema_tokens : List String
  schema_frames : List (List String)
  errors : List ValidationError
deriving DecidableEq

/-- The fixed inputs of a `vm::validate` call. -/
structure Ctx where
  max_failures : Nat
  max_depth : Nat
  strict_instance_semantics : Bool
  root_schema : Schema
  rfc3339_ok : String → Bool

/-- How an `eval` call returns early: `internal` is `EvalError::Internal`
(the error budget), `maxDepth` is `JslError::MaxDepthExceeded`, and
`panicked` models a Rust panic (dangling `ref` / missing `definitions`,
which `vm.rs` reaches only on schemas violating the canonicalization
invariant). -/
inductive EvalStop where
  | internal | maxDepth | panicked
deriving DecidableEq

/-- Result of one `Vm::eval` call: `Ok(())` with the updated state, or an
early return carrying the state at the moment of the bail-out (Rust `?`
skips the remaining stack pops). -/
inductive Outcome where
  | ok (st : VmState)
  | stop (st : VmState) (e : EvalStop)
deriving DecidableEq

def push_schema_token (t : String) (st : VmState) : VmState :=
  { st with cur_schema_tokens := t :: st.cur_schema_tokens }

def pop_schema_token (st : VmState) : VmState :=
  { st with cur_schema_tokens := st.cur_schema_tokens.tail }

def push_instance_token (t : String) (st : VmState) : VmState :=
  { st with instance_tokens := t :: st.instance_tokens }

def pop_instance_token (st : VmState) : VmState :=
  { st with instance_tokens := st.instance_tokens.tail }

/-- Pushing a fresh frame (`Vm::eval`, `Form::Ref` case): the active frame
is saved and the new frame becomes active. -/
def push_frame (f : List String) (st : VmState) : VmState :=
  { st with cur_schema_tokens := f,
            schema_frames := st.cur_schema_tokens :: st.schema_frames }

/-- Popping the frame pushed for a `Ref`.  (`schema_frames = []` is
unreachable in balanced flows; the fallback keeps the function total.) -/
def pop_frame (st : VmState) : VmState :=
  match st.schema_frames with
  | f :: rest => { st with cur_schema_tokens := f, schema_frames := rest }
  | [] => { st with cur_schema_tokens := [] }

/-- `Vm::push_err`: record an error built from the current instance path
and the active schema frame, then abort (`EvalError::Internal`) exactly
when the error count reaches `max_failures`. -/
def push_err (ctx : Ctx) (st : VmState) : Outcome :=
  if (st.errors ++
      [(⟨st.instance_tokens.reverse, st.cur_schema_tokens.reverse⟩ :
        ValidationError)]).length = ctx.max_failures then
    .stop { st with errors := st.errors ++
      [⟨st.instance_tokens.reverse, st.cur_schema_tokens.reverse⟩] } .internal
  else
    .ok { st with errors := st.errors ++
      [⟨st.instance_tokens.reverse, st.cur_schema_tokens.reverse⟩] }

/-- Run an action for each list element, propagating early returns (the
Rust `for` loops whose bodies contain `?`). -/
def seqAll (f : α → VmState → Option Outcome) :
    List α → VmState → Option Outcome
  | [], st => some (.ok st)
  | x :: xs, st =>
    match f x st with
    | some (.ok st') => seqAll f xs st'
    | r => r

/-- The `self.eval(..)?`-propagation pattern: on a normal inner return run
the trailing stack pops `f`; propagate early returns and exhausted fuel
unchanged. -/
def wrap_ok (f : VmState → VmState) : Option Outcome → Option Outcome
  | some (.ok s) => some (.ok (f s))
  | r => r

/-- Sequencing of two evaluation phases: on a normal return of the first
phase continue with `k`; propagate early returns and exhausted fuel
unchanged (the fall-through between the loops of `Form::Properties`). -/
def bind_ok (k : VmState → Option Outcome) : Option Outcome → Option Outcome
  | some (.ok s) => k s
  | r => r

/-- The `self.push_err()?`-propagation pattern: on the non-aborting path
run the trailing stack pops `f`; propagate the abort unchanged. -/
def stop_or (f : VmState → VmState) : Outcome → Option Outcome
  | .ok st' => some (.ok (f st'))
  | .stop st' e => some (.stop st' e)

/-- `self.push_err()?; self.pop_schema_token()`. -/
def err_then_pop (ctx : Ctx) (st : VmState) : Option Outcome :=
  stop_or pop_schema_token (push_err ctx st)

/-- `Vm::check_int` (bounds are integral, so the `f64` values and the
`fract` test of the source specialize to integer comparisons under the
integer JSON model). -/
def check_int (ctx : Ctx) (inst : Json) (min max : Int) (st : VmState) :
    Option Outcome :=
  match inst with
  | .num n =>
    if n < min || n > max then err_then_pop ctx (push_schema_token "type" st)
    else some (.ok st)
  | _ => err_then_pop ctx (push_schema_token "type" st)

/-- The `Form::Type` arm of `Vm::eval`. -/
def eval_type (ctx : Ctx) (t : Ty) (inst : Json) (st : VmState) :
    Option Outcome :=
  match t with
  | .boolean =>
    match inst with
    | .bool _ => some (.ok st)
    | _ => err_then_pop ctx (push_schema_token "type" st)
  | .number | .float32 | .float64 =>
    match inst with
    | .num _ => some (.ok st)
    | _ => err_then_pop ctx (push_schema_token "type" st)
  | .int8 => check_int ctx inst (-128) 127 st
  | .uint8 => check_int ctx inst 0 255 st
  | .int16 => check_int ctx inst (-32768) 32767 st
  | .uint16 => check_int ctx inst 0 65535 st
  | .int32 => check_int ctx inst (-2147483648) 2147483647 st
  | .uint32 => check_int ctx inst 0 4294967295 st
  | .int64 => check_int ctx inst (-9223372036854775808) 9223372036854775807 st
  | .uint64 => check_int ctx inst 0 18446744073709551615 st
  | .string =>
    match inst with
    | .str _ => some (.ok st)
    | _ => err_then_pop ctx (push_schema_token "type" st)
  | .timestamp =>
    match inst with
    | .str s =>
      if ctx.rfc3339_ok s then some (.ok st)
      else err_then_pop ctx (push_schema_token "type" st)
    | _ => err_then_pop ctx (push_schema_token "type" st)

/-- One iteration of the strict-instance-semantics loop of the
`Form::Properties` arm: an instance key that is neither the inherited
discriminator tag nor a declared (required or optional) property is
reported as an error at the key's instance path. -/
def strict_key_check (ctx : Ctx) (parent_tag : Option String)
    (required optional : List (String × Schema))
    (kv : String × Json) (st : VmState) : Option Outcome :=
  if !(match parent_tag with
       | some tag => (kv.1 = tag : Bool)
       | none => false) && !(required.any (fun q => q.1 = kv.1))
      && !(optional.any (fun q => q.1 = kv.1)) then
    stop_or pop_instance_token (push_err ctx (push_instance_token kv.1 st))
  else some (.ok st)

/-- The body of `Vm::eval`, parameterized by the recursive call `recur`
(used with `recur := eval ctx fuel`). -/
def evalBody (ctx : Ctx)
    (recur : Schema → Json → Option String → VmState → Option Outcome)
    (schema : Schema) (inst : Json) (parent_tag : Option String)
    (st : VmState) : Option Outcome :=
  match schema.form with
  | .empty => some (.ok st)
  | .ref d =>
    if st.schema_frames.length + 1 = ctx.max_depth then
      some (.stop st .maxDepth)
    else
      match ctx.root_schema.definitions with
      | none => some (.stop st .panicked)
      | some defs =>
        match defs.lookup d with
        | none => some (.stop st .panicked)
        | some refd =>
          wrap_ok pop_frame
            (recur refd inst none (push_frame [d, "definitions"] st))
  | .typ t => eval_type ctx t inst st
  | .enum vals =>
    match inst with
    | .str s =>
      if vals.contains s then some (.ok st)
      else err_then_pop ctx (push_schema_token "enum" st)
    | _ => err_then_pop ctx (push_schema_token "enum" st)
  | .elements sub =>
    match inst with
    | .arr xs =>
      wrap_ok pop_schema_token
        (seqAll
          (fun (p : Nat × Json) s =>
            wrap_ok pop_instance_token
              (recur sub p.2 none (push_instance_token (toString p.1) s)))
          xs.enum (push_schema_token "elements" st))
    | _ => err_then_pop ctx (push_schema_token "elements" st)
  | .properties required optional has_required =>
    match inst with
    | .obj kvs =>
      bind_ok
        (fun st2 =>
          bind_ok
            (fun st4 =>
              if ctx.strict_instance_semantics then
                seqAll (strict_key_check ctx parent_tag required optional)
                  kvs (pop_schema_token st4)
              else some (.ok (pop_schema_token st4)))
            (seqAll
              (fun (p : String × Schema) s =>
                match kvs.lookup p.1 with
                | some sub_inst =>
                  wrap_ok (fun s2 => pop_schema_token (pop_instance_token s2))
                    (recur p.2 sub_inst none
                      (push_instance_token p.1 (push_schema_token p.1 s)))
                | none =>
                  some (.ok (pop_schema_token (push_schema_token p.1 s))))
              optional
              (push_schema_token "optionalProperties" (pop_schema_token st2))))
        (seqAll
          (fun (p : String × Schema) s =>
            match kvs.lookup p.1 with
            | some sub_inst =>
              wrap_ok (fun s2 => pop_schema_token (pop_instance_token s2))
                (recur p.2 sub_inst none
                  (push_instance_token p.1 (push_schema_token p.1 s)))
            | none => err_then_pop ctx (push_schema_token p.1 s))
          required (push_schema_token "properties" st))
    | _ =>
      -- Non-object instance: the keyword cited depends on `has_required`.
      err_then_pop ctx
        (push_schema_token
          (if has_required then "properties" else "optionalProperties") st)
  | .values sub =>
    match inst with
    | .obj kvs =>
      wrap_ok pop_schema_token
        (seqAll
          (fun (p : String × Json) s =>
            wrap_ok pop_instance_token
              (recur sub p.2 none (push_instance_token p.1 s)))
          kvs (push_schema_token "values" st))
    | _ => err_then_pop ctx (push_schema_token "values" st)
  | .discriminator tag mapping =>
    match inst with
    | .obj kvs =>
      match kvs.lookup tag with
      | some instance_tag =>
        match instance_tag with
        | .str s =>
          match mapping.lookup s with
          | some sub =>
            wrap_ok (fun st2 => pop_schema_token (pop_schema_token st2))
              (recur sub inst (some tag)
                (push_schema_token s (push_schema_token "mapping"
                  (push_schema_token "discriminator" st))))
          | none =>
            stop_or (fun st2 => pop_schema_token (pop_instance_token st2))
              (push_err ctx
                (push_instance_token tag (push_schema_token "mapping"
                  (push_schema_token "discriminator" st))))
        | _ =>
          stop_or (fun st2 => pop_schema_token (pop_instance_token st2))
            (push_err ctx
              (push_instance_token tag (push_schema_token "tag"
                (push_schema_token "discriminator" st))))
      | none =>
        err_then_pop ctx
          (push_schema_token "tag" (push_schema_token "discriminator" st))
    | _ =>
      -- As in the source, no pop of the "discriminator" token follows.
      stop_or (fun st2 => st2)
        (push_err ctx (push_schema_token "discriminator" st))

/-- `Vm::eval`, fuel-indexed (`none` = out of fuel, i.e. the Rust
recursion has not returned within `fuel` nested calls). -/
def eval (ctx : Ctx) : Nat → Schema → Json → Option String → VmState →
    Option Outcome
  | 0, _, _, _, _ => none
  | fuel + 1, schema, inst, pt, st =>
    evalBody ctx (eval ctx fuel) schema inst pt st

/-- Observable result of `vm::validate`. -/
inductive VmOut where
  | ok (errors : List ValidationError)
  | maxDepthExceeded
  | panicked
deriving DecidableEq

/-- `vm::validate`: `Ok(())` and `Err(EvalError::Internal)` both yield the
collected error list; `Err(EvalError::Actual)` (max depth) is fatal. -/
def validate (max_failures max_depth : Nat)
    (strict_instance_semantics : Bool) (rfc3339_ok : String → Bool)
    (fuel : Nat) (schema : Schema) (inst : Json) : Option VmOut :=
  match eval
      ⟨max_failures, max_depth, strict_instance_semantics, schema, rfc3339_ok⟩
      fuel schema inst none ⟨[], [], [], []⟩ with
  | none => none
  | some (.ok st) => some (.ok st.errors)
  | some (.stop st .internal) => some (.ok st.errors)
  | some (.stop _ .maxDepth) => some .maxDepthExceeded
  | some (.stop _ .panicked) => some .panicked

/-- The errors collected in an outcome's state (the list `vm.errors` that
`validate` returns on `Ok` and on `Err(Internal)`). -/
def errs_of : Outcome → List ValidationError
  | .ok st => st.errors
  | .stop st _ => st.errors

/-- The outcome is a normal return or the error-budget abort — i.e. a
path on which `validate` succeeds with the collected error list. -/
def ok_or_internal : Outcome → Prop
  | .ok _ => True
  | .stop _ .internal => True
  | .stop _ .maxDepth => False
  | .stop _ .panicked => False

/-- The initial VM state of `vm::validate` (`instance_tokens = []`,
`schema_tokens = vec![vec![]]`, no errors). -/
def st0 : VmState := ⟨[], [], [], []⟩

/-- A context with the default configuration of `validator::Config`
(`max_errors = 0`, `max_depth = 32`, strict semantics off) and a trivial
timestamp parser. -/
def mkCtx (root : Schema) : Ctx := ⟨0, 32, false, root, fun _ => false⟩

/-- Error-budget invariant: states reached on the `Ok` path hold strictly
fewer than `max_failures` errors, and any early return holds at most
`max_failures` errors (assuming `0 < max_failures`). -/
def cap_ok (ctx : Ctx) : Outcome → Prop
  | .ok st => st.errors.length < ctx.max_failures
  | .stop st _ => st.errors.length ≤ ctx.max_failures

/-- Concrete schema `{"elements": {"type": "string"}}` (the `max_errors`
test of `validator.rs`). -/
def c3B : Schema := .mk none (.elements (.mk none (.typ .string)))

/-- Concrete instance `[null, null, null, null, null]`. -/
def c3inst : Json := .arr [.null, .null, .null, .null, .null]

/-- The first three errors produced by `c3B` on `c3inst`. -/
def c3errs : List ValidationError :=
  [⟨["0"], ["elements", "type"]⟩, ⟨["1"], ["elements", "type"]⟩,
   ⟨["2"], ["elements", "type"]⟩]

mutual
/-- Structural size of a schema's form (definitions excluded: the
evaluator reaches definitions only through `Ref`, which is measured by the
frame-depth budget instead). -/
def schemaSize : Schema → Nat
  | .mk _ f => formSize f

def formSize : Form → Nat
  | .empty => 1
  | .ref _ => 1
  | .typ _ => 1
  | .enum _ => 1
  | .elements sub => 1 + schemaSize sub
  | .properties req opt _ => 1 + pairsSize req + pairsSize opt
  | .values sub => 1 + schemaSize sub
  | .discriminator _ m => 1 + pairsSize m

def pairsSize : List (String × Schema) → Nat
  | [] => 0
  | (_, s) :: rest => 1 + schemaSize s + pairsSize rest
end

mutual
/-- Every `Ref` reachable through the form structure resolves in `ds`
(the canonicalization invariant `NoSuchDefinition` enforces; `vm.rs`
panics on schemas violating it). -/
def refsOkS (ds : Option (List (String × Schema))) : Schema → Bool
  | .mk _ f => refsOkF ds f

def refsOkF (ds : Option (List (String × Schema))) : Form → Bool
  | .empty => true
  | .ref d =>
    match ds with
    | some l => (l.lookup d).isSome
    | none => false
  | .typ _ => true
  | .enum _ => true
  | .elements sub => refsOkS ds sub
  | .properties req opt _ => refsOkL ds req && refsOkL ds opt
  | .values sub => refsOkS ds sub
  | .discriminator _ m => refsOkL ds m

def refsOkL (ds : Option (List (String × Schema))) :
    List (String × Schema) → Bool
  | [] => true
  | (_, s) :: rest => refsOkS ds s && refsOkL ds rest
end

/-- The root schema and all of its definitions only contain resolving
refs — the well-formedness `Schema::from_serde` guarantees. -/
def wf_root (root : Schema) : Bool :=
  refsOkS root.definitions root &&
    (match root.definitions with
     | some l => refsOkL root.definitions l
     | none => true)

/-- A bound strictly above the size of the root schema and of each of its
definitions. -/
def defsBound (root : Schema) : Nat :=
  1 + schemaSize root +
    (match root.definitions with
     | some l => pairsSize l
     | none => 0)

/-- The cyclically-defined schema
`{"definitions": {"a": {"ref": "a"}}, "ref": "a"}` of the
`infinite_loop` test of `validator.rs`. -/
def cycSchema : Schema :=
  .mk (some [("a", .mk none (.ref "a"))]) (.ref "a")

/-- With `max_errors = 0` ("unlimited"), evaluation never aborts on the
error budget. -/
def no_internal (r : Outcome) : Prop := ∀ s, r ≠ .stop s .internal

/-- Mapped sub-schema of the concrete discriminator used to instantiate
the discriminator theorems. -/
def c4sub : Schema := .mk none (.properties [("v", .mk none (.typ .string))] [] true)

/-- Concrete discriminator mapping `{"x": c4sub}`. -/
def c4map : List (String × Schema) := [("x", c4sub)]

/-- Concrete discriminator schema
`{"discriminator": {"tag": "t", "mapping": {"x": ...}}}`. -/
def c4D : Schema := .mk none (.discriminator "t" c4map)

end Vm

/-!
Registry (`registry.rs`).

`registry.rs` is written against a schema module whose `Form::Ref` carries
a resolved base id (`Option<Url>`) and an optional definition name, and
whose `Schema` exposes `root_data()` / `RootData::{id, definitions}` —
the signatures its calls require (`self.schemas.get(id)`,
`root.definitions().values()`, `Form::Ref(ref id, ref def)`).  The
embedding below mirrors those structures: `Url` as `String`,
`HashMap<Option<Url>, Schema>` as an association list with first-match
lookup, `HashSet<Url>` as a duplicate-free list (Rust's hash iteration
order is unspecified; the list order is a determinization).
-/
namespace Reg

mutual
inductive RSchema where
  | mk (root : Option RRoot) (form : RForm)

inductive RRoot where
  | mk (id : Option String) (defs : List (String × RSchema))

inductive RForm where
  | empty
  | ref (id : Option String) (rdef : Option String)
  | typ (t : Vm.Ty)
  | enum (vals : List String)
  | elements (sub : RSchema)
  | properties (required optional : List (String × RSchema))
      (has_required : Bool)
  | values (sub : RSchema)
  | discriminator (tag : String) (mapping : List (String × RSchema))
end

def RSchema.root_data : RSchema → Option RRoot
  | .mk r _ => r

def RSchema.form : RSchema → RForm
  | .mk _ f => f

def RRoot.id : RRoot → Option String
  | .mk i _ => i

def RRoot.defs : RRoot → List (String × RSchema)
  | .mk _ d => d

/-- `HashMap::insert`: replace the value under an existing key, else add
the binding (appended; map order is a determinization). -/
def mapInsert (k : Option String) (v : RSchema) :
    List (Option String × RSchema) → List (Option String × RSchema)
  | [] => [(k, v)]
  | (k0, v0) :: rest =>
    if k0 == k then (k, v) :: rest else (k0, v0) :: mapInsert k v rest

/-- `HashSet::insert` on the accumulated missing ids. -/
def insertId (u : String) (out : List String) : List String :=
  if u ∈ out then out else out ++ [u]

/-- How a `compute_missing_ids` call ends exceptionally: the
`NoSuchDefinition` bail, or one of the two `expect` panics (non-root
schema stored in the registry / unresolved reference with no id). -/
inductive CompErr where
  | noSuchDef (id : Option String) (d : String)
  | panicked
deriving DecidableEq

mutual
/-- `Registry::compute_missing_ids`: first recurse into the root's
definitions, then inspect the form, collecting into `out` the ids of
references that do not resolve in `schemas`. -/
def cmi (schemas : List (Option String × RSchema)) (out : List String) :
    RSchema → Except CompErr (List String)
  | .mk root form =>
    match (match root with
           | some (.mk _ defs) => cmiList schemas out defs
           | none => .ok out) with
    | .error e => .error e
    | .ok out1 => cmiForm schemas out1 form

def cmiForm (schemas : List (Option String × RSchema))
    (out : List String) : RForm → Except CompErr (List String)
  | .ref id rdef =>
    match schemas.lookup id with
    | some refd =>
      match refd.root_data with
      | none => .error .panicked
      | some (.mk _ rdefs) =>
        match rdef with
        | some d =>
          if (rdefs.lookup d).isSome then .ok out
          else .error (.noSuchDef id d)
        | none => .ok out
    | none =>
      match id with
      | some u => .ok (insertId u out)
      | none => .error .panicked
  | .elements sub => cmi schemas out sub
  | .properties req opt _ =>
    match cmiList schemas out req with
    | .error e => .error e
    | .ok out1 => cmiList schemas out1 opt
  | .values sub => cmi schemas out sub
  | .discriminator _ mapping => cmiList schemas out mapping
  | _ => .ok out

def cmiList (schemas : List (Option String × RSchema))
    (out : List String) : List (String × RSchema) →
    Except CompErr (List String)
  | [] => .ok out
  | (_, s) :: rest =>
    match cmi schemas out s with
    | .error e => .error e
    | .ok out1 => cmiList schemas out1 rest
end

/-- The `for schema in self.schemas.values()` loop of `register`. -/
def cmiAll (schemas : List (Option String × RSchema))
    (out : List String) : List (Option String × RSchema) →
    Except CompErr (List String)
  | [] => .ok out
  | (_, s) :: rest =>
    match cmi schemas out s with
    | .error e => .error e
    | .ok out1 => cmiAll schemas out1 rest

/-- `Registry { schemas, missing_ids }`. -/
structure Registry where
  schemas : List (Option String × RSchema)
  missing_ids : List String

/-- How `Registry::register` fails: `JslError::NonRoot`, a
`NoSuchDefinition` bail from `compute_missing_ids`, or a panic inside
it. -/
inductive RegErr where
  | nonRoot
  | noSuchDef (id : Option String) (d : String)
  | panicked
deriving DecidableEq

/-- `Registry::register`.  The schema is inserted under its id *before*
`compute_missing_ids` runs, so a later error leaves the insertion in
place; `missing_ids` is only overwritten on success. -/
def register (r : Registry) (schema : RSchema) :
    Registry × Except RegErr (List String) :=
  match schema.root_data with
  | none => (r, .error .nonRoot)
  | some (.mk id _) =>
    match cmiAll (mapInsert id schema r.schemas) []
        (mapInsert id schema r.schemas) with
    | .error (.noSuchDef i d) =>
      (⟨mapInsert id schema r.schemas, r.missing_ids⟩,
        .error (.noSuchDef i d))
    | .error .panicked =>
      (⟨mapInsert id schema r.schemas, r.missing_ids⟩, .error .panicked)
    | .ok missing =>
      (⟨mapInsert id schema r.schemas, missing⟩, .ok missing)

/-- `Registry::get`. -/
def get (r : Registry) (id : Option String) : Option RSchema :=
  r.schemas.lookup id

/-- `Registry::is_sealed`. -/
def is_sealed (r : Registry) : Bool :=
  r.missing_ids.isEmpty

/-- `Registry::missing_ids`. -/
def missingIds (r : Registry) : List String :=
  r.missing_ids

mutual
/-- Specification-side collector (from the spec's words): the ids of all
references reachable in a schema, including through its root's
definitions. -/
def refIds : RSchema → List (Option String)
  | .mk root form =>
    (match root with
     | some (.mk _ defs) => refIdsList defs
     | none => []) ++ refIdsForm form

def refIdsForm : RForm → List (Option String)
  | .ref id _ => [id]
  | .elements sub => refIds sub
  | .properties req opt _ => refIdsList req ++ refIdsList opt
  | .values sub => refIds sub
  | .discriminator _ m => refIdsList m
  | _ => []

def refIdsList : List (String × RSchema) → List (Option String)
  | [] => []
  | (_, s) :: rest => refIds s ++ refIdsList rest
end

mutual
def rsizeS : RSchema → Nat
  | .mk root form =>
    1 + (match root with
         | some (.mk _ defs) => rsizeL defs
         | none => 0) + rsizeF form

def rsizeF : RForm → Nat
  | .elements sub => 1 + rsizeS sub
  | .properties req opt _ => 1 + rsizeL req + rsizeL opt
  | .values sub => 1 + rsizeS sub
  | .discriminator _ m => 1 + rsizeL m
  | _ => 1

def rsizeL : List (String × RSchema) → Nat
  | [] => 0
  | (_, s) :: rest => 1 + rsizeS s + rsizeL rest
end

/-- Concrete schema used to instantiate the C6 theorem: root schema with
id `http://a` whose form is a reference to the unregistered base
`http://b`. -/
def c6s : RSchema :=
  .mk (some (.mk (some "http://a") [])) (.ref (some "http://b") none)

/-- Concrete schema used for C7: root schema with id `http://a` whose
form references definition `nope` of `http://a` itself — `register`
fails with `NoSuchDefinition` after the insertion already happened. -/
def c7s : RSchema :=
  .mk (some (.mk (some "http://a") [])) (.ref (some "http://a") (some "nope"))

end Reg

/-!
Serde wire form (`serde.rs`).

`SerdeSchema` / `SerdeDiscriminator` with their serde attributes:
renamed keys (`definitions`, `ref`, `type`, `elements`, `properties`,
`optionalProperties`), the wire name `propertyName` for the
discriminator tag, `skip_serializing_if` on every optional field, and
the flattened `extra` catch-all.  `from_json` models
`serde_json::from_value::<SerdeSchema>` (an absent key and an explicit
`null` both deserialize an `Option` field to `None`; unknown keys of a
`SerdeDiscriminator` object are ignored, serde's default), `to_json`
models `serde_json::to_value` (fields in declaration order, `None`
fields skipped).  JSON maps are association lists; on duplicate keys the
first binding is used (a determinization of `serde_json`'s map
semantics).
-/
namespace SerdeEmb

mutual
inductive SerdeSchema where
  | mk (id : Option String)
       (defs : Option (List (String × SerdeSchema)))
       (rxf : Option String)
       (typ : Option String)
       (elems : Option SerdeSchema)
       (props : Option (List (String × SerdeSchema)))
       (opt_props : Option (List (String × SerdeSchema)))
       (values : Option SerdeSchema)
       (discriminator : Option SerdeDiscriminator)
       (extra : List (String × Json))

inductive SerdeDiscriminator where
  | mk (tag : String) (mapping : List (String × SerdeSchema))
end

def SerdeSchema.extra : SerdeSchema → List (String × Json)
  | .mk _ _ _ _ _ _ _ _ _ e => e

def SerdeSchema.discriminator : SerdeSchema → Option SerdeDiscriminator
  | .mk _ _ _ _ _ _ _ _ d _ => d

def SerdeSchema.enum_field : SerdeSchema → Option (List String) := fun _ => none

/-- The nine keyword keys consumed by named fields; everything else goes
to the flattened `extra`. -/
def isKeyword (k : String) : Bool :=
  k == "id" || k == "definitions" || k == "ref" || k == "type" ||
  k == "elements" || k == "properties" || k == "optionalProperties" ||
  k == "values" || k == "discriminator"

/-- Deserialize an `Option<String>` field named `k`: absent or `null`
gives `none`; a string gives `some`; anything else is an error. -/
def lookStr : List (String × Json) → String → Option (Option String)
  | [], _ => some none
  | (k0, v) :: rest, k =>
    if k0 == k then
      match v with
      | .null => some none
      | .str s => some (some s)
      | _ => none
    else lookStr rest k

mutual
/-- `serde_json::from_value::<SerdeSchema>`. -/
def from_json : Json → Option SerdeSchema
  | .obj kvs =>
    match lookStr kvs "id", lookMap kvs "definitions", lookStr kvs "ref",
          lookStr kvs "type", lookSchema kvs "elements",
          lookMap kvs "properties", lookMap kvs "optionalProperties",
          lookSchema kvs "values", lookDisc kvs with
    | some id, some defs, some rxf, some typ, some elems, some props,
      some opts, some vals, some disc =>
      some (.mk id defs rxf typ elems props opts vals disc
        (kvs.filter (fun kv => !(isKeyword kv.1))))
    | _, _, _, _, _, _, _, _, _ => none
  | _ => none

def from_jsonList : List (String × Json) → Option (List (String × SerdeSchema))
  | [] => some []
  | (k0, v) :: rest =>
    match from_json v with
    | some s =>
      match from_jsonList rest with
      | some m => some ((k0, s) :: m)
      | none => none
    | none => none

/-- Deserialize an `Option<Box<SerdeSchema>>` field named `k`. -/
def lookSchema : List (String × Json) → String → Option (Option SerdeSchema)
  | [], _ => some none
  | (k0, v) :: rest, k =>
    if k0 == k then
      match v with
      | .null => some none
      | _ =>
        match from_json v with
        | some s => some (some s)
        | none => none
    else lookSchema rest k

/-- Deserialize an `Option<HashMap<String, SerdeSchema>>` field named
`k`. -/
def lookMap : List (String × Json) → String →
    Option (Option (List (String × SerdeSchema)))
  | [], _ => some none
  | (k0, v) :: rest, k =>
    if k0 == k then
      match v with
      | .null => some none
      | .obj l =>
        match from_jsonList l with
        | some m => some (some m)
        | none => none
      | _ => none
    else lookMap rest k

/-- Deserialize the `discriminator` field: its value must be an object
with a string `propertyName` and a map `mapping`; other keys are
ignored. -/
def lookDisc : List (String × Json) → Option (Option SerdeDiscriminator)
  | [] => some none
  | (k0, v) :: rest =>
    if k0 == "discriminator" then
      match v with
      | .null => some none
      | .obj l =>
        match l.lookup "propertyName" with
        | some (.str t) =>
          match lookMapField l with
          | some m => some (some (.mk t m))
          | none => none
        | _ => none
      | _ => none
    else lookDisc rest

/-- The required `mapping` field of a `SerdeDiscriminator`. -/
def lookMapField : List (String × Json) → Option (List (String × SerdeSchema))
  | [] => none
  | (k0, v) :: rest =>
    if k0 == "mapping" then
      match v with
      | .obj l => from_jsonList l
      | _ => none
    else lookMapField rest
end

/-- The wire entry for an optional string field: skipped when `None`. -/
def entS (k : String) : Option String → List (String × Json)
  | some s => [(k, Json.str s)]
  | none => []

/-- The wire entry for an optional field already serialized to a JSON
value: skipped when `None`. -/
def entJ (k : String) : Option Json → List (String × Json)
  | some j => [(k, j)]
  | none => []

mutual
/-- `serde_json::to_value::<SerdeSchema>`: declared fields in order,
`None` skipped, then the flattened `extra`. -/
def to_json : SerdeSchema → Json
  | .mk id defs rxf typ elems props opts vals disc extra =>
    .obj (entS "id" id ++
      (entJ "definitions" (to_jsonMap defs) ++
      (entS "ref" rxf ++
      (entS "type" typ ++
      (entJ "elements" (to_jsonOpt elems) ++
      (entJ "properties" (to_jsonMap props) ++
      (entJ "optionalProperties" (to_jsonMap opts) ++
      (entJ "values" (to_jsonOpt vals) ++
      (entJ "discriminator" (to_jsonDisc disc) ++
      extra)))))))))

def to_jsonOpt : Option SerdeSchema → Option Json
  | some s => some (to_json s)
  | none => none

def to_jsonMap : Option (List (String × SerdeSchema)) → Option Json
  | some l => some (.obj (to_jsonList l))
  | none => none

def to_jsonDisc : Option SerdeDiscriminator → Option Json
  | some (.mk t m) =>
    some (.obj [("propertyName", Json.str t),
                ("mapping", Json.obj (to_jsonList m))])
  | none => none

def to_jsonList : List (String × SerdeSchema) → List (String × Json)
  | [] => []
  | (k, s) :: rest => (k, to_json s) :: to_jsonList rest
end

mutual
/-- Order-insensitive JSON document equivalence: objects are compared by
key lookup in both directions, arrays pointwise. -/
def jeq : Json → Json → Bool
  | .null, .null => true
  | .bool a, .bool b => a == b
  | .num a, .num b => a == b
  | .str a, .str b => a == b
  | .arr xs, .arr ys => jeqArr xs ys
  | .obj xs, .obj ys =>
    jeqObjSub xs ys && ys.all (fun kv => (xs.lookup kv.1).isSome)
  | _, _ => false

def jeqArr : List Json → List Json → Bool
  | [], [] => true
  | x :: xs, y :: ys => jeq x y && jeqArr xs ys
  | _, _ => false

def jeqObjSub : List (String × Json) → List (String × Json) → Bool
  | [], _ => true
  | (k, v) :: rest, ys =>
    (match ys.lookup k with
     | some w => jeq v w
     | none => false) && jeqObjSub rest ys
end

mutual
/-- Every object reachable in the document has duplicate-free keys. -/
def wfJson : Json → Bool
  | .obj l => decide ((l.map Prod.fst).Nodup) && wfJsonO l
  | .arr xs => wfJsonA xs
  | _ => true

def wfJsonA : List Json → Bool
  | [] => true
  | x :: xs => wfJson x && wfJsonA xs

def wfJsonO : List (String × Json) → Bool
  | [] => true
  | (_, v) :: rest => wfJson v && wfJsonO rest
end

mutual
/-- The strict documents for which deserialize-then-serialize is
lossless: an object with duplicate-free keys whose keyword entries are
non-`null` and recursively strict, whose `discriminator` objects carry
exactly `propertyName` and `mapping`, and whose unknown entries are
well-formed JSON. -/
def strictS : Json → Bool
  | .obj kvs => decide ((kvs.map Prod.fst).Nodup) && strictL kvs
  | _ => false

def strictL : List (String × Json) → Bool
  | [] => true
  | (k, v) :: rest =>
    (if k == "elements" || k == "values" then strictS v
     else if k == "definitions" || k == "properties" ||
         k == "optionalProperties" then strictMap v
     else if k == "discriminator" then strictDisc v
     else if k == "id" || k == "ref" || k == "type" then
       (match v with | .null => false | _ => true)
     else wfJson v) && strictL rest

def strictMap : Json → Bool
  | .obj l => decide ((l.map Prod.fst).Nodup) && strictLS l
  | _ => false

def strictLS : List (String × Json) → Bool
  | [] => true
  | (_, v) :: rest => strictS v && strictLS rest

def strictDisc : Json → Bool
  | .obj l => decide ((l.map Prod.fst).Nodup) && strictDiscL l
  | _ => false

def strictDiscL : List (String × Json) → Bool
  | [] => true
  | (k, v) :: rest =>
    (if k == "propertyName" then true
     else if k == "mapping" then strictMap v
     else false) && strictDiscL rest
end

/-- The condition `strictL` applies to a single entry. -/
def strictEntry (k : String) (v : Json) : Bool :=
  if k == "elements" || k == "values" then strictS v
  else if k == "definitions" || k == "properties" ||
      k == "optionalProperties" then strictMap v
  else if k == "discriminator" then strictDisc v
  else if k == "id" || k == "ref" || k == "type" then
    (match v with | .null => false | _ => true)
  else wfJson v

theorem strictL_cons (k : String) (v : Json)
    (rest : List (String × Json)) :
    strictL ((k, v) :: rest) = (strictEntry k v && strictL rest) := rfl

mutual
def jsize : Json → Nat
  | .null | .bool _ | .num _ | .str _ => 1
  | .arr xs => 1 + jsizeA xs
  | .obj xs => 1 + jsizeO xs

def jsizeA : List Json → Nat
  | [] => 0
  | x :: xs => jsize x + jsizeA xs

def jsizeO : List (String × Json) → Nat
  | [] => 0
  | (_, v) :: xs => jsize v + jsizeO xs
end

/-- The empty `SerdeSchema` (every field `None`, `extra` empty):
`SerdeSchema::default()`. -/
def sdefault : SerdeSchema :=
  .mk none none none none none none none none none []

end SerdeEmb

/-!
First-generation canonicalizer (`schema.rs`).

`Registry::first_pass` of `schema.rs`: `SerdeSchema` (the wire form
above) to the first-generation `Schema` with `SchemaForm`.  `Url` is a
`String` validated by a caller-supplied `url_ok` predicate; `HashMap`s
are association lists in input order (a determinization).  Each keyword
arm mirrors the source, including which arms test
`form != SchemaForm::Empty` before overwriting `form`.
-/
namespace Gen1

mutual
inductive G1Schema where
  | mk (root_data : Option G1Root) (form : G1Form)
       (extra : List (String × Json))

inductive G1Root where
  | mk (id : Option String) (defs : List (String × G1Schema))

inductive G1Form where
  | empty
  | ref (uri : String) (resolved_schema_id : Option String)
      (resolved_schema_def : Option String)
  | typ (t : G1Primitive)
  | elements (sub : G1Schema)
  | properties (required optional : List (String × G1Schema))
  | values (sub : G1Schema)
  | discriminator (tag : String) (mapping : List (String × G1Schema))

inductive G1Primitive where
  | null | bool | num | str
end

def G1Schema.form : G1Schema → G1Form
  | .mk _ f _ => f

def G1Schema.root_data : G1Schema → Option G1Root
  | .mk r _ _ => r

def isEmptyForm : G1Form → Bool
  | .empty => true
  | _ => false

/-- `ErrorKind`s `first_pass` can produce: `InvalidForm`,
`AmbiguousProperty`, and the `Url::parse` failure on a bad `id`. -/
inductive FPErr where
  | invalidForm
  | ambiguousProperty
  | badId
deriving DecidableEq

/-- `Type` arm: reject a non-`Empty` form, then parse the primitive
type name (anything else is `InvalidForm`). -/
def fpTyp (form : G1Form) : Option String → Except FPErr G1Form
  | none => .ok form
  | some t =>
    if isEmptyForm form then
      if t == "null" then .ok (.typ .null)
      else if t == "boolean" then .ok (.typ .bool)
      else if t == "number" then .ok (.typ .num)
      else if t == "string" then .ok (.typ .str)
      else .error .invalidForm
    else .error .invalidForm

mutual
/-- `Registry::first_pass`.  The `Ref`, `Type`, `Elements`, `Values`
and `Discriminator` arms test `form != SchemaForm::Empty` (`Ref` being
first needs no test); the `Properties` arm — faithful to the source —
does not, and overwrites whatever form was already set. -/
def first_pass (url_ok : String → Bool) (is_root : Bool) :
    SerdeEmb.SerdeSchema → Except FPErr G1Schema
  | .mk id defs rxf typ elems props opt_props vals disc extra =>
    match ((if is_root then
      (match (match id with
              | some i =>
                if url_ok i then Except.ok (some i)
                else Except.error FPErr.badId
              | none =>
                (Except.ok none : Except FPErr (Option String))) with
       | .error e => .error e
       | .ok pid =>
         match (match defs with
                | some l => fpList url_ok l
                | none =>
                  (.ok [] :
                    Except FPErr (List (String × G1Schema)))) with
         | .error e => .error e
         | .ok pdefs =>
           (.ok (some (G1Root.mk pid pdefs)) :
             Except FPErr (Option G1Root)))
     else .ok none) : Except FPErr (Option G1Root)) with
    | .error e => .error e
    | .ok root_data =>
      match fpTyp (match rxf with
                   | some u => G1Form.ref u none none
                   | none => G1Form.empty) typ with
      | .error e => .error e
      | .ok form2 =>
        match (match elems with
               | none => Except.ok form2
               | some sub =>
                 if isEmptyForm form2 then
                   match first_pass url_ok false sub with
                   | .error e => .error e
                   | .ok p => .ok (G1Form.elements p)
                 else .error .invalidForm) with
        | .error e => .error e
        | .ok form3 =>
          match (match props with
                 | some pl => fpList url_ok pl
                 | none =>
                   (.ok [] :
                     Except FPErr (List (String × G1Schema)))) with
          | .error e => .error e
          | .ok req =>
            match (match opt_props with
                   | some ol => fpOptList url_ok req ol
                   | none =>
                     (.ok [] :
                       Except FPErr (List (String × G1Schema)))) with
            | .error e => .error e
            | .ok opt =>
              match (if props.isSome || opt_props.isSome then
                       G1Form.properties req opt
                     else form3) with
              | form4 =>
                match (match vals with
                       | none => Except.ok form4
                       | some sub =>
                         if isEmptyForm form4 then
                           match first_pass url_ok false sub with
                           | .error e => .error e
                           | .ok p => .ok (G1Form.values p)
                         else .error .invalidForm) with
                | .error e => .error e
                | .ok form5 =>
                  match (match disc with
                         | none => Except.ok form5
                         | some (.mk tag mapping) =>
                           if isEmptyForm form5 then
                             match fpDiscList url_ok tag mapping with
                             | .error e => .error e
                             | .ok m => .ok (G1Form.discriminator tag m)
                           else .error .invalidForm) with
                  | .error e => .error e
                  | .ok form6 => .ok (G1Schema.mk root_data form6 extra)

def fpList (url_ok : String → Bool) :
    List (String × SerdeEmb.SerdeSchema) →
    Except FPErr (List (String × G1Schema))
  | [] => .ok []
  | (k, s) :: rest =>
    match first_pass url_ok false s with
    | .error e => .error e
    | .ok p =>
      match fpList url_ok rest with
      | .error e => .error e
      | .ok m => .ok ((k, p) :: m)

/-- `optionalProperties` loop: a key already in `required` is
`AmbiguousProperty`. -/
def fpOptList (url_ok : String → Bool)
    (required : List (String × G1Schema)) :
    List (String × SerdeEmb.SerdeSchema) →
    Except FPErr (List (String × G1Schema))
  | [] => .ok []
  | (name, sub) :: rest =>
    if (required.lookup name).isSome then .error .ambiguousProperty
    else
      match first_pass url_ok false sub with
      | .error e => .error e
      | .ok p =>
        match fpOptList url_ok required rest with
        | .error e => .error e
        | .ok m => .ok ((name, p) :: m)

/-- Mapping loop of the `Discriminator` arm: every mapped schema must
canonicalize to a `Properties` form not mentioning the tag, else
`AmbiguousProperty`. -/
def fpDiscList (url_ok : String → Bool) (tag : String) :
    List (String × SerdeEmb.SerdeSchema) →
    Except FPErr (List (String × G1Schema))
  | [] => .ok []
  | (name, sub) :: rest =>
    match first_pass url_ok false sub with
    | .error e => .error e
    | .ok parsed =>
      match parsed.form with
      | .properties req opt =>
        if (req.lookup tag).isSome || (opt.lookup tag).isSome then
          .error .ambiguousProperty
        else
          match fpDiscList url_ok tag rest with
          | .error e => .error e
          | .ok m => .ok ((name, parsed) :: m)
      | _ => .error .ambiguousProperty
end

end Gen1

-- ===== further definitions are inserted above this line =====


/-! ## Theorems -/

namespace Vm

theorem push_err_cases (ctx : Ctx) (st : VmState) :
    (push_err ctx st = .ok { st with errors := st.errors ++
        [⟨st.instance_tokens.reverse, st.cur_schema_tokens.reverse⟩] }) ∨
    (push_err ctx st = .stop { st with errors := st.errors ++
        [⟨st.instance_tokens.reverse, st.cur_schema_tokens.reverse⟩] }
      .internal) := by
  unfold push_err
  split
  · exact Or.inr rfl
  · exact Or.inl rfl

/-- Any `push_err` site wrapped in trailing pops `f` yields exactly one
appended error, built from the instance path and active frame at the
site, and continues on an `Ok` or error-budget path. -/
theorem stop_or_push_err_spec (ctx : Ctx) (st : VmState)
    (f : VmState → VmState) (hf : ∀ u, (f u).errors = u.errors) :
    ∃ r, stop_or f (push_err ctx st) = some r ∧
      errs_of r = st.errors ++
        [⟨st.instance_tokens.reverse, st.cur_schema_tokens.reverse⟩] ∧
      ok_or_internal r := by
  rcases push_err_cases ctx st with h | h <;> rw [h]
  · refine ⟨_, rfl, ?_, trivial⟩
    show (f _).errors = _
    rw [hf]
  · exact ⟨_, rfl, rfl, trivial⟩

theorem err_then_pop_spec (ctx : Ctx) (st : VmState) :
    ∃ r, err_then_pop ctx st = some r ∧
      errs_of r = st.errors ++
        [⟨st.instance_tokens.reverse, st.cur_schema_tokens.reverse⟩] ∧
      ok_or_internal r :=
  stop_or_push_err_spec ctx st pop_schema_token (fun _ => rfl)

theorem eval_succ (ctx : Ctx) (fuel : Nat) (schema : Schema) (inst : Json)
    (pt : Option String) (st : VmState) :
    eval ctx (fuel + 1) schema inst pt st =
      evalBody ctx (eval ctx fuel) schema inst pt st := rfl

/-- C5: evaluating a `Properties(required, optional, has_required)` schema
against a non-object instance emits exactly one error, whose schema path
ends in `properties` when `has_required` holds and in `optionalProperties`
otherwise, at the unchanged instance path. -/
theorem c5_properties_non_object (ctx : Ctx) (fuel : Nat) (schema : Schema)
    (req opt : List (String × Schema)) (has_required : Bool) (inst : Json)
    (pt : Option String) (st : VmState)
    (hform : schema.form = .properties req opt has_required)
    (hobj : ∀ kvs, inst ≠ .obj kvs) :
    ∃ r, eval ctx (fuel + 1) schema inst pt st = some r ∧
      errs_of r = st.errors ++
        [⟨st.instance_tokens.reverse,
          st.cur_schema_tokens.reverse ++
            [if has_required then "properties" else "optionalProperties"]⟩] ∧
      ok_or_internal r := by
  obtain ⟨r, h1, h2, h3⟩ := err_then_pop_spec ctx
    (push_schema_token
      (if has_required then "properties" else "optionalProperties") st)
  refine ⟨r, ?_, ?_, h3⟩
  · rw [eval_succ]
    unfold evalBody
    rw [hform]
    cases inst with
    | obj kvs => exact absurd rfl (hobj kvs)
    | null => exact h1
    | bool b => exact h1
    | num n => exact h1
    | str s => exact h1
    | arr xs => exact h1
  · rw [h2]
    simp [push_schema_token]

/-- C10: evaluating a `Discriminator(tag, mapping)` schema against a
non-object instance emits exactly one error whose schema path ends in the
single token `discriminator`, at the unchanged instance path. -/
theorem c10_discriminator_non_object (ctx : Ctx) (fuel : Nat)
    (schema : Schema) (tag : String) (mapping : List (String × Schema))
    (inst : Json) (pt : Option String) (st : VmState)
    (hform : schema.form = .discriminator tag mapping)
    (hobj : ∀ kvs, inst ≠ .obj kvs) :
    ∃ r, eval ctx (fuel + 1) schema inst pt st = some r ∧
      errs_of r = st.errors ++
        [⟨st.instance_tokens.reverse,
          st.cur_schema_tokens.reverse ++ ["discriminator"]⟩] ∧
      ok_or_internal r := by
  obtain ⟨r, h1, h2, h3⟩ := stop_or_push_err_spec ctx
    (push_schema_token "discriminator" st) (fun st2 => st2) (fun _ => rfl)
  refine ⟨r, ?_, ?_, h3⟩
  · rw [eval_succ]
    unfold evalBody
    rw [hform]
    cases inst with
    | obj kvs => exact absurd rfl (hobj kvs)
    | null => exact h1
    | bool b => exact h1
    | num n => exact h1
    | str s => exact h1
    | arr xs => exact h1
  · rw [h2]
    simp [push_schema_token]

theorem c5_properties_non_object_witness :
    (Schema.mk none (.properties [] [] true)).form =
      Form.properties [] [] true ∧
    (∀ kvs, Json.null ≠ Json.obj kvs) ∧
    ∃ r, eval (mkCtx (Schema.mk none (.properties [] [] true))) (0 + 1)
        (Schema.mk none (.properties [] [] true)) Json.null none st0 =
        some r ∧
      errs_of r = st0.errors ++
        [⟨st0.instance_tokens.reverse,
          st0.cur_schema_tokens.reverse ++
            [if true then "properties" else "optionalProperties"]⟩] ∧
      ok_or_internal r :=
  ⟨rfl, fun _ h => Json.noConfusion h,
    c5_properties_non_object _ 0 _ [] [] true Json.null none st0 rfl
      (fun _ h => Json.noConfusion h)⟩

theorem c10_discriminator_non_object_witness :
    (Schema.mk none (.discriminator "t" [])).form =
      Form.discriminator "t" [] ∧
    (∀ kvs, Json.num 3 ≠ Json.obj kvs) ∧
    ∃ r, eval (mkCtx (Schema.mk none (.discriminator "t" []))) (0 + 1)
        (Schema.mk none (.discriminator "t" [])) (Json.num 3) none st0 =
        some r ∧
      errs_of r = st0.errors ++
        [⟨st0.instance_tokens.reverse,
          st0.cur_schema_tokens.reverse ++ ["discriminator"]⟩] ∧
      ok_or_internal r :=
  ⟨rfl, fun _ h => Json.noConfusion h,
    c10_discriminator_non_object _ 0 _ "t" [] (Json.num 3) none st0 rfl
      (fun _ h => Json.noConfusion h)⟩

/-- C4: evaluating a `Discriminator(tag, mapping)` schema against an
object instance: (a) missing tag key ⇒ one error at `discriminator/tag`
with the unextended instance path; (b) non-string tag value ⇒ one error at
`discriminator/tag` with the instance path extended by the tag; (c) tag
string not in the mapping ⇒ one error at `discriminator/mapping` with the
instance path extended by the tag; (d) otherwise the evaluator recurses
into the mapped sub-schema passing the tag down as `parent_tag`, and (e)
the strict-instance-semantics key check never reports the inherited tag
key as an unknown property. -/
theorem c4_discriminator_object (ctx : Ctx) (fuel : Nat) (schema : Schema)
    (tag : String) (mapping : List (String × Schema)) (pt : Option String)
    (st : VmState)
    (hform : schema.form = .discriminator tag mapping) :
    (∀ kvs, kvs.lookup tag = none →
      ∃ r, eval ctx (fuel + 1) schema (.obj kvs) pt st = some r ∧
        errs_of r = st.errors ++
          [⟨st.instance_tokens.reverse,
            st.cur_schema_tokens.reverse ++ ["discriminator", "tag"]⟩] ∧
        ok_or_internal r) ∧
    (∀ kvs v, kvs.lookup tag = some v → (∀ s, v ≠ .str s) →
      ∃ r, eval ctx (fuel + 1) schema (.obj kvs) pt st = some r ∧
        errs_of r = st.errors ++
          [⟨st.instance_tokens.reverse ++ [tag],
            st.cur_schema_tokens.reverse ++ ["discriminator", "tag"]⟩] ∧
        ok_or_internal r) ∧
    (∀ kvs sv, kvs.lookup tag = some (.str sv) → mapping.lookup sv = none →
      ∃ r, eval ctx (fuel + 1) schema (.obj kvs) pt st = some r ∧
        errs_of r = st.errors ++
          [⟨st.instance_tokens.reverse ++ [tag],
            st.cur_schema_tokens.reverse ++ ["discriminator", "mapping"]⟩] ∧
        ok_or_internal r) ∧
    (∀ kvs sv sub, kvs.lookup tag = some (.str sv) →
      mapping.lookup sv = some sub →
      eval ctx (fuel + 1) schema (.obj kvs) pt st =
        wrap_ok (fun st2 => pop_schema_token (pop_schema_token st2))
          (eval ctx fuel sub (.obj kvs) (some tag)
            (push_schema_token sv
              (push_schema_token "mapping"
                (push_schema_token "discriminator" st))))) ∧
    (∀ required optional v st',
      strict_key_check ctx (some tag) required optional (tag, v) st' =
        some (.ok st')) := by
  refine ⟨?_, ?_, ?_, ?_, ?_⟩
  · intro kvs hlk
    obtain ⟨r, h1, h2, h3⟩ := err_then_pop_spec ctx
      (push_schema_token "tag" (push_schema_token "discriminator" st))
    refine ⟨r, ?_, ?_, h3⟩
    · rw [eval_succ]
      unfold evalBody
      rw [hform]
      simp only [hlk]
      exact h1
    · rw [h2]
      simp [push_schema_token]
  · intro kvs v hlk hnstr
    obtain ⟨r, h1, h2, h3⟩ := stop_or_push_err_spec ctx
      (push_instance_token tag
        (push_schema_token "tag" (push_schema_token "discriminator" st)))
      (fun st2 => pop_schema_token (pop_instance_token st2)) (fun _ => rfl)
    refine ⟨r, ?_, ?_, h3⟩
    · rw [eval_succ]
      unfold evalBody
      rw [hform]
      simp only [hlk]
      cases v with
      | str s => exact absurd rfl (hnstr s)
      | null => exact h1
      | bool b => exact h1
      | num n => exact h1
      | arr xs => exact h1
      | obj kv => exact h1
    · rw [h2]
      simp [push_schema_token, push_instance_token]
  · intro kvs sv hlk hmiss
    obtain ⟨r, h1, h2, h3⟩ := stop_or_push_err_spec ctx
      (push_instance_token tag
        (push_schema_token "mapping" (push_schema_token "discriminator" st)))
      (fun st2 => pop_schema_token (pop_instance_token st2)) (fun _ => rfl)
    refine ⟨r, ?_, ?_, h3⟩
    · rw [eval_succ]
      unfold evalBody
      rw [hform]
      simp only [hlk, hmiss]
      exact h1
    · rw [h2]
      simp [push_schema_token, push_instance_token]
  · intro kvs sv sub hlk hhit
    rw [eval_succ]
    unfold evalBody
    rw [hform]
    simp only [hlk, hhit]
  · intro required optional v st'
    simp [strict_key_check]

theorem c4_discriminator_object_witness :
    c4D.form = Form.discriminator "t" c4map ∧
    ([] : List (String × Json)).lookup "t" = none ∧
    ∃ r, eval (mkCtx c4D) (0 + 1) c4D (.obj []) none st0 = some r ∧
      errs_of r = st0.errors ++
        [⟨st0.instance_tokens.reverse,
          st0.cur_schema_tokens.reverse ++ ["discriminator", "tag"]⟩] ∧
      ok_or_internal r :=
  ⟨rfl, rfl,
    (c4_discriminator_object (mkCtx c4D) 0 c4D "t" c4map none st0 rfl).1
      [] rfl⟩

theorem errors_pop_frame (st : VmState) : (pop_frame st).errors = st.errors := by
  unfold pop_frame
  split <;> rfl

theorem cap_push_err (ctx : Ctx) (st : VmState)
    (h : st.errors.length < ctx.max_failures) :
    cap_ok ctx (push_err ctx st) := by
  unfold push_err
  split
  · next hc => exact le_of_eq hc
  · next hc =>
    show (st.errors ++ [_]).length < _
    simp only [List.length_append, List.length_cons, List.length_nil] at hc ⊢
    omega

theorem cap_stop_or (ctx : Ctx) (s : VmState) {f : VmState → VmState}
    {r : Outcome} (hs : s.errors.length < ctx.max_failures)
    (h : stop_or f (push_err ctx s) = some r)
    (hf : ∀ u, (f u).errors = u.errors) : cap_ok ctx r := by
  have hc := cap_push_err ctx s hs
  cases hp : push_err ctx s with
  | ok u =>
    rw [hp] at h hc
    obtain rfl : Outcome.ok (f u) = r := by
      unfold stop_or at h
      injection h
    show (f u).errors.length < _
    rw [hf]
    exact hc
  | stop u e =>
    rw [hp] at h hc
    obtain rfl : Outcome.stop u e = r := by
      unfold stop_or at h
      injection h
    exact hc

theorem cap_err_then_pop (ctx : Ctx) (st : VmState) (r : Outcome)
    (hs : st.errors.length < ctx.max_failures)
    (he : err_then_pop ctx st = some r) : cap_ok ctx r :=
  cap_stop_or ctx st hs he (fun _ => rfl)

theorem cap_wrap_ok (ctx : Ctx) {X : Option Outcome}
    {f : VmState → VmState} {r : Outcome}
    (h : wrap_ok f X = some r)
    (hX : ∀ r0, X = some r0 → cap_ok ctx r0)
    (hf : ∀ u, (f u).errors = u.errors) : cap_ok ctx r := by
  cases X with
  | none => exact absurd h (by simp [wrap_ok])
  | some r0 =>
    cases r0 with
    | ok s =>
      obtain rfl : Outcome.ok (f s) = r := by
        unfold wrap_ok at h
        injection h
      show (f s).errors.length < _
      rw [hf]
      exact hX _ rfl
    | stop s e =>
      obtain rfl : Outcome.stop s e = r := by
        unfold wrap_ok at h
        injection h
      exact hX _ rfl

theorem cap_bind_ok (ctx : Ctx) {X : Option Outcome}
    {k : VmState → Option Outcome} {r : Outcome}
    (h : bind_ok k X = some r)
    (hX : ∀ r0, X = some r0 → cap_ok ctx r0)
    (hk : ∀ s, s.errors.length < ctx.max_failures → k s = some r →
      cap_ok ctx r) : cap_ok ctx r := by
  cases X with
  | none => exact absurd h (by simp [bind_ok])
  | some r0 =>
    cases r0 with
    | ok s =>
      unfold bind_ok at h
      exact hk s (hX _ rfl) h
    | stop s e =>
      obtain rfl : Outcome.stop s e = r := by
        unfold bind_ok at h
        injection h
      exact hX _ rfl

theorem cap_seqAll (ctx : Ctx) (g : α → VmState → Option Outcome)
    (hg : ∀ x s r, s.errors.length < ctx.max_failures → g x s = some r →
      cap_ok ctx r) :
    ∀ (xs : List α) (s : VmState) (r : Outcome),
      s.errors.length < ctx.max_failures → seqAll g xs s = some r →
      cap_ok ctx r := by
  intro xs
  induction xs with
  | nil =>
    intro s r hs h
    unfold seqAll at h
    obtain rfl : Outcome.ok s = r := by injection h
    exact hs
  | cons x xs ih =>
    intro s r hs h
    unfold seqAll at h
    cases hgx : g x s with
    | none => rw [hgx] at h; exact absurd h (by simp)
    | some r0 =>
      rw [hgx] at h
      cases r0 with
      | ok s' => exact ih s' r (hg x s _ hs hgx) h
      | stop s' e =>
        obtain rfl : Outcome.stop s' e = r := by injection h
        exact hg x s _ hs hgx

theorem cap_check_int (ctx : Ctx) (inst : Json) (mn mx : Int) (st : VmState)
    (r : Outcome) (hs : st.errors.length < ctx.max_failures)
    (h : check_int ctx inst mn mx st = some r) : cap_ok ctx r := by
  cases inst <;> simp only [check_int] at h
  case num n =>
    split at h
    · exact cap_err_then_pop ctx (push_schema_token "type" st) r hs h
    · obtain rfl : Outcome.ok st = r := by injection h
      exact hs
  all_goals exact cap_err_then_pop ctx (push_schema_token "type" st) r hs h

theorem cap_ite_ok_err (ctx : Ctx) (st : VmState) (r : Outcome) (c : Bool)
    (hs : st.errors.length < ctx.max_failures)
    (h : (if c = true then some (Outcome.ok st)
          else err_then_pop ctx (push_schema_token "type" st)) = some r) :
    cap_ok ctx r := by
  split at h
  · obtain rfl : Outcome.ok st = r := by injection h
    exact hs
  · exact cap_err_then_pop ctx (push_schema_token "type" st) r hs h

theorem cap_eval_type (ctx : Ctx) (t : Ty) (inst : Json) (st : VmState)
    (r : Outcome) (hs : st.errors.length < ctx.max_failures)
    (h : eval_type ctx t inst st = some r) : cap_ok ctx r := by
  cases t <;> cases inst <;> simp only [eval_type] at h <;>
    first
    | exact cap_check_int ctx _ _ _ _ r hs h
    | exact cap_ite_ok_err ctx st r _ hs h
    | exact cap_err_then_pop ctx (push_schema_token "type" st) r hs h
    | (obtain rfl : Outcome.ok st = r := by injection h
       exact hs)

theorem cap_strict_key_check (ctx : Ctx) (pt : Option String)
    (required optional : List (String × Schema)) (kv : String × Json)
    (st : VmState) (r : Outcome) (hs : st.errors.length < ctx.max_failures)
    (h : strict_key_check ctx pt required optional kv st = some r) :
    cap_ok ctx r := by
  unfold strict_key_check at h
  split at h
  · exact cap_stop_or ctx (push_instance_token kv.1 st) hs h (fun _ => rfl)
  · obtain rfl : Outcome.ok st = r := by injection h
    exact hs

theorem cap_evalBody (ctx : Ctx)
    (recur : Schema → Json → Option String → VmState → Option Outcome)
    (hrec : ∀ schema inst pt s r, s.errors.length < ctx.max_failures →
      recur schema inst pt s = some r → cap_ok ctx r)
    (schema : Schema) (inst : Json) (pt : Option String) (st : VmState)
    (r : Outcome) (hs : st.errors.length < ctx.max_failures)
    (h : evalBody ctx recur schema inst pt st = some r) : cap_ok ctx r := by
  rcases schema with ⟨defs, form⟩
  cases form with
  | empty =>
    simp only [evalBody, Schema.form] at h
    obtain rfl : Outcome.ok st = r := by injection h
    exact hs
  | ref d =>
    simp only [evalBody, Schema.form] at h
    split at h
    · obtain rfl : Outcome.stop st .maxDepth = r := by injection h
      exact le_of_lt hs
    · cases hdef : ctx.root_schema.definitions with
      | none =>
        simp only [hdef] at h
        obtain rfl : Outcome.stop st .panicked = r := by injection h
        exact le_of_lt hs
      | some ds =>
        simp only [hdef] at h
        cases hlk : ds.lookup d with
        | none =>
          simp only [hlk] at h
          obtain rfl : Outcome.stop st .panicked = r := by injection h
          exact le_of_lt hs
        | some refd =>
          simp only [hlk] at h
          exact cap_wrap_ok ctx h
            (fun r0 hr0 =>
              hrec _ _ _ (push_frame [d, "definitions"] st) r0 hs hr0)
            errors_pop_frame
  | typ t =>
    simp only [evalBody, Schema.form] at h
    exact cap_eval_type ctx t inst st r hs h
  | enum vals =>
    cases inst <;> simp only [evalBody, Schema.form] at h
    case str s =>
      split at h
      · obtain rfl : Outcome.ok st = r := by injection h
        exact hs
      · exact cap_err_then_pop ctx (push_schema_token "enum" st) r hs h
    all_goals exact cap_err_then_pop ctx (push_schema_token "enum" st) r hs h
  | elements sub =>
    cases inst <;> simp only [evalBody, Schema.form] at h
    case arr xs =>
      refine cap_wrap_ok ctx h (fun r0 hr0 => ?_) (fun u => rfl)
      refine cap_seqAll ctx _ (fun x s rx hsx hgx => ?_) xs.enum
        (push_schema_token "elements" st) r0 hs hr0
      exact cap_wrap_ok ctx hgx
        (fun r1 hr1 =>
          hrec _ _ _ (push_instance_token (toString x.1) s) r1 hsx hr1)
        (fun u => rfl)
    all_goals
      exact cap_err_then_pop ctx (push_schema_token "elements" st) r hs h
  | values sub =>
    cases inst <;> simp only [evalBody, Schema.form] at h
    case obj kvs =>
      refine cap_wrap_ok ctx h (fun r0 hr0 => ?_) (fun u => rfl)
      refine cap_seqAll ctx _ (fun x s rx hsx hgx => ?_) kvs
        (push_schema_token "values" st) r0 hs hr0
      exact cap_wrap_ok ctx hgx
        (fun r1 hr1 =>
          hrec _ _ _ (push_instance_token x.1 s) r1 hsx hr1)
        (fun u => rfl)
    all_goals
      exact cap_err_then_pop ctx (push_schema_token "values" st) r hs h
  | properties required optional has_required =>
    cases inst <;> simp only [evalBody, Schema.form] at h
    case obj kvs =>
      have hseq1 : ∀ (x : String × Schema) s rx,
          s.errors.length < ctx.max_failures →
          (match kvs.lookup x.1 with
           | some sub_inst =>
             wrap_ok (fun s2 => pop_schema_token (pop_instance_token s2))
               (recur x.2 sub_inst none
                 (push_instance_token x.1 (push_schema_token x.1 s)))
           | none => err_then_pop ctx (push_schema_token x.1 s)) = some rx →
          cap_ok ctx rx := by
        intro x s rx hsx hgx
        cases hk : kvs.lookup x.1 with
        | some sub_inst =>
          rw [hk] at hgx
          exact cap_wrap_ok ctx hgx
            (fun r1 hr1 =>
              hrec _ _ _ (push_instance_token x.1 (push_schema_token x.1 s))
                r1 hsx hr1)
            (fun u => rfl)
        | none =>
          rw [hk] at hgx
          exact cap_err_then_pop ctx (push_schema_token x.1 s) rx hsx hgx
      have hseq2 : ∀ (x : String × Schema) s rx,
          s.errors.length < ctx.max_failures →
          (match kvs.lookup x.1 with
           | some sub_inst =>
             wrap_ok (fun s2 => pop_schema_token (pop_instance_token s2))
               (recur x.2 sub_inst none
                 (push_instance_token x.1 (push_schema_token x.1 s)))
           | none =>
             some (Outcome.ok (pop_schema_token (push_schema_token x.1 s)))) =
            some rx →
          cap_ok ctx rx := by
        intro x s rx hsx hgx
        cases hk : kvs.lookup x.1 with
        | some sub_inst =>
          rw [hk] at hgx
          exact cap_wrap_ok ctx hgx
            (fun r1 hr1 =>
              hrec _ _ _ (push_instance_token x.1 (push_schema_token x.1 s))
                r1 hsx hr1)
            (fun u => rfl)
        | none =>
          rw [hk] at hgx
          obtain rfl : Outcome.ok (pop_schema_token (push_schema_token x.1 s))
              = rx := by injection hgx
          exact hsx
      refine cap_bind_ok ctx h
        (fun r1 hr1 => cap_seqAll ctx _ hseq1 required
          (push_schema_token "properties" st) r1 hs hr1)
        (fun st2 hst2 h2 => ?_)
      refine cap_bind_ok ctx h2
        (fun r2 hr2 => cap_seqAll ctx _ hseq2 optional
          (push_schema_token "optionalProperties" (pop_schema_token st2))
          r2 hst2 hr2)
        (fun st4 hst4 h3 => ?_)
      split at h3
      · exact cap_seqAll ctx _
          (fun x s rx hsx hgx =>
            cap_strict_key_check ctx pt required optional x s rx hsx hgx)
          kvs (pop_schema_token st4) r hst4 h3
      · obtain rfl : Outcome.ok (pop_schema_token st4) = r := by injection h3
        exact hst4
    all_goals
      exact cap_err_then_pop ctx
        (push_schema_token
          (if has_required then "properties" else "optionalProperties") st)
        r hs h
  | discriminator tag mapping =>
    cases inst <;> simp only [evalBody, Schema.form] at h
    case obj kvs =>
      cases hk : kvs.lookup tag with
      | none =>
        simp only [hk] at h
        exact cap_err_then_pop ctx
          (push_schema_token "tag" (push_schema_token "discriminator" st))
          r hs h
      | some v =>
        simp only [hk] at h
        cases v with
        | str sv =>
          cases hm : mapping.lookup sv with
          | none =>
            simp only [hm] at h
            exact cap_stop_or ctx
              (push_instance_token tag (push_schema_token "mapping"
                (push_schema_token "discriminator" st))) hs h (fun u => rfl)
          | some sub =>
            simp only [hm] at h
            exact cap_wrap_ok ctx h
              (fun r1 hr1 =>
                hrec _ _ _ (push_schema_token sv (push_schema_token "mapping"
                  (push_schema_token "discriminator" st))) r1 hs hr1)
              (fun u => rfl)
        | null =>
          exact cap_stop_or ctx
            (push_instance_token tag (push_schema_token "tag"
              (push_schema_token "discriminator" st))) hs h (fun u => rfl)
        | bool b =>
          exact cap_stop_or ctx
            (push_instance_token tag (push_schema_token "tag"
              (push_schema_token "discriminator" st))) hs h (fun u => rfl)
        | num n =>
          exact cap_stop_or ctx
            (push_instance_token tag (push_schema_token "tag"
              (push_schema_token "discriminator" st))) hs h (fun u => rfl)
        | arr ys =>
          exact cap_stop_or ctx
            (push_instance_token tag (push_schema_token "tag"
              (push_schema_token "discriminator" st))) hs h (fun u => rfl)
        | obj kv2 =>
          exact cap_stop_or ctx
            (push_instance_token tag (push_schema_token "tag"
              (push_schema_token "discriminator" st))) hs h (fun u => rfl)
    all_goals
      exact cap_stop_or ctx (push_schema_token "discriminator" st) hs h
        (fun u => rfl)

theorem cap_eval (ctx : Ctx) : ∀ (fuel : Nat) (schema : Schema) (inst : Json)
    (pt : Option String) (st : VmState) (r : Outcome),
    st.errors.length < ctx.max_failures →
    eval ctx fuel schema inst pt st = some r → cap_ok ctx r := by
  intro fuel
  induction fuel with
  | zero =>
    intro schema inst pt st r _ h
    exact absurd h (by simp [eval])
  | succ n ih =>
    intro schema inst pt st r hs h
    rw [eval_succ] at h
    exact cap_evalBody ctx (eval ctx n) (fun a b c d e => ih a b c d e) schema
      inst pt st r hs h

theorem push_err_zero (ctx : Ctx) (st : VmState)
    (h0 : ctx.max_failures = 0) :
    push_err ctx st = .ok { st with errors := st.errors ++
      [⟨st.instance_tokens.reverse, st.cur_schema_tokens.reverse⟩] } := by
  unfold push_err
  rw [h0]
  simp

theorem ni_stop_or (ctx : Ctx) (s : VmState) {f : VmState → VmState}
    {r : Outcome} (h0 : ctx.max_failures = 0)
    (h : stop_or f (push_err ctx s) = some r) : no_internal r := by
  rw [push_err_zero ctx s h0] at h
  obtain rfl : Outcome.ok (f _) = r := by
    unfold stop_or at h
    injection h
  intro u
  exact fun hc => Outcome.noConfusion hc

theorem ni_err_then_pop (ctx : Ctx) (st : VmState) (r : Outcome)
    (h0 : ctx.max_failures = 0) (he : err_then_pop ctx st = some r) :
    no_internal r :=
  ni_stop_or ctx st h0 he

theorem ni_wrap_ok (ctx : Ctx) {X : Option Outcome} {f : VmState → VmState}
    {r : Outcome} (h : wrap_ok f X = some r)
    (hX : ∀ r0, X = some r0 → no_internal r0) : no_internal r := by
  cases X with
  | none => exact absurd h (by simp [wrap_ok])
  | some r0 =>
    cases r0 with
    | ok s =>
      obtain rfl : Outcome.ok (f s) = r := by
        unfold wrap_ok at h
        injection h
      intro u
      exact fun hc => Outcome.noConfusion hc
    | stop s e =>
      obtain rfl : Outcome.stop s e = r := by
        unfold wrap_ok at h
        injection h
      exact hX _ rfl

theorem ni_bind_ok (ctx : Ctx) {X : Option Outcome}
    {k : VmState → Option Outcome} {r : Outcome}
    (h : bind_ok k X = some r)
    (hX : ∀ r0, X = some r0 → no_internal r0)
    (hk : ∀ s, k s = some r → no_internal r) : no_internal r := by
  cases X with
  | none => exact absurd h (by simp [bind_ok])
  | some r0 =>
    cases r0 with
    | ok s =>
      unfold bind_ok at h
      exact hk s h
    | stop s e =>
      obtain rfl : Outcome.stop s e = r := by
        unfold bind_ok at h
        injection h
      exact hX _ rfl

theorem ni_seqAll (g : α → VmState → Option Outcome)
    (hg : ∀ x s r, g x s = some r → no_internal r) :
    ∀ (xs : List α) (s : VmState) (r : Outcome),
      seqAll g xs s = some r → no_internal r := by
  intro xs
  induction xs with
  | nil =>
    intro s r h
    obtain rfl : Outcome.ok s = r := by
      unfold seqAll at h
      injection h
    intro u
    exact fun hc => Outcome.noConfusion hc
  | cons x xs ih =>
    intro s r h
    unfold seqAll at h
    cases hgx : g x s with
    | none => rw [hgx] at h; exact absurd h (by simp)
    | some r0 =>
      rw [hgx] at h
      cases r0 with
      | ok s' => exact ih s' r h
      | stop s' e =>
        obtain rfl : Outcome.stop s' e = r := by injection h
        exact hg x s _ hgx

theorem ni_ok (s : VmState) : no_internal (Outcome.ok s) := by
  intro u
  exact fun hc => Outcome.noConfusion hc

theorem ni_check_int (ctx : Ctx) (inst : Json) (mn mx : Int) (st : VmState)
    (r : Outcome) (h0 : ctx.max_failures = 0)
    (h : check_int ctx inst mn mx st = some r) : no_internal r := by
  cases inst <;> simp only [check_int] at h
  case num n =>
    split at h
    · exact ni_err_then_pop ctx (push_schema_token "type" st) r h0 h
    · obtain rfl : Outcome.ok st = r := by injection h
      exact ni_ok st
  all_goals exact ni_err_then_pop ctx (push_schema_token "type" st) r h0 h

theorem ni_ite_ok_err (ctx : Ctx) (st : VmState) (r : Outcome) (c : Bool)
    (h0 : ctx.max_failures = 0)
    (h : (if c = true then some (Outcome.ok st)
          else err_then_pop ctx (push_schema_token "type" st)) = some r) :
    no_internal r := by
  split at h
  · obtain rfl : Outcome.ok st = r := by injection h
    exact ni_ok st
  · exact ni_err_then_pop ctx (push_schema_token "type" st) r h0 h

theorem ni_eval_type (ctx : Ctx) (t : Ty) (inst : Json) (st : VmState)
    (r : Outcome) (h0 : ctx.max_failures = 0)
    (h : eval_type ctx t inst st = some r) : no_internal r := by
  cases t <;> cases inst <;> simp only [eval_type] at h <;>
    first
    | exact ni_check_int ctx _ _ _ _ r h0 h
    | exact ni_ite_ok_err ctx st r _ h0 h
    | exact ni_err_then_pop ctx (push_schema_token "type" st) r h0 h
    | (obtain rfl : Outcome.ok st = r := by injection h
       exact ni_ok st)

theorem ni_strict_key_check (ctx : Ctx) (pt : Option String)
    (required optional : List (String × Schema)) (kv : String × Json)
    (st : VmState) (r : Outcome) (h0 : ctx.max_failures = 0)
    (h : strict_key_check ctx pt required optional kv st = some r) :
    no_internal r := by
  unfold strict_key_check at h
  split at h
  · exact ni_stop_or ctx (push_instance_token kv.1 st) h0 h
  · obtain rfl : Outcome.ok st = r := by injection h
    exact ni_ok st

theorem ni_evalBody (ctx : Ctx)
    (recur : Schema → Json → Option String → VmState → Option Outcome)
    (h0 : ctx.max_failures = 0)
    (hrec : ∀ schema inst pt s r, recur schema inst pt s = some r →
      no_internal r)
    (schema : Schema) (inst : Json) (pt : Option String) (st : VmState)
    (r : Outcome)
    (h : evalBody ctx recur schema inst pt st = some r) : no_internal r := by
  rcases schema with ⟨defs, form⟩
  cases form with
  | empty =>
    simp only [evalBody, Schema.form] at h
    obtain rfl : Outcome.ok st = r := by injection h
    exact ni_ok st
  | ref d =>
    simp only [evalBody, Schema.form] at h
    split at h
    · obtain rfl : Outcome.stop st .maxDepth = r := by injection h
      intro u
      intro hc
      injection hc with h1 h2
      exact EvalStop.noConfusion h2
    · cases hdef : ctx.root_schema.definitions with
      | none =>
        simp only [hdef] at h
        obtain rfl : Outcome.stop st .panicked = r := by injection h
        intro u
        intro hc
        injection hc with h1 h2
        exact EvalStop.noConfusion h2
      | some ds =>
        simp only [hdef] at h
        cases hlk : ds.lookup d with
        | none =>
          simp only [hlk] at h
          obtain rfl : Outcome.stop st .panicked = r := by injection h
          intro u
          intro hc
          injection hc with h1 h2
          exact EvalStop.noConfusion h2
        | some refd =>
          simp only [hlk] at h
          exact ni_wrap_ok ctx h (fun r0 hr0 => hrec _ _ _ _ r0 hr0)
  | typ t =>
    simp only [evalBody, Schema.form] at h
    exact ni_eval_type ctx t inst st r h0 h
  | enum vals =>
    cases inst <;> simp only [evalBody, Schema.form] at h
    case str s =>
      split at h
      · obtain rfl : Outcome.ok st = r := by injection h
        exact ni_ok st
      · exact ni_err_then_pop ctx (push_schema_token "enum" st) r h0 h
    all_goals exact ni_err_then_pop ctx (push_schema_token "enum" st) r h0 h
  | elements sub =>
    cases inst <;> simp only [evalBody, Schema.form] at h
    case arr xs =>
      refine ni_wrap_ok ctx h (fun r0 hr0 => ?_)
      refine ni_seqAll _ (fun x s rx hgx => ?_) xs.enum
        (push_schema_token "elements" st) r0 hr0
      exact ni_wrap_ok ctx hgx (fun r1 hr1 => hrec _ _ _ _ r1 hr1)
    all_goals
      exact ni_err_then_pop ctx (push_schema_token "elements" st) r h0 h
  | values sub =>
    cases inst <;> simp only [evalBody, Schema.form] at h
    case obj kvs =>
      refine ni_wrap_ok ctx h (fun r0 hr0 => ?_)
      refine ni_seqAll _ (fun x s rx hgx => ?_) kvs
        (push_schema_token "values" st) r0 hr0
      exact ni_wrap_ok ctx hgx (fun r1 hr1 => hrec _ _ _ _ r1 hr1)
    all_goals
      exact ni_err_then_pop ctx (push_schema_token "values" st) r h0 h
  | properties required optional has_required =>
    cases inst <;> simp only [evalBody, Schema.form] at h
    case obj kvs =>
      have hseq1 : ∀ (x : String × Schema) s rx,
          (match kvs.lookup x.1 with
           | some sub_inst =>
             wrap_ok (fun s2 => pop_schema_token (pop_instance_token s2))
               (recur x.2 sub_inst none
                 (push_instance_token x.1 (push_schema_token x.1 s)))
           | none => err_then_pop ctx (push_schema_token x.1 s)) = some rx →
          no_internal rx := by
        intro x s rx hgx
        cases hk : kvs.lookup x.1 with
        | some sub_inst =>
          rw [hk] at hgx
          exact ni_wrap_ok ctx hgx (fun r1 hr1 => hrec _ _ _ _ r1 hr1)
        | none =>
          rw [hk] at hgx
          exact ni_err_then_pop ctx (push_schema_token x.1 s) rx h0 hgx
      have hseq2 : ∀ (x : String × Schema) s rx,
          (match kvs.lookup x.1 with
           | some sub_inst =>
             wrap_ok (fun s2 => pop_schema_token (pop_instance_token s2))
               (recur x.2 sub_inst none
                 (push_instance_token x.1 (push_schema_token x.1 s)))
           | none =>
             some (Outcome.ok (pop_schema_token (push_schema_token x.1 s)))) =
            some rx →
          no_internal rx := by
        intro x s rx hgx
        cases hk : kvs.lookup x.1 with
        | some sub_inst =>
          rw [hk] at hgx
          exact ni_wrap_ok ctx hgx (fun r1 hr1 => hrec _ _ _ _ r1 hr1)
        | none =>
          rw [hk] at hgx
          obtain rfl : Outcome.ok (pop_schema_token (push_schema_token x.1 s))
              = rx := by injection hgx
          exact ni_ok _
      refine ni_bind_ok ctx h
        (fun r1 hr1 => ni_seqAll _ (fun x s rx hgx => hseq1 x s rx hgx)
          required (push_schema_token "properties" st) r1 hr1)
        (fun st2 h2 => ?_)
      refine ni_bind_ok ctx h2
        (fun r2 hr2 => ni_seqAll _ (fun x s rx hgx => hseq2 x s rx hgx)
          optional
          (push_schema_token "optionalProperties" (pop_schema_token st2))
          r2 hr2)
        (fun st4 h3 => ?_)
      split at h3
      · exact ni_seqAll _
          (fun x s rx hgx =>
            ni_strict_key_check ctx pt required optional x s rx h0 hgx)
          kvs (pop_schema_token st4) r h3
      · obtain rfl : Outcome.ok (pop_schema_token st4) = r := by injection h3
        exact ni_ok _
    all_goals
      exact ni_err_then_pop ctx
        (push_schema_token
          (if has_required then "properties" else "optionalProperties") st)
        r h0 h
  | discriminator tag mapping =>
    cases inst <;> simp only [evalBody, Schema.form] at h
    case obj kvs =>
      cases hk : kvs.lookup tag with
      | none =>
        simp only [hk] at h
        exact ni_err_then_pop ctx
          (push_schema_token "tag" (push_schema_token "discriminator" st))
          r h0 h
      | some v =>
        simp only [hk] at h
        cases v with
        | str sv =>
          cases hm : mapping.lookup sv with
          | none =>
            simp only [hm] at h
            exact ni_stop_or ctx
              (push_instance_token tag (push_schema_token "mapping"
                (push_schema_token "discriminator" st))) h0 h
          | some sub =>
            simp only [hm] at h
            exact ni_wrap_ok ctx h (fun r1 hr1 => hrec _ _ _ _ r1 hr1)
        | null =>
          exact ni_stop_or ctx
            (push_instance_token tag (push_schema_token "tag"
              (push_schema_token "discriminator" st))) h0 h
        | bool b =>
          exact ni_stop_or ctx
            (push_instance_token tag (push_schema_token "tag"
              (push_schema_token "discriminator" st))) h0 h
        | num n =>
          exact ni_stop_or ctx
            (push_instance_token tag (push_schema_token "tag"
              (push_schema_token "discriminator" st))) h0 h
        | arr ys =>
          exact ni_stop_or ctx
            (push_instance_token tag (push_schema_token "tag"
              (push_schema_token "discriminator" st))) h0 h
        | obj kv2 =>
          exact ni_stop_or ctx
            (push_instance_token tag (push_schema_token "tag"
              (push_schema_token "discriminator" st))) h0 h
    all_goals
      exact ni_stop_or ctx (push_schema_token "discriminator" st) h0 h

theorem ni_eval (ctx : Ctx) (h0 : ctx.max_failures = 0) :
    ∀ (fuel : Nat) (schema : Schema) (inst : Json) (pt : Option String)
      (st : VmState) (r : Outcome),
    eval ctx fuel schema inst pt st = some r → no_internal r := by
  intro fuel
  induction fuel with
  | zero =>
    intro schema inst pt st r h
    exact absurd h (by simp [eval])
  | succ n ih =>
    intro schema inst pt st r h
    rw [eval_succ] at h
    exact ni_evalBody ctx (eval ctx n) h0 (fun a b c d e => ih a b c d e)
      schema inst pt st r h

/-- C3: whenever `max_errors > 0`, `validate` returns at most `max_errors`
validation errors — after an error brings the count to `max_errors`,
evaluation unwinds (`EvalError::Internal`) and the collected list is
returned as a successful result, an abort distinct from the fatal
`MaxDepthExceeded` which returns no list — and `max_errors = 0` imposes no
cap: the error-budget abort then never fires. -/
theorem c3_error_budget :
    (∀ (max_errors max_depth : Nat) (strict : Bool) (rfc : String → Bool)
       (fuel : Nat) (schema : Schema) (inst : Json)
       (errs : List ValidationError), 0 < max_errors →
       validate max_errors max_depth strict rfc fuel schema inst =
         some (.ok errs) →
       errs.length ≤ max_errors) ∧
    (∀ (ctx : Ctx), ctx.max_failures = 0 →
       ∀ (fuel : Nat) (schema : Schema) (inst : Json) (pt : Option String)
         (st : VmState) (r : Outcome) (s : VmState),
       eval ctx fuel schema inst pt st = some r →
       r ≠ .stop s .internal) := by
  constructor
  · intro mf md strict rfc fuel schema inst errs hpos h
    unfold validate at h
    cases he : eval ⟨mf, md, strict, schema, rfc⟩ fuel schema inst none
        ⟨[], [], [], []⟩ with
    | none => rw [he] at h; exact absurd h (by simp)
    | some r0 =>
      rw [he] at h
      have hc := cap_eval ⟨mf, md, strict, schema, rfc⟩ fuel schema inst none
        ⟨[], [], [], []⟩ r0 (by simpa using hpos) he
      cases r0 with
      | ok s =>
        have h2 : some (VmOut.ok s.errors) = some (VmOut.ok errs) := h
        obtain rfl : s.errors = errs := by
          injection h2 with h3
          injection h3
        exact le_of_lt hc
      | stop s e =>
        cases e with
        | internal =>
          have h2 : some (VmOut.ok s.errors) = some (VmOut.ok errs) := h
          obtain rfl : s.errors = errs := by
            injection h2 with h3
            injection h3
          exact hc
        | maxDepth => exact absurd h (by simp)
        | panicked => exact absurd h (by simp)
  · intro ctx h0 fuel schema inst pt st r s he
    exact ni_eval ctx h0 fuel schema inst pt st r he s

theorem c3_error_budget_witness :
    0 < 3 ∧
    validate 3 32 false (fun _ => false) 10 c3B c3inst =
      some (.ok c3errs) ∧
    c3errs.length ≤ 3 ∧
    (mkCtx (Schema.mk none .empty)).max_failures = 0 ∧
    eval (mkCtx (Schema.mk none .empty)) 1 (Schema.mk none .empty) .null
      none st0 = some (.ok st0) ∧
    Outcome.ok st0 ≠ .stop st0 .internal :=
  ⟨by decide, by decide, c3_error_budget.1 3 32 false (fun _ => false) 10
      c3B c3inst c3errs (by decide) (by decide),
    rfl, rfl,
    c3_error_budget.2 (mkCtx (Schema.mk none .empty)) rfl 1
      (Schema.mk none .empty) .null none st0 (.ok st0) st0 rfl⟩

theorem mono_wrap_ok {X Y : Option Outcome} {f : VmState → VmState}
    {r : Outcome} (hXY : ∀ r0, X = some r0 → Y = some r0)
    (h : wrap_ok f X = some r) : wrap_ok f Y = some r := by
  cases X with
  | none => exact absurd h (by simp [wrap_ok])
  | some r0 => rw [hXY r0 rfl]; exact h

theorem mono_bind_ok {X Y : Option Outcome}
    {k k' : VmState → Option Outcome} {r : Outcome}
    (hXY : ∀ r0, X = some r0 → Y = some r0)
    (hk : ∀ s r1, k s = some r1 → k' s = some r1)
    (h : bind_ok k X = some r) : bind_ok k' Y = some r := by
  cases X with
  | none => exact absurd h (by simp [bind_ok])
  | some r0 =>
    rw [hXY r0 rfl]
    cases r0 with
    | ok s =>
      unfold bind_ok at h ⊢
      exact hk s r h
    | stop s e => exact h

theorem mono_seqAll {g g' : α → VmState → Option Outcome}
    (hg : ∀ x s r, g x s = some r → g' x s = some r) :
    ∀ (xs : List α) (s : VmState) (r : Outcome),
      seqAll g xs s = some r → seqAll g' xs s = some r := by
  intro xs
  induction xs with
  | nil => intro s r h; exact h
  | cons x xs ih =>
    intro s r h
    unfold seqAll at h ⊢
    cases hgx : g x s with
    | none => rw [hgx] at h; exact absurd h (by simp)
    | some r0 =>
      rw [hgx] at h
      rw [hg x s r0 hgx]
      cases r0 with
      | ok s' => exact ih s' r h
      | stop s' e => exact h

theorem mono_evalBody (ctx : Ctx)
    (recur recur' : Schema → Json → Option String → VmState → Option Outcome)
    (hrec : ∀ schema inst pt s r, recur schema inst pt s = some r →
      recur' schema inst pt s = some r)
    (schema : Schema) (inst : Json) (pt : Option String) (st : VmState)
    (r : Outcome)
    (h : evalBody ctx recur schema inst pt st = some r) :
    evalBody ctx recur' schema inst pt st = some r := by
  rcases schema with ⟨defs, form⟩
  cases form with
  | empty => exact h
  | ref d =>
    simp only [evalBody, Schema.form] at h ⊢
    split at h
    · next hd => rw [if_pos hd]; exact h
    · next hd =>
      rw [if_neg hd]
      cases hdef : ctx.root_schema.definitions with
      | none => simp only [hdef] at h ⊢; exact h
      | some ds =>
        simp only [hdef] at h ⊢
        cases hlk : ds.lookup d with
        | none => simp only [hlk] at h ⊢; exact h
        | some refd =>
          simp only [hlk] at h ⊢
          exact mono_wrap_ok (fun r0 h0 => hrec _ _ _ _ r0 h0) h
  | typ t => exact h
  | enum vals => exact h
  | elements sub =>
    cases inst <;> simp only [evalBody, Schema.form] at h ⊢ <;>
      first
      | exact h
      | exact mono_wrap_ok
          (fun r0 h0 => mono_seqAll
            (fun x s r1 h1 => mono_wrap_ok
              (fun r2 h2 => hrec _ _ _ _ r2 h2) h1) _ _ r0 h0) h
  | values sub =>
    cases inst <;> simp only [evalBody, Schema.form] at h ⊢ <;>
      first
      | exact h
      | exact mono_wrap_ok
          (fun r0 h0 => mono_seqAll
            (fun x s r1 h1 => mono_wrap_ok
              (fun r2 h2 => hrec _ _ _ _ r2 h2) h1) _ _ r0 h0) h
  | properties required optional has_required =>
    cases inst <;> simp only [evalBody, Schema.form] at h ⊢
    case obj kvs =>
      refine mono_bind_ok
        (fun r0 h0 => mono_seqAll (fun x s r1 h1 => ?_) _ _ r0 h0)
        (fun s2 r1 h1 => ?_) h
      · cases hk : kvs.lookup x.1 with
        | some sub_inst =>
          rw [hk] at h1
          exact mono_wrap_ok (fun r2 h2 => hrec _ _ _ _ r2 h2) h1
        | none =>
          rw [hk] at h1
          exact h1
      · refine mono_bind_ok
          (fun r2 h2 => mono_seqAll (fun x s r3 h3 => ?_) _ _ r2 h2)
          (fun s4 r2 h2 => h2) h1
        cases hk : kvs.lookup x.1 with
        | some sub_inst =>
          rw [hk] at h3
          exact mono_wrap_ok (fun r4 h4 => hrec _ _ _ _ r4 h4) h3
        | none =>
          rw [hk] at h3
          exact h3
    all_goals exact h
  | discriminator tag mapping =>
    cases inst <;> simp only [evalBody, Schema.form] at h ⊢
    case obj kvs =>
      cases hk : kvs.lookup tag with
      | none => simp only [hk] at h ⊢; exact h
      | some v =>
        simp only [hk] at h ⊢
        cases v with
        | str sv =>
          cases hm : mapping.lookup sv with
          | none => simp only [hm] at h ⊢; exact h
          | some sub =>
            simp only [hm] at h ⊢
            exact mono_wrap_ok (fun r0 h0 => hrec _ _ _ _ r0 h0) h
        | null => exact h
        | bool b => exact h
        | num n => exact h
        | arr ys => exact h
        | obj kv2 => exact h
    all_goals exact h

theorem mono_eval (ctx : Ctx) :
    ∀ (fuel : Nat) (schema : Schema) (inst : Json) (pt : Option String)
      (st : VmState) (r : Outcome),
    eval ctx fuel schema inst pt st = some r →
    eval ctx (fuel + 1) schema inst pt st = some r := by
  intro fuel
  induction fuel with
  | zero =>
    intro schema inst pt st r h
    exact absurd h (by simp [eval])
  | succ n ih =>
    intro schema inst pt st r h
    rw [eval_succ] at h
    rw [eval_succ]
    exact mono_evalBody ctx (eval ctx n) (eval ctx (n + 1))
      (fun a b c d e => ih a b c d e) schema inst pt st r h

theorem eval_mono_le (ctx : Ctx) {fuel fuel' : Nat} (hle : fuel ≤ fuel') :
    ∀ {schema : Schema} {inst : Json} {pt : Option String} {st : VmState}
      {r : Outcome},
    eval ctx fuel schema inst pt st = some r →
    eval ctx fuel' schema inst pt st = some r := by
  induction hle with
  | refl => intro _ _ _ _ _ h; exact h
  | step _ ih =>
    intro _ _ _ _ _ h
    exact mono_eval ctx _ _ _ _ _ _ (ih h)

theorem ok_of_wrap_ok {X : Option Outcome} {f : VmState → VmState}
    {u : VmState} (h : wrap_ok f X = some (.ok u)) :
    ∃ s0, X = some (.ok s0) ∧ u = f s0 := by
  cases X with
  | none => exact absurd h (by simp [wrap_ok])
  | some r0 =>
    cases r0 with
    | ok s =>
      refine ⟨s, rfl, ?_⟩
      unfold wrap_ok at h
      have h2 : Outcome.ok (f s) = Outcome.ok u := by injection h
      injection h2 with h3
      exact h3.symm
    | stop s e =>
      unfold wrap_ok at h
      have h2 : Outcome.stop s e = Outcome.ok u := by injection h
      exact Outcome.noConfusion h2

theorem ok_of_bind_ok {X : Option Outcome} {k : VmState → Option Outcome}
    {u : VmState} (h : bind_ok k X = some (.ok u)) :
    ∃ s0, X = some (.ok s0) ∧ k s0 = some (.ok u) := by
  cases X with
  | none => exact absurd h (by simp [bind_ok])
  | some r0 =>
    cases r0 with
    | ok s => exact ⟨s, rfl, h⟩
    | stop s e =>
      unfold bind_ok at h
      have h2 : Outcome.stop s e = Outcome.ok u := by injection h
      exact Outcome.noConfusion h2

theorem ok_of_stop_or {f : VmState → VmState} {o : Outcome} {u : VmState}
    (h : stop_or f o = some (.ok u)) : ∃ s0, o = .ok s0 ∧ u = f s0 := by
  cases o with
  | ok s =>
    refine ⟨s, rfl, ?_⟩
    unfold stop_or at h
    have h2 : Outcome.ok (f s) = Outcome.ok u := by injection h
    injection h2 with h3
    exact h3.symm
  | stop s e =>
    unfold stop_or at h
    have h2 : Outcome.stop s e = Outcome.ok u := by injection h
    exact Outcome.noConfusion h2

theorem push_err_ok_frames (ctx : Ctx) {s s0 : VmState}
    (h : push_err ctx s = .ok s0) : s0.schema_frames = s.schema_frames := by
  rcases push_err_cases ctx s with hp | hp <;> rw [hp] at h
  · injection h with h2
    rw [← h2]
  · exact Outcome.noConfusion h

theorem ok_of_seqAll (P : VmState → Prop) {g : α → VmState → Option Outcome}
    (hg : ∀ x s u, g x s = some (.ok u) → P s → P u) :
    ∀ (xs : List α) (s : VmState) (u : VmState),
      seqAll g xs s = some (.ok u) → P s → P u := by
  intro xs
  induction xs with
  | nil =>
    intro s u h hP
    unfold seqAll at h
    have h2 : Outcome.ok s = Outcome.ok u := by injection h
    injection h2 with h3
    rw [← h3]
    exact hP
  | cons x xs ih =>
    intro s u h hP
    unfold seqAll at h
    cases hgx : g x s with
    | none => rw [hgx] at h; exact absurd h (by simp)
    | some r0 =>
      rw [hgx] at h
      cases r0 with
      | ok s' => exact ih s' u h (hg x s s' hgx hP)
      | stop s' e =>
        have h2 : Outcome.stop s' e = Outcome.ok u := by injection h
        exact Outcome.noConfusion h2

theorem pop_frame_length (s : VmState) :
    (pop_frame s).schema_frames.length = s.schema_frames.length - 1 := by
  unfold pop_frame
  split
  · next f rest heq => rw [heq]; rfl
  · next heq => rw [heq]; rfl

theorem frames_err_then_pop (ctx : Ctx) (s : VmState) {u : VmState}
    (h : err_then_pop ctx s = some (.ok u)) :
    u.schema_frames = s.schema_frames := by
  obtain ⟨s0, h1, rfl⟩ := ok_of_stop_or h
  exact show s0.schema_frames = s.schema_frames from push_err_ok_frames ctx h1

theorem frames_check_int (ctx : Ctx) {inst : Json} {mn mx : Int}
    {s u : VmState} (h : check_int ctx inst mn mx s = some (.ok u)) :
    u.schema_frames = s.schema_frames := by
  cases inst <;> simp only [check_int] at h
  case num n =>
    split at h
    · exact frames_err_then_pop ctx (push_schema_token "type" s) h
    · have h2 : Outcome.ok s = Outcome.ok u := by injection h
      injection h2 with h3
      rw [← h3]
  all_goals exact frames_err_then_pop ctx (push_schema_token "type" s) h

theorem frames_eval_type (ctx : Ctx) {t : Ty} {inst : Json} {s u : VmState}
    (h : eval_type ctx t inst s = some (.ok u)) :
    u.schema_frames = s.schema_frames := by
  cases t <;> cases inst <;> simp only [eval_type] at h <;>
    first
    | exact frames_check_int ctx h
    | exact frames_err_then_pop ctx (push_schema_token "type" s) h
    | (have h2 : Outcome.ok s = Outcome.ok u := by injection h
       injection h2 with h3
       rw [← h3])
    | (split at h <;>
        first
        | (have h2 : Outcome.ok s = Outcome.ok u := by injection h
           injection h2 with h3
           rw [← h3])
        | exact frames_err_then_pop ctx (push_schema_token "type" s) h)

theorem frames_strict_key_check (ctx : Ctx) {pt : Option String}
    {required optional : List (String × Schema)} {kv : String × Json}
    {s u : VmState}
    (h : strict_key_check ctx pt required optional kv s = some (.ok u)) :
    u.schema_frames = s.schema_frames := by
  unfold strict_key_check at h
  split at h
  · obtain ⟨s0, h1, rfl⟩ := ok_of_stop_or h
    have h4 : s0.schema_frames = (push_instance_token kv.1 s).schema_frames :=
      push_err_ok_frames ctx h1
    exact h4
  · have h2 : Outcome.ok s = Outcome.ok u := by injection h
    injection h2 with h3
    rw [← h3]

theorem frames_evalBody (ctx : Ctx)
    (recur : Schema → Json → Option String → VmState → Option Outcome)
    (hrec : ∀ schema inst pt s u, recur schema inst pt s = some (.ok u) →
      u.schema_frames.length = s.schema_frames.length)
    (schema : Schema) (inst : Json) (pt : Option String) (st : VmState)
    (u : VmState)
    (h : evalBody ctx recur schema inst pt st = some (.ok u)) :
    u.schema_frames.length = st.schema_frames.length := by
  rcases schema with ⟨defs, form⟩
  cases form with
  | empty =>
    simp only [evalBody, Schema.form] at h
    have h2 : Outcome.ok st = Outcome.ok u := by injection h
    injection h2 with h3
    rw [← h3]
  | ref d =>
    simp only [evalBody, Schema.form] at h
    split at h
    · have h2 : Outcome.stop st .maxDepth = Outcome.ok u := by injection h
      exact Outcome.noConfusion h2
    · cases hdef : ctx.root_schema.definitions with
      | none =>
        simp only [hdef] at h
        have h2 : Outcome.stop st .panicked = Outcome.ok u := by injection h
        exact Outcome.noConfusion h2
      | some ds =>
        simp only [hdef] at h
        cases hlk : ds.lookup d with
        | none =>
          simp only [hlk] at h
          have h2 : Outcome.stop st .panicked = Outcome.ok u := by injection h
          exact Outcome.noConfusion h2
        | some refd =>
          simp only [hlk] at h
          obtain ⟨s0, h1, rfl⟩ := ok_of_wrap_ok h
          have h4 := hrec _ _ _ _ s0 h1
          have h5 : (push_frame [d, "definitions"] st).schema_frames.length =
              st.schema_frames.length + 1 := rfl
          rw [h5] at h4
          rw [pop_frame_length, h4]
          omega
  | typ t =>
    simp only [evalBody, Schema.form] at h
    exact congrArg List.length (frames_eval_type ctx h)
  | enum vals =>
    cases inst <;> simp only [evalBody, Schema.form] at h
    case str s =>
      split at h
      · have h2 : Outcome.ok st = Outcome.ok u := by injection h
        injection h2 with h3
        rw [← h3]
      · exact congrArg List.length
          (frames_err_then_pop ctx (push_schema_token "enum" st) h)
    all_goals
      exact congrArg List.length
        (frames_err_then_pop ctx (push_schema_token "enum" st) h)
  | elements sub =>
    cases inst <;> simp only [evalBody, Schema.form] at h
    case arr xs =>
      obtain ⟨s0, h1, rfl⟩ := ok_of_wrap_ok h
      refine ok_of_seqAll
        (fun v => v.schema_frames.length = st.schema_frames.length)
        (fun x s v hgx hPs => ?_) xs.enum (push_schema_token "elements" st)
        s0 h1 rfl
      obtain ⟨s1, h2, rfl⟩ := ok_of_wrap_ok hgx
      have h3 := hrec _ _ _ _ s1 h2
      rw [show (pop_instance_token s1).schema_frames.length =
        s1.schema_frames.length from rfl, h3]
      exact hPs
    all_goals
      exact congrArg List.length
        (frames_err_then_pop ctx (push_schema_token "elements" st) h)
  | values sub =>
    cases inst <;> simp only [evalBody, Schema.form] at h
    case obj kvs =>
      obtain ⟨s0, h1, rfl⟩ := ok_of_wrap_ok h
      refine ok_of_seqAll
        (fun v => v.schema_frames.length = st.schema_frames.length)
        (fun x s v hgx hPs => ?_) kvs (push_schema_token "values" st)
        s0 h1 rfl
      obtain ⟨s1, h2, rfl⟩ := ok_of_wrap_ok hgx
      have h3 := hrec _ _ _ _ s1 h2
      rw [show (pop_instance_token s1).schema_frames.length =
        s1.schema_frames.length from rfl, h3]
      exact hPs
    all_goals
      exact congrArg List.length
        (frames_err_then_pop ctx (push_schema_token "values" st) h)
  | properties required optional has_required =>
    cases inst <;> simp only [evalBody, Schema.form] at h
    case obj kvs =>
      obtain ⟨s2, hA, hB⟩ := ok_of_bind_ok h
      obtain ⟨s4, hC, hD⟩ := ok_of_bind_ok hB
      have hstep : ∀ (x : String × Schema) s (v : VmState),
          (match kvs.lookup x.1 with
           | some sub_inst =>
             wrap_ok (fun q => pop_schema_token (pop_instance_token q))
               (recur x.2 sub_inst none
                 (push_instance_token x.1 (push_schema_token x.1 s)))
           | none => err_then_pop ctx (push_schema_token x.1 s)) =
            some (.ok v) →
          v.schema_frames.length = s.schema_frames.length := by
        intro x s v hgx
        cases hk : kvs.lookup x.1 with
        | some sub_inst =>
          rw [hk] at hgx
          obtain ⟨s1, h2, rfl⟩ := ok_of_wrap_ok hgx
          exact hrec _ _ _
            (push_instance_token x.1 (push_schema_token x.1 s)) s1 h2
        | none =>
          rw [hk] at hgx
          exact congrArg List.length
            (frames_err_then_pop ctx (push_schema_token x.1 s) hgx)
      have hstep2 : ∀ (x : String × Schema) s (v : VmState),
          (match kvs.lookup x.1 with
           | some sub_inst =>
             wrap_ok (fun q => pop_schema_token (pop_instance_token q))
               (recur x.2 sub_inst none
                 (push_instance_token x.1 (push_schema_token x.1 s)))
           | none =>
             some (Outcome.ok (pop_schema_token (push_schema_token x.1 s)))) =
            some (.ok v) →
          v.schema_frames.length = s.schema_frames.length := by
        intro x s v hgx
        cases hk : kvs.lookup x.1 with
        | some sub_inst =>
          rw [hk] at hgx
          obtain ⟨s1, h2, rfl⟩ := ok_of_wrap_ok hgx
          exact hrec _ _ _
            (push_instance_token x.1 (push_schema_token x.1 s)) s1 h2
        | none =>
          rw [hk] at hgx
          have h2 : Outcome.ok (pop_schema_token (push_schema_token x.1 s)) =
              Outcome.ok v := by injection hgx
          injection h2 with h3
          rw [← h3]
          rfl
      have hfr2 : s2.schema_frames.length = st.schema_frames.length :=
        ok_of_seqAll
          (fun v => v.schema_frames.length = st.schema_frames.length)
          (fun x s v hgx hPs => (hstep x s v hgx).trans hPs) required
          (push_schema_token "properties" st) s2 hA rfl
      have hfr4 : s4.schema_frames.length = st.schema_frames.length :=
        (ok_of_seqAll
          (fun v => v.schema_frames.length = s2.schema_frames.length)
          (fun x s v hgx hPs => (hstep2 x s v hgx).trans hPs) optional
          (push_schema_token "optionalProperties" (pop_schema_token s2))
          s4 hC rfl).trans hfr2
      split at hD
      · exact (ok_of_seqAll
          (fun v => v.schema_frames.length = s4.schema_frames.length)
          (fun x s v hgx hPs =>
            (congrArg List.length
              (frames_strict_key_check ctx hgx)).trans hPs)
          kvs (pop_schema_token s4) u hD rfl).trans hfr4
      · have h2 : Outcome.ok (pop_schema_token s4) = Outcome.ok u := by
          injection hD
        injection h2 with h3
        rw [← h3]
        exact hfr4
    all_goals
      exact congrArg List.length
        (frames_err_then_pop ctx
          (push_schema_token
            (if has_required then "properties" else "optionalProperties") st)
          h)
  | discriminator tag mapping =>
    cases inst <;> simp only [evalBody, Schema.form] at h
    case obj kvs =>
      cases hk : kvs.lookup tag with
      | none =>
        simp only [hk] at h
        exact congrArg List.length
          (frames_err_then_pop ctx
            (push_schema_token "tag" (push_schema_token "discriminator" st))
            h)
      | some v =>
        simp only [hk] at h
        cases v with
        | str sv =>
          cases hm : mapping.lookup sv with
          | none =>
            simp only [hm] at h
            obtain ⟨s0, h1, rfl⟩ := ok_of_stop_or h
            have h4 : s0.schema_frames =
                (push_instance_token tag (push_schema_token "mapping"
                  (push_schema_token "discriminator" st))).schema_frames :=
              push_err_ok_frames ctx h1
            exact congrArg List.length h4
          | some sub =>
            simp only [hm] at h
            obtain ⟨s0, h1, rfl⟩ := ok_of_wrap_ok h
            exact hrec _ _ _
              (push_schema_token sv (push_schema_token "mapping"
                (push_schema_token "discriminator" st))) s0 h1
        | null =>
          obtain ⟨s0, h1, rfl⟩ := ok_of_stop_or h
          have h4 : s0.schema_frames =
              (push_instance_token tag (push_schema_token "tag"
                (push_schema_token "discriminator" st))).schema_frames :=
            push_err_ok_frames ctx h1
          exact congrArg List.length h4
        | bool b =>
          obtain ⟨s0, h1, rfl⟩ := ok_of_stop_or h
          have h4 : s0.schema_frames =
              (push_instance_token tag (push_schema_token "tag"
                (push_schema_token "discriminator" st))).schema_frames :=
            push_err_ok_frames ctx h1
          exact congrArg List.length h4
        | num n =>
          obtain ⟨s0, h1, rfl⟩ := ok_of_stop_or h
          have h4 : s0.schema_frames =
              (push_instance_token tag (push_schema_token "tag"
                (push_schema_token "discriminator" st))).schema_frames :=
            push_err_ok_frames ctx h1
          exact congrArg List.length h4
        | arr ys =>
          obtain ⟨s0, h1, rfl⟩ := ok_of_stop_or h
          have h4 : s0.schema_frames =
              (push_instance_token tag (push_schema_token "tag"
                (push_schema_token "discriminator" st))).schema_frames :=
            push_err_ok_frames ctx h1
          exact congrArg List.length h4
        | obj kv2 =>
          obtain ⟨s0, h1, rfl⟩ := ok_of_stop_or h
          have h4 : s0.schema_frames =
              (push_instance_token tag (push_schema_token "tag"
                (push_schema_token "discriminator" st))).schema_frames :=
            push_err_ok_frames ctx h1
          exact congrArg List.length h4
    case null =>
      obtain ⟨s0, h1, hu⟩ := ok_of_stop_or h
      have h4 : s0.schema_frames =
          (push_schema_token "discriminator" st).schema_frames :=
        push_err_ok_frames ctx h1
      rw [hu]
      exact congrArg List.length h4
    case bool b =>
      obtain ⟨s0, h1, hu⟩ := ok_of_stop_or h
      have h4 : s0.schema_frames =
          (push_schema_token "discriminator" st).schema_frames :=
        push_err_ok_frames ctx h1
      rw [hu]
      exact congrArg List.length h4
    case num n =>
      obtain ⟨s0, h1, hu⟩ := ok_of_stop_or h
      have h4 : s0.schema_frames =
          (push_schema_token "discriminator" st).schema_frames :=
        push_err_ok_frames ctx h1
      rw [hu]
      exact congrArg List.length h4
    case str s =>
      obtain ⟨s0, h1, hu⟩ := ok_of_stop_or h
      have h4 : s0.schema_frames =
          (push_schema_token "discriminator" st).schema_frames :=
        push_err_ok_frames ctx h1
      rw [hu]
      exact congrArg List.length h4
    case arr ys =>
      obtain ⟨s0, h1, hu⟩ := ok_of_stop_or h
      have h4 : s0.schema_frames =
          (push_schema_token "discriminator" st).schema_frames :=
        push_err_ok_frames ctx h1
      rw [hu]
      exact congrArg List.length h4

theorem frames_eval (ctx : Ctx) :
    ∀ (fuel : Nat) (schema : Schema) (inst : Json) (pt : Option String)
      (st : VmState) (u : VmState),
    eval ctx fuel schema inst pt st = some (.ok u) →
    u.schema_frames.length = st.schema_frames.length := by
  intro fuel
  induction fuel with
  | zero =>
    intro schema inst pt st u h
    exact absurd h (by simp [eval])
  | succ n ih =>
    intro schema inst pt st u h
    rw [eval_succ] at h
    exact frames_evalBody ctx (eval ctx n) (fun a b c d e => ih a b c d e)
      schema inst pt st u h

theorem refsOkL_lookup {ds : Option (List (String × Schema))}
    {l : List (String × Schema)} (hl : refsOkL ds l = true) :
    ∀ {d : String} {s : Schema}, l.lookup d = some s →
    refsOkS ds s = true := by
  induction l with
  | nil => intro d s h; exact absurd h (by simp)
  | cons p rest ih =>
    intro d s h
    unfold refsOkL at hl
    rcases p with ⟨k, v⟩
    simp only [Bool.and_eq_true] at hl
    unfold List.lookup at h
    split at h
    · injection h with h2
      rw [← h2]
      exact hl.1
    · exact ih hl.2 h

def np (r : Outcome) : Prop := ∀ u, r ≠ .stop u .panicked

theorem np_ok (s : VmState) : np (Outcome.ok s) :=
  fun u hc => Outcome.noConfusion hc

theorem np_stop_ok (s : VmState) {e : EvalStop} (he : e ≠ .panicked) :
    np (Outcome.stop s e) := by
  intro u hc
  injection hc with h1 h2
  exact he h2

theorem np_push_err (ctx : Ctx) (s : VmState) : np (push_err ctx s) := by
  rcases push_err_cases ctx s with h | h <;> rw [h]
  · exact np_ok _
  · exact np_stop_ok _ (fun hc => EvalStop.noConfusion hc)

theorem np_stop_or (ctx : Ctx) (s : VmState) {f : VmState → VmState}
    {r : Outcome} (h : stop_or f (push_err ctx s) = some r) : np r := by
  have hn := np_push_err ctx s
  cases hp : push_err ctx s with
  | ok u =>
    rw [hp] at h
    obtain rfl : Outcome.ok (f u) = r := by
      unfold stop_or at h
      injection h
    exact np_ok _
  | stop u e =>
    rw [hp] at h
    obtain rfl : Outcome.stop u e = r := by
      unfold stop_or at h
      injection h
    rw [hp] at hn
    exact hn
theorem np_err_then_pop (ctx : Ctx) (s : VmState) {r : Outcome}
    (h : err_then_pop ctx s = some r) : np r :=
  np_stop_or ctx s h

theorem np_wrap_ok {X : Option Outcome} {f : VmState → VmState}
    {r : Outcome} (h : wrap_ok f X = some r)
    (hX : ∀ r0, X = some r0 → np r0) : np r := by
  cases X with
  | none => exact absurd h (by simp [wrap_ok])
  | some r0 =>
    cases r0 with
    | ok s =>
      obtain rfl : Outcome.ok (f s) = r := by
        unfold wrap_ok at h
        injection h
      exact np_ok _
    | stop s e =>
      obtain rfl : Outcome.stop s e = r := by
        unfold wrap_ok at h
        injection h
      exact hX _ rfl

theorem np_bind_ok {X : Option Outcome} {k : VmState → Option Outcome}
    {r : Outcome} (h : bind_ok k X = some r)
    (hX : ∀ r0, X = some r0 → np r0)
    (hk : ∀ s, k s = some r → np r) : np r := by
  cases X with
  | none => exact absurd h (by simp [bind_ok])
  | some r0 =>
    cases r0 with
    | ok s =>
      unfold bind_ok at h
      exact hk s h
    | stop s e =>
      obtain rfl : Outcome.stop s e = r := by
        unfold bind_ok at h
        injection h
      exact hX _ rfl

theorem np_seqAll {g : α → VmState → Option Outcome} :
    ∀ (xs : List α),
    (∀ x ∈ xs, ∀ s r, g x s = some r → np r) →
    ∀ (s : VmState) (r : Outcome), seqAll g xs s = some r → np r := by
  intro xs
  induction xs with
  | nil =>
    intro _ s r h
    obtain rfl : Outcome.ok s = r := by
      unfold seqAll at h
      injection h
    exact np_ok s
  | cons x xs ih =>
    intro hg s r h
    unfold seqAll at h
    cases hgx : g x s with
    | none => rw [hgx] at h; exact absurd h (by simp)
    | some r0 =>
      rw [hgx] at h
      cases r0 with
      | ok s' => exact ih (fun y hy => hg y (List.mem_cons_of_mem x hy)) s' r h
      | stop s' e =>
        obtain rfl : Outcome.stop s' e = r := by injection h
        exact hg x (List.mem_cons_self x xs) s _ hgx

theorem np_check_int (ctx : Ctx) (inst : Json) (mn mx : Int) (st : VmState)
    {r : Outcome} (h : check_int ctx inst mn mx st = some r) : np r := by
  cases inst <;> simp only [check_int] at h
  case num n =>
    split at h
    · exact np_err_then_pop ctx (push_schema_token "type" st) h
    · obtain rfl : Outcome.ok st = r := by injection h
      exact np_ok st
  all_goals exact np_err_then_pop ctx (push_schema_token "type" st) h

theorem np_ite_ok_err (ctx : Ctx) (st : VmState) {r : Outcome} (c : Bool)
    (h : (if c = true then some (Outcome.ok st)
          else err_then_pop ctx (push_schema_token "type" st)) = some r) :
    np r := by
  split at h
  · obtain rfl : Outcome.ok st = r := by injection h
    exact np_ok st
  · exact np_err_then_pop ctx (push_schema_token "type" st) h

theorem np_eval_type (ctx : Ctx) (t : Ty) (inst : Json) (st : VmState)
    {r : Outcome} (h : eval_type ctx t inst st = some r) : np r := by
  cases t <;> cases inst <;> simp only [eval_type] at h <;>
    first
    | exact np_check_int ctx _ _ _ _ h
    | exact np_ite_ok_err ctx st _ h
    | exact np_err_then_pop ctx (push_schema_token "type" st) h
    | (obtain rfl : Outcome.ok st = r := by injection h
       exact np_ok st)

theorem np_strict_key_check (ctx : Ctx) (pt : Option String)
    (required optional : List (String × Schema)) (kv : String × Json)
    (st : VmState) {r : Outcome}
    (h : strict_key_check ctx pt required optional kv st = some r) :
    np r := by
  unfold strict_key_check at h
  split at h
  · exact np_stop_or ctx (push_instance_token kv.1 st) h
  · obtain rfl : Outcome.ok st = r := by injection h
    exact np_ok st

theorem refsOkL_mem {ds : Option (List (String × Schema))}
    {l : List (String × Schema)} (hl : refsOkL ds l = true) :
    ∀ {p : String × Schema}, p ∈ l → refsOkS ds p.2 = true := by
  induction l with
  | nil => intro p h; exact absurd h (by simp)
  | cons q rest ih =>
    intro p h
    unfold refsOkL at hl
    rcases q with ⟨k, v⟩
    simp only [Bool.and_eq_true] at hl
    rcases List.mem_cons.1 h with h1 | h1
    · rw [h1]
      exact hl.1
    · exact ih hl.2 h1

theorem np_evalBody (ctx : Ctx)
    (recur : Schema → Json → Option String → VmState → Option Outcome)
    (hds : (match ctx.root_schema.definitions with
            | some l => refsOkL ctx.root_schema.definitions l
            | none => true) = true)
    (hrec : ∀ schema inst pt s r,
      refsOkS ctx.root_schema.definitions schema = true →
      recur schema inst pt s = some r → np r)
    (schema : Schema) (inst : Json) (pt : Option String) (st : VmState)
    (r : Outcome)
    (hok : refsOkS ctx.root_schema.definitions schema = true)
    (h : evalBody ctx recur schema inst pt st = some r) : np r := by
  rcases schema with ⟨defs, form⟩
  unfold refsOkS at hok
  cases form with
  | empty =>
    simp only [evalBody, Schema.form] at h
    obtain rfl : Outcome.ok st = r := by injection h
    exact np_ok st
  | ref d =>
    unfold refsOkF at hok
    simp only [evalBody, Schema.form] at h
    split at h
    · obtain rfl : Outcome.stop st .maxDepth = r := by injection h
      exact np_stop_ok _ (fun hc => EvalStop.noConfusion hc)
    · cases hdef : ctx.root_schema.definitions with
      | none =>
        simp only [hdef] at hok
        exact absurd hok (by simp)
      | some ds =>
        simp only [hdef] at hok
        simp only [hdef] at h
        cases hlk : ds.lookup d with
        | none =>
          simp only [hlk, Option.isSome] at hok
          exact absurd hok (by simp)
        | some refd =>
          simp only [hlk] at h
          simp only [hdef] at hds
          refine np_wrap_ok h (fun r0 h0 => ?_)
          refine hrec _ _ _ _ r0 ?_ h0
          rw [hdef]
          exact refsOkL_lookup hds hlk
  | typ t =>
    simp only [evalBody, Schema.form] at h
    exact np_eval_type ctx t inst st h
  | enum vals =>
    cases inst <;> simp only [evalBody, Schema.form] at h
    case str s =>
      split at h
      · obtain rfl : Outcome.ok st = r := by injection h
        exact np_ok st
      · exact np_err_then_pop ctx (push_schema_token "enum" st) h
    all_goals exact np_err_then_pop ctx (push_schema_token "enum" st) h
  | elements sub =>
    unfold refsOkF at hok
    cases inst <;> simp only [evalBody, Schema.form] at h
    case arr xs =>
      refine np_wrap_ok h (fun r0 hr0 => ?_)
      refine np_seqAll xs.enum (fun x _ s rx hgx => ?_) _ r0 hr0
      exact np_wrap_ok hgx (fun r1 hr1 => hrec _ _ _ _ r1 hok hr1)
    all_goals exact np_err_then_pop ctx (push_schema_token "elements" st) h
  | values sub =>
    unfold refsOkF at hok
    cases inst <;> simp only [evalBody, Schema.form] at h
    case obj kvs =>
      refine np_wrap_ok h (fun r0 hr0 => ?_)
      refine np_seqAll kvs (fun x _ s rx hgx => ?_) _ r0 hr0
      exact np_wrap_ok hgx (fun r1 hr1 => hrec _ _ _ _ r1 hok hr1)
    all_goals exact np_err_then_pop ctx (push_schema_token "values" st) h
  | properties required optional has_required =>
    unfold refsOkF at hok
    simp only [Bool.and_eq_true] at hok
    cases inst <;> simp only [evalBody, Schema.form] at h
    case obj kvs =>
      refine np_bind_ok h (fun r0 hr0 => ?_) (fun s2 h2 => ?_)
      · refine np_seqAll required (fun x hx s rx hgx => ?_) _ r0 hr0
        cases hk : kvs.lookup x.1 with
        | some sub_inst =>
          rw [hk] at hgx
          exact np_wrap_ok hgx
            (fun r1 hr1 => hrec _ _ _ _ r1 (refsOkL_mem hok.1 hx) hr1)
        | none =>
          rw [hk] at hgx
          exact np_err_then_pop ctx (push_schema_token x.1 s) hgx
      · refine np_bind_ok h2 (fun r2 hr2 => ?_) (fun s4 h3 => ?_)
        · refine np_seqAll optional (fun x hx s rx hgx => ?_) _ r2 hr2
          cases hk : kvs.lookup x.1 with
          | some sub_inst =>
            rw [hk] at hgx
            exact np_wrap_ok hgx
              (fun r1 hr1 => hrec _ _ _ _ r1 (refsOkL_mem hok.2 hx) hr1)
          | none =>
            rw [hk] at hgx
            obtain rfl :
                Outcome.ok (pop_schema_token (push_schema_token x.1 s)) =
                rx := by injection hgx
            exact np_ok _
        · split at h3
          · refine np_seqAll kvs (fun x _ s rx hgx => ?_) _ r h3
            exact np_strict_key_check ctx pt required optional x s hgx
          · obtain rfl : Outcome.ok (pop_schema_token s4) = r := by
              injection h3
            exact np_ok _
    all_goals
      exact np_err_then_pop ctx
        (push_schema_token
          (if has_required then "properties" else "optionalProperties") st) h
  | discriminator tag mapping =>
    unfold refsOkF at hok
    cases inst <;> simp only [evalBody, Schema.form] at h
    case obj kvs =>
      cases hk : kvs.lookup tag with
      | none =>
        simp only [hk] at h
        exact np_err_then_pop ctx
          (push_schema_token "tag" (push_schema_token "discriminator" st)) h
      | some v =>
        simp only [hk] at h
        cases v with
        | str sv =>
          cases hm : mapping.lookup sv with
          | none =>
            simp only [hm] at h
            exact np_stop_or ctx
              (push_instance_token tag (push_schema_token "mapping"
                (push_schema_token "discriminator" st))) h
          | some sub =>
            simp only [hm] at h
            exact np_wrap_ok h
              (fun r1 hr1 => hrec _ _ _ _ r1 (refsOkL_lookup hok hm) hr1)
        | null =>
          exact np_stop_or ctx
            (push_instance_token tag (push_schema_token "tag"
              (push_schema_token "discriminator" st))) h
        | bool b =>
          exact np_stop_or ctx
            (push_instance_token tag (push_schema_token "tag"
              (push_schema_token "discriminator" st))) h
        | num n =>
          exact np_stop_or ctx
            (push_instance_token tag (push_schema_token "tag"
              (push_schema_token "discriminator" st))) h
        | arr ys =>
          exact np_stop_or ctx
            (push_instance_token tag (push_schema_token "tag"
              (push_schema_token "discriminator" st))) h
        | obj kv2 =>
          exact np_stop_or ctx
            (push_instance_token tag (push_schema_token "tag"
              (push_schema_token "discriminator" st))) h
    all_goals
      exact np_stop_or ctx (push_schema_token "discriminator" st) h

theorem np_eval (ctx : Ctx)
    (hds : (match ctx.root_schema.definitions with
            | some l => refsOkL ctx.root_schema.definitions l
            | none => true) = true) :
    ∀ (fuel : Nat) (schema : Schema) (inst : Json) (pt : Option String)
      (st : VmState) (r : Outcome),
    refsOkS ctx.root_schema.definitions schema = true →
    eval ctx fuel schema inst pt st = some r → np r := by
  intro fuel
  induction fuel with
  | zero =>
    intro schema inst pt st r _ h
    exact absurd h (by simp [eval])
  | succ n ih =>
    intro schema inst pt st r hok h
    rw [eval_succ] at h
    exact np_evalBody ctx (eval ctx n) hds
      (fun a b c d e hok2 h2 => ih a b c d e hok2 h2)
      schema inst pt st r hok h

theorem exists_stop_or (f : VmState → VmState) (o : Outcome) :
    ∃ r, stop_or f o = some r := by
  cases o with
  | ok s => exact ⟨_, rfl⟩
  | stop s e => exact ⟨_, rfl⟩

theorem exists_err_then_pop (ctx : Ctx) (s : VmState) :
    ∃ r, err_then_pop ctx s = some r :=
  exists_stop_or pop_schema_token (push_err ctx s)

theorem wrap_ok_some {X : Option Outcome} (f : VmState → VmState)
    {r : Outcome} (h : X = some r) : ∃ q, wrap_ok f X = some q := by
  rw [h]
  cases r with
  | ok s => exact ⟨_, rfl⟩
  | stop s e => exact ⟨_, rfl⟩

theorem exists_check_int (ctx : Ctx) (inst : Json) (mn mx : Int)
    (st : VmState) : ∃ r, check_int ctx inst mn mx st = some r := by
  cases inst <;> simp only [check_int]
  case num n =>
    split
    · exact exists_err_then_pop ctx _
    · exact ⟨_, rfl⟩
  all_goals exact exists_err_then_pop ctx _

theorem exists_eval_type (ctx : Ctx) (t : Ty) (inst : Json) (st : VmState) :
    ∃ r, eval_type ctx t inst st = some r := by
  cases t <;> cases inst <;> simp only [eval_type] <;>
    first
    | exact exists_check_int ctx _ _ _ _
    | exact exists_err_then_pop ctx _
    | exact ⟨_, rfl⟩
    | (split
       · exact ⟨_, rfl⟩
       · exact exists_err_then_pop ctx _)

theorem exists_strict_key_check (ctx : Ctx) (pt : Option String)
    (required optional : List (String × Schema)) (kv : String × Json)
    (st : VmState) :
    ∃ r, strict_key_check ctx pt required optional kv st = some r := by
  unfold strict_key_check
  split
  · exact exists_stop_or _ _
  · exact ⟨_, rfl⟩

theorem schemaSize_pos (s : Schema) : 1 ≤ schemaSize s := by
  rcases s with ⟨defs, form⟩
  cases form <;> simp [schemaSize, formSize] <;> omega

theorem pairsSize_lookup {l : List (String × Schema)} :
    ∀ {d : String} {s : Schema}, l.lookup d = some s →
    schemaSize s ≤ pairsSize l := by
  induction l with
  | nil => intro d s h; exact absurd h (by simp)
  | cons p rest ih =>
    intro d s h
    rcases p with ⟨k, v⟩
    unfold List.lookup at h
    unfold pairsSize
    split at h
    · injection h with h2
      rw [← h2]
      omega
    · have := ih h
      omega

theorem pairsSize_mem {l : List (String × Schema)} :
    ∀ {p : String × Schema}, p ∈ l → schemaSize p.2 ≤ pairsSize l := by
  induction l with
  | nil => intro p h; exact absurd h (by simp)
  | cons q rest ih =>
    intro p h
    unfold pairsSize
    rcases List.mem_cons.1 h with h1 | h1
    · rw [h1]
      rcases q with ⟨k, v⟩
      simp only
      omega
    · have := ih h1
      rcases q with ⟨k, v⟩
      omega

theorem seqAll_exists (gF : Nat → α → VmState → Option Outcome) (L : Nat)
    (hmono : ∀ fuel fuel' (x : α) s r, fuel ≤ fuel' →
      gF fuel x s = some r → gF fuel' x s = some r)
    (hfr : ∀ fuel (x : α) s u, gF fuel x s = some (.ok u) →
      u.schema_frames.length = s.schema_frames.length) :
    ∀ (xs : List α),
    (∀ x ∈ xs, ∀ s : VmState, s.schema_frames.length = L →
      ∃ fuel r, gF fuel x s = some r) →
    ∀ s : VmState, s.schema_frames.length = L →
    ∃ fuel r, seqAll (gF fuel) xs s = some r := by
  intro xs
  induction xs with
  | nil =>
    intro _ s _
    exact ⟨0, .ok s, rfl⟩
  | cons x xs ih =>
    intro hex s hL
    obtain ⟨f1, r1, h1⟩ := hex x (List.mem_cons_self x xs) s hL
    cases r1 with
    | ok u =>
      have hLu : u.schema_frames.length = L := (hfr f1 x s u h1).trans hL
      obtain ⟨f2, r2, h2⟩ :=
        ih (fun y hy => hex y (List.mem_cons_of_mem x hy)) u hLu
      refine ⟨max f1 f2, r2, ?_⟩
      have h1' := hmono f1 (max f1 f2) x s _ (Nat.le_max_left f1 f2) h1
      have h2' : seqAll (gF (max f1 f2)) xs u = some r2 :=
        mono_seqAll
          (fun y s' r' h' => hmono f2 (max f1 f2) y s' r'
            (Nat.le_max_right f1 f2) h') xs u r2 h2
      unfold seqAll
      rw [h1']
      exact h2'
    | stop u e =>
      refine ⟨f1, .stop u e, ?_⟩
      unfold seqAll
      rw [h1]

theorem bind_ok_of_stop {X : Option Outcome} (k : VmState → Option Outcome)
    {u : VmState} {e : EvalStop} (h : X = some (.stop u e)) :
    bind_ok k X = some (.stop u e) := by
  rw [h]
  rfl

theorem bind_ok_of_ok {X : Option Outcome} (k : VmState → Option Outcome)
    {s : VmState} (h : X = some (.ok s)) : bind_ok k X = k s := by
  rw [h]
  rfl

theorem eval_exists (ctx : Ctx) (hmd : 1 ≤ ctx.max_depth) :
    ∀ (n : Nat) (schema : Schema) (inst : Json) (pt : Option String)
      (st : VmState),
    (ctx.max_depth - (st.schema_frames.length + 1)) *
        defsBound ctx.root_schema + schemaSize schema < n →
    st.schema_frames.length + 1 ≤ ctx.max_depth →
    schemaSize schema < defsBound ctx.root_schema →
    ∃ fuel r, eval ctx fuel schema inst pt st = some r := by
  intro n
  induction n using Nat.strong_induction_on with
  | _ n ih =>
    intro schema inst pt st hm hdep hsz
    rcases schema with ⟨defs, form⟩
    cases form with
    | empty => exact ⟨1, .ok st, rfl⟩
    | typ t =>
      obtain ⟨r, hr⟩ := exists_eval_type ctx t inst st
      exact ⟨1, r, hr⟩
    | enum vals =>
      cases inst with
      | str s =>
        have hex : ∃ r, (if vals.contains s = true then some (Outcome.ok st)
            else err_then_pop ctx (push_schema_token "enum" st)) = some r := by
          split
          · exact ⟨_, rfl⟩
          · exact exists_err_then_pop ctx _
        obtain ⟨r, hr⟩ := hex
        exact ⟨1, r, hr⟩
      | null => exact ⟨1, _, (exists_err_then_pop ctx _).choose_spec⟩
      | bool b => exact ⟨1, _, (exists_err_then_pop ctx _).choose_spec⟩
      | num m => exact ⟨1, _, (exists_err_then_pop ctx _).choose_spec⟩
      | arr xs => exact ⟨1, _, (exists_err_then_pop ctx _).choose_spec⟩
      | obj kvs => exact ⟨1, _, (exists_err_then_pop ctx _).choose_spec⟩
    | ref d =>
      by_cases hd : st.schema_frames.length + 1 = ctx.max_depth
      · refine ⟨1, .stop st .maxDepth, ?_⟩
        rw [eval_succ]
        simp only [evalBody, Schema.form]
        rw [if_pos hd]
      · cases hdef : ctx.root_schema.definitions with
        | none =>
          refine ⟨1, .stop st .panicked, ?_⟩
          rw [eval_succ]
          simp only [evalBody, Schema.form, hdef]
          rw [if_neg hd]
        | some ds =>
          cases hlk : ds.lookup d with
          | none =>
            refine ⟨1, .stop st .panicked, ?_⟩
            rw [eval_succ]
            simp only [evalBody, Schema.form, hdef, hlk]
            rw [if_neg hd]
          | some refd =>
            have hdep2 : st.schema_frames.length + 1 < ctx.max_depth :=
              lt_of_le_of_ne hdep hd
            have hszrefd : schemaSize refd < defsBound ctx.root_schema := by
              have h1 := pairsSize_lookup hlk
              have hB : defsBound ctx.root_schema =
                  1 + schemaSize ctx.root_schema + pairsSize ds := by
                unfold defsBound
                rw [hdef]
              omega
            have harith :
                (ctx.max_depth -
                    ((push_frame [d, "definitions"] st).schema_frames.length
                      + 1)) * defsBound ctx.root_schema + schemaSize refd <
                (ctx.max_depth - (st.schema_frames.length + 1)) *
                    defsBound ctx.root_schema +
                  schemaSize (Schema.mk defs (.ref d)) := by
              have hfr : (push_frame [d, "definitions"] st).schema_frames.length
                  = st.schema_frames.length + 1 := rfl
              rw [hfr]
              have he : ctx.max_depth - (st.schema_frames.length + 1) =
                  (ctx.max_depth - (st.schema_frames.length + 1 + 1)) + 1 := by
                omega
              rw [he, Nat.succ_mul]
              have hs1 : schemaSize (Schema.mk defs (.ref d)) = 1 := rfl
              rw [hs1]
              omega
            obtain ⟨f, r0, h0⟩ := ih
              ((ctx.max_depth - (st.schema_frames.length + 1)) *
                  defsBound ctx.root_schema +
                schemaSize (Schema.mk defs (.ref d))) hm refd inst none
              (push_frame [d, "definitions"] st) harith hdep2 hszrefd
            obtain ⟨q, hq⟩ := wrap_ok_some pop_frame h0
            refine ⟨f + 1, q, ?_⟩
            rw [eval_succ]
            simp only [evalBody, Schema.form, hdef, hlk]
            rw [if_neg hd]
            exact hq
    | elements sub =>
      cases inst with
      | arr xs =>
        have hmono1 : ∀ (fl fl' : Nat) (x : Nat × Json) s r, fl ≤ fl' →
            wrap_ok pop_instance_token
              (eval ctx fl sub x.2 none
                (push_instance_token (toString x.1) s)) = some r →
            wrap_ok pop_instance_token
              (eval ctx fl' sub x.2 none
                (push_instance_token (toString x.1) s)) = some r :=
          fun fl fl' x s r hle h =>
            mono_wrap_ok (fun r0 h0 => eval_mono_le ctx hle h0) h
        have hfr1 : ∀ (fl : Nat) (x : Nat × Json) s u,
            wrap_ok pop_instance_token
              (eval ctx fl sub x.2 none
                (push_instance_token (toString x.1) s)) = some (.ok u) →
            u.schema_frames.length = s.schema_frames.length := by
          intro fl x s u h
          obtain ⟨s1, h1, rfl⟩ := ok_of_wrap_ok h
          exact frames_eval ctx fl sub x.2 none
            (push_instance_token (toString x.1) s) s1 h1
        have hex1 : ∀ x ∈ xs.enum, ∀ s : VmState,
            s.schema_frames.length = st.schema_frames.length →
            ∃ fl r, wrap_ok pop_instance_token
              (eval ctx fl sub x.2 none
                (push_instance_token (toString x.1) s)) = some r := by
          intro x _ s hL
          have harith :
              (ctx.max_depth -
                  ((push_instance_token (toString x.1) s).schema_frames.length
                    + 1)) * defsBound ctx.root_schema + schemaSize sub <
              (ctx.max_depth - (st.schema_frames.length + 1)) *
                  defsBound ctx.root_schema +
                schemaSize (Schema.mk defs (.elements sub)) := by
            have hfr2 :
                (push_instance_token (toString x.1) s).schema_frames.length =
                st.schema_frames.length := hL
            rw [hfr2]
            have hs1 : schemaSize (Schema.mk defs (.elements sub)) =
                1 + schemaSize sub := rfl
            rw [hs1]
            omega
          have hsz2 : schemaSize sub < defsBound ctx.root_schema := by
            have hs1 : schemaSize (Schema.mk defs (.elements sub)) =
                1 + schemaSize sub := rfl
            rw [hs1] at hsz
            omega
          have hdep2 :
              (push_instance_token (toString x.1) s).schema_frames.length + 1
                ≤ ctx.max_depth := by
            have hfr2 :
                (push_instance_token (toString x.1) s).schema_frames.length =
                st.schema_frames.length := hL
            rw [hfr2]
            exact hdep
          obtain ⟨f, r0, h0⟩ := ih
            ((ctx.max_depth - (st.schema_frames.length + 1)) *
                defsBound ctx.root_schema +
              schemaSize (Schema.mk defs (.elements sub))) hm sub x.2 none
            (push_instance_token (toString x.1) s) harith hdep2 hsz2
          obtain ⟨q, hq⟩ := wrap_ok_some pop_instance_token h0
          exact ⟨f, q, hq⟩
        obtain ⟨F, rs, hs⟩ := seqAll_exists
          (fun fl (x : Nat × Json) s =>
            wrap_ok pop_instance_token
              (eval ctx fl sub x.2 none
                (push_instance_token (toString x.1) s)))
          st.schema_frames.length hmono1 hfr1 xs.enum hex1
          (push_schema_token "elements" st) rfl
        obtain ⟨q, hq⟩ := wrap_ok_some pop_schema_token hs
        refine ⟨F + 1, q, ?_⟩
        rw [eval_succ]
        simp only [evalBody, Schema.form]
        exact hq
      | null => exact ⟨1, _, (exists_err_then_pop ctx _).choose_spec⟩
      | bool b => exact ⟨1, _, (exists_err_then_pop ctx _).choose_spec⟩
      | num m => exact ⟨1, _, (exists_err_then_pop ctx _).choose_spec⟩
      | str s => exact ⟨1, _, (exists_err_then_pop ctx _).choose_spec⟩
      | obj kvs => exact ⟨1, _, (exists_err_then_pop ctx _).choose_spec⟩
    | values sub =>
      cases inst with
      | obj kvs =>
        have hmono1 : ∀ (fl fl' : Nat) (x : String × Json) s r, fl ≤ fl' →
            wrap_ok pop_instance_token
              (eval ctx fl sub x.2 none (push_instance_token x.1 s)) =
              some r →
            wrap_ok pop_instance_token
              (eval ctx fl' sub x.2 none (push_instance_token x.1 s)) =
              some r :=
          fun fl fl' x s r hle h =>
            mono_wrap_ok (fun r0 h0 => eval_mono_le ctx hle h0) h
        have hfr1 : ∀ (fl : Nat) (x : String × Json) s u,
            wrap_ok pop_instance_token
              (eval ctx fl sub x.2 none (push_instance_token x.1 s)) =
              some (.ok u) →
            u.schema_frames.length = s.schema_frames.length := by
          intro fl x s u h
          obtain ⟨s1, h1, rfl⟩ := ok_of_wrap_ok h
          exact frames_eval ctx fl sub x.2 none
            (push_instance_token x.1 s) s1 h1
        have hex1 : ∀ x ∈ kvs, ∀ s : VmState,
            s.schema_frames.length = st.schema_frames.length →
            ∃ fl r, wrap_ok pop_instance_token
              (eval ctx fl sub x.2 none (push_instance_token x.1 s)) =
              some r := by
          intro x _ s hL
          have harith :
              (ctx.max_depth -
                  ((push_instance_token x.1 s).schema_frames.length + 1)) *
                  defsBound ctx.root_schema + schemaSize sub <
              (ctx.max_depth - (st.schema_frames.length + 1)) *
                  defsBound ctx.root_schema +
                schemaSize (Schema.mk defs (.values sub)) := by
            have hfr2 : (push_instance_token x.1 s).schema_frames.length =
                st.schema_frames.length := hL
            rw [hfr2]
            have hs1 : schemaSize (Schema.mk defs (.values sub)) =
                1 + schemaSize sub := rfl
            rw [hs1]
            omega
          have hsz2 : schemaSize sub < defsBound ctx.root_schema := by
            have hs1 : schemaSize (Schema.mk defs (.values sub)) =
                1 + schemaSize sub := rfl
            rw [hs1] at hsz
            omega
          have hdep2 : (push_instance_token x.1 s).schema_frames.length + 1
              ≤ ctx.max_depth := by
            have hfr2 : (push_instance_token x.1 s).schema_frames.length =
                st.schema_frames.length := hL
            rw [hfr2]
            exact hdep
          obtain ⟨f, r0, h0⟩ := ih
            ((ctx.max_depth - (st.schema_frames.length + 1)) *
                defsBound ctx.root_schema +
              schemaSize (Schema.mk defs (.values sub))) hm sub x.2 none
            (push_instance_token x.1 s) harith hdep2 hsz2
          obtain ⟨q, hq⟩ := wrap_ok_some pop_instance_token h0
          exact ⟨f, q, hq⟩
        obtain ⟨F, rs, hs⟩ := seqAll_exists
          (fun fl (x : String × Json) s =>
            wrap_ok pop_instance_token
              (eval ctx fl sub x.2 none (push_instance_token x.1 s)))
          st.schema_frames.length hmono1 hfr1 kvs hex1
          (push_schema_token "values" st) rfl
        obtain ⟨q, hq⟩ := wrap_ok_some pop_schema_token hs
        refine ⟨F + 1, q, ?_⟩
        rw [eval_succ]
        simp only [evalBody, Schema.form]
        exact hq
      | null => exact ⟨1, _, (exists_err_then_pop ctx _).choose_spec⟩
      | bool b => exact ⟨1, _, (exists_err_then_pop ctx _).choose_spec⟩
      | num m => exact ⟨1, _, (exists_err_then_pop ctx _).choose_spec⟩
      | str s => exact ⟨1, _, (exists_err_then_pop ctx _).choose_spec⟩
      | arr ys => exact ⟨1, _, (exists_err_then_pop ctx _).choose_spec⟩
    | properties required optional has_required =>
      cases inst with
      | obj kvs =>
        have hsform : schemaSize (Schema.mk defs
            (.properties required optional has_required)) =
            1 + pairsSize required + pairsSize optional := rfl
        have hmono1 : ∀ (fl fl' : Nat) (x : String × Schema) s r, fl ≤ fl' →
            (match kvs.lookup x.1 with
             | some sub_inst =>
               wrap_ok (fun s2 => pop_schema_token (pop_instance_token s2))
                 (eval ctx fl x.2 sub_inst none
                   (push_instance_token x.1 (push_schema_token x.1 s)))
             | none => err_then_pop ctx (push_schema_token x.1 s)) = some r →
            (match kvs.lookup x.1 with
             | some sub_inst =>
               wrap_ok (fun s2 => pop_schema_token (pop_instance_token s2))
                 (eval ctx fl' x.2 sub_inst none
                   (push_instance_token x.1 (push_schema_token x.1 s)))
             | none => err_then_pop ctx (push_schema_token x.1 s)) =
              some r := by
          intro fl fl' x s r hle h
          cases hk : kvs.lookup x.1 with
          | some si =>
            simp only [hk] at h ⊢
            exact mono_wrap_ok (fun r0 h0 => eval_mono_le ctx hle h0) h
          | none =>
            simp only [hk] at h ⊢
            exact h
        have hfr1 : ∀ (fl : Nat) (x : String × Schema) s u,
            (match kvs.lookup x.1 with
             | some sub_inst =>
               wrap_ok (fun s2 => pop_schema_token (pop_instance_token s2))
                 (eval ctx fl x.2 sub_inst none
                   (push_instance_token x.1 (push_schema_token x.1 s)))
             | none => err_then_pop ctx (push_schema_token x.1 s)) =
              some (.ok u) →
            u.schema_frames.length = s.schema_frames.length := by
          intro fl x s u h
          cases hk : kvs.lookup x.1 with
          | some si =>
            simp only [hk] at h
            obtain ⟨s0, h1, hu⟩ := ok_of_wrap_ok h
            rw [hu]
            exact frames_eval ctx fl x.2 si none
              (push_instance_token x.1 (push_schema_token x.1 s)) s0 h1
          | none =>
            simp only [hk] at h
            exact congrArg List.length
              (frames_err_then_pop ctx (push_schema_token x.1 s) h)
        have hex1 : ∀ x ∈ required, ∀ s : VmState,
            s.schema_frames.length = st.schema_frames.length →
            ∃ fl r, (match kvs.lookup x.1 with
             | some sub_inst =>
               wrap_ok (fun s2 => pop_schema_token (pop_instance_token s2))
                 (eval ctx fl x.2 sub_inst none
                   (push_instance_token x.1 (push_schema_token x.1 s)))
             | none => err_then_pop ctx (push_schema_token x.1 s)) =
              some r := by
          intro x hx s hL
          cases hk : kvs.lookup x.1 with
          | some si =>
            have hmem := pairsSize_mem hx
            have hfrS : (push_instance_token x.1
                (push_schema_token x.1 s)).schema_frames.length =
                st.schema_frames.length := hL
            have harith :
                (ctx.max_depth - ((push_instance_token x.1
                    (push_schema_token x.1 s)).schema_frames.length + 1)) *
                    defsBound ctx.root_schema + schemaSize x.2 <
                (ctx.max_depth - (st.schema_frames.length + 1)) *
                    defsBound ctx.root_schema +
                  schemaSize (Schema.mk defs
                    (.properties required optional has_required)) := by
              rw [hfrS, hsform]
              omega
            have hdep2 : (push_instance_token x.1
                (push_schema_token x.1 s)).schema_frames.length + 1 ≤
                ctx.max_depth := by
              rw [hfrS]
              exact hdep
            have hsz2 : schemaSize x.2 < defsBound ctx.root_schema := by
              rw [hsform] at hsz
              omega
            obtain ⟨f, r0, h0⟩ := ih
              ((ctx.max_depth - (st.schema_frames.length + 1)) *
                  defsBound ctx.root_schema +
                schemaSize (Schema.mk defs
                  (.properties required optional has_required))) hm x.2 si
              none (push_instance_token x.1 (push_schema_token x.1 s))
              harith hdep2 hsz2
            obtain ⟨q, hq⟩ := wrap_ok_some
              (fun s2 => pop_schema_token (pop_instance_token s2)) h0
            refine ⟨f, q, ?_⟩
            simp only [hk]
            exact hq
          | none =>
            refine ⟨0, ?_⟩
            simp only [hk]
            exact exists_err_then_pop ctx (push_schema_token x.1 s)
        obtain ⟨F1, r1, h1⟩ := seqAll_exists
          (fun fl (p : String × Schema) s =>
            match kvs.lookup p.1 with
            | some sub_inst =>
              wrap_ok (fun s2 => pop_schema_token (pop_instance_token s2))
                (eval ctx fl p.2 sub_inst none
                  (push_instance_token p.1 (push_schema_token p.1 s)))
            | none => err_then_pop ctx (push_schema_token p.1 s))
          st.schema_frames.length hmono1 hfr1 required hex1
          (push_schema_token "properties" st) rfl
        cases r1 with
        | stop u e =>
          refine ⟨F1 + 1, .stop u e, ?_⟩
          rw [eval_succ]
          simp only [evalBody, Schema.form]
          exact bind_ok_of_stop _ h1
        | ok s2 =>
          have hL2 : s2.schema_frames.length = st.schema_frames.length :=
            ok_of_seqAll
              (fun v => v.schema_frames.length = st.schema_frames.length)
              (fun x s u h hP => (hfr1 F1 x s u h).trans hP) required
              (push_schema_token "properties" st) s2 h1 rfl
          have hmono2 : ∀ (fl fl' : Nat) (x : String × Schema) s r, fl ≤ fl' →
              (match kvs.lookup x.1 with
               | some sub_inst =>
                 wrap_ok (fun s2 => pop_schema_token (pop_instance_token s2))
                   (eval ctx fl x.2 sub_inst none
                     (push_instance_token x.1 (push_schema_token x.1 s)))
               | none =>
                 some (.ok (pop_schema_token (push_schema_token x.1 s)))) =
                some r →
              (match kvs.lookup x.1 with
               | some sub_inst =>
                 wrap_ok (fun s2 => pop_schema_token (pop_instance_token s2))
                   (eval ctx fl' x.2 sub_inst none
                     (push_instance_token x.1 (push_schema_token x.1 s)))
               | none =>
                 some (.ok (pop_schema_token (push_schema_token x.1 s)))) =
                some r := by
            intro fl fl' x s r hle h
            cases hk : kvs.lookup x.1 with
            | some si =>
              simp only [hk] at h ⊢
              exact mono_wrap_ok (fun r0 h0 => eval_mono_le ctx hle h0) h
            | none =>
              simp only [hk] at h ⊢
              exact h
          have hfr2 : ∀ (fl : Nat) (x : String × Schema) s u,
              (match kvs.lookup x.1 with
               | some sub_inst =>
                 wrap_ok (fun s2 => pop_schema_token (pop_instance_token s2))
                   (eval ctx fl x.2 sub_inst none
                     (push_instance_token x.1 (push_schema_token x.1 s)))
               | none =>
                 some (.ok (pop_schema_token (push_schema_token x.1 s)))) =
                some (.ok u) →
              u.schema_frames.length = s.schema_frames.length := by
            intro fl x s u h
            cases hk : kvs.lookup x.1 with
            | some si =>
              simp only [hk] at h
              obtain ⟨s0, h1x, hu⟩ := ok_of_wrap_ok h
              rw [hu]
              exact frames_eval ctx fl x.2 si none
                (push_instance_token x.1 (push_schema_token x.1 s)) s0 h1x
            | none =>
              simp only [hk] at h
              have h2 : Outcome.ok (pop_schema_token (push_schema_token x.1
                  s)) = Outcome.ok u := by injection h
              injection h2 with h3
              rw [← h3]
              rfl
          have hex2 : ∀ x ∈ optional, ∀ s : VmState,
              s.schema_frames.length = st.schema_frames.length →
              ∃ fl r, (match kvs.lookup x.1 with
               | some sub_inst =>
                 wrap_ok (fun s2 => pop_schema_token (pop_instance_token s2))
                   (eval ctx fl x.2 sub_inst none
                     (push_instance_token x.1 (push_schema_token x.1 s)))
               | none =>
                 some (.ok (pop_schema_token (push_schema_token x.1 s)))) =
                some r := by
            intro x hx s hL
            cases hk : kvs.lookup x.1 with
            | some si =>
              have hmem := pairsSize_mem hx
              have hfrS : (push_instance_token x.1
                  (push_schema_token x.1 s)).schema_frames.length =
                  st.schema_frames.length := hL
              have harith :
                  (ctx.max_depth - ((push_instance_token x.1
                      (push_schema_token x.1 s)).schema_frames.length + 1)) *
                      defsBound ctx.root_schema + schemaSize x.2 <
                  (ctx.max_depth - (st.schema_frames.length + 1)) *
                      defsBound ctx.root_schema +
                    schemaSize (Schema.mk defs
                      (.properties required optional has_required)) := by
                rw [hfrS, hsform]
                omega
              have hdep2 : (push_instance_token x.1
                  (push_schema_token x.1 s)).schema_frames.length + 1 ≤
                  ctx.max_depth := by
                rw [hfrS]
                exact hdep
              have hsz2 : schemaSize x.2 < defsBound ctx.root_schema := by
                rw [hsform] at hsz
                omega
              obtain ⟨f, r0, h0⟩ := ih
                ((ctx.max_depth - (st.schema_frames.length + 1)) *
                    defsBound ctx.root_schema +
                  schemaSize (Schema.mk defs
                    (.properties required optional has_required))) hm x.2 si
                none (push_instance_token x.1 (push_schema_token x.1 s))
                harith hdep2 hsz2
              obtain ⟨q, hq⟩ := wrap_ok_some
                (fun s2 => pop_schema_token (pop_instance_token s2)) h0
              refine ⟨f, q, ?_⟩
              simp only [hk]
              exact hq
            | none =>
              refine ⟨0, ?_⟩
              simp only [hk]
              exact ⟨_, rfl⟩
          obtain ⟨F2, r2, h2⟩ := seqAll_exists
            (fun fl (p : String × Schema) s =>
              match kvs.lookup p.1 with
              | some sub_inst =>
                wrap_ok (fun s2 => pop_schema_token (pop_instance_token s2))
                  (eval ctx fl p.2 sub_inst none
                    (push_instance_token p.1 (push_schema_token p.1 s)))
              | none =>
                some (.ok (pop_schema_token (push_schema_token p.1 s))))
            st.schema_frames.length hmono2 hfr2 optional hex2
            (push_schema_token "optionalProperties" (pop_schema_token s2))
            hL2
          have h1M : seqAll
              (fun (p : String × Schema) s =>
                match kvs.lookup p.1 with
                | some sub_inst =>
                  wrap_ok (fun s2 => pop_schema_token (pop_instance_token s2))
                    (eval ctx (max F1 F2) p.2 sub_inst none
                      (push_instance_token p.1 (push_schema_token p.1 s)))
                | none => err_then_pop ctx (push_schema_token p.1 s))
              required (push_schema_token "properties" st) =
              some (.ok s2) :=
            mono_seqAll
              (fun x s r h => hmono1 F1 (max F1 F2) x s r
                (Nat.le_max_left F1 F2) h) required
              (push_schema_token "properties" st) (.ok s2) h1
          have h2M : seqAll
              (fun (p : String × Schema) s =>
                match kvs.lookup p.1 with
                | some sub_inst =>
                  wrap_ok (fun s2 => pop_schema_token (pop_instance_token s2))
                    (eval ctx (max F1 F2) p.2 sub_inst none
                      (push_instance_token p.1 (push_schema_token p.1 s)))
                | none =>
                  some (.ok (pop_schema_token (push_schema_token p.1 s))))
              optional
              (push_schema_token "optionalProperties" (pop_schema_token s2)) =
              some r2 :=
            mono_seqAll
              (fun x s r h => hmono2 F2 (max F1 F2) x s r
                (Nat.le_max_right F1 F2) h) optional
              (push_schema_token "optionalProperties" (pop_schema_token s2))
              r2 h2
          cases r2 with
          | stop u e =>
            refine ⟨max F1 F2 + 1, .stop u e, ?_⟩
            rw [eval_succ]
            simp only [evalBody, Schema.form]
            exact (bind_ok_of_ok _ h1M).trans (bind_ok_of_stop _ h2M)
          | ok s4 =>
            have hL4 : s4.schema_frames.length = st.schema_frames.length :=
              ok_of_seqAll
                (fun v => v.schema_frames.length = st.schema_frames.length)
                (fun x s u h hP => (hfr2 (max F1 F2) x s u h).trans hP)
                optional
                (push_schema_token "optionalProperties" (pop_schema_token s2))
                s4 h2M hL2
            cases hsis : ctx.strict_instance_semantics with
            | true =>
              have hmono3 : ∀ (fl fl' : Nat) (x : String × Json) s r,
                  fl ≤ fl' →
                  strict_key_check ctx pt required optional x s = some r →
                  strict_key_check ctx pt required optional x s = some r :=
                fun _ _ _ _ _ _ h => h
              have hfr3 : ∀ (fl : Nat) (x : String × Json) s u,
                  strict_key_check ctx pt required optional x s =
                    some (.ok u) →
                  u.schema_frames.length = s.schema_frames.length :=
                fun _ x s u h =>
                  congrArg List.length (frames_strict_key_check ctx h)
              have hex3 : ∀ x ∈ kvs, ∀ s : VmState,
                  s.schema_frames.length = st.schema_frames.length →
                  ∃ fl r, strict_key_check ctx pt required optional x s =
                    some r :=
                fun x _ s _ =>
                  ⟨0, exists_strict_key_check ctx pt required optional x s⟩
              obtain ⟨F3, r3, h3⟩ := seqAll_exists
                (fun _ (x : String × Json) s =>
                  strict_key_check ctx pt required optional x s)
                st.schema_frames.length hmono3 hfr3 kvs hex3
                (pop_schema_token s4) hL4
              have e3 : (if ctx.strict_instance_semantics then
                  seqAll (strict_key_check ctx pt required optional) kvs
                    (pop_schema_token s4)
                else some (Outcome.ok (pop_schema_token s4))) =
                  seqAll (strict_key_check ctx pt required optional) kvs
                    (pop_schema_token s4) := by
                rw [hsis]
                exact if_pos rfl
              refine ⟨max F1 F2 + 1, r3, ?_⟩
              rw [eval_succ]
              simp only [evalBody, Schema.form]
              exact (bind_ok_of_ok _ h1M).trans
                ((bind_ok_of_ok _ h2M).trans (e3.trans h3))
            | false =>
              have e3 : (if ctx.strict_instance_semantics then
                  seqAll (strict_key_check ctx pt required optional) kvs
                    (pop_schema_token s4)
                else some (Outcome.ok (pop_schema_token s4))) =
                  some (Outcome.ok (pop_schema_token s4)) := by
                rw [hsis]
                exact if_neg Bool.false_ne_true
              refine ⟨max F1 F2 + 1, .ok (pop_schema_token s4), ?_⟩
              rw [eval_succ]
              simp only [evalBody, Schema.form]
              exact (bind_ok_of_ok _ h1M).trans
                ((bind_ok_of_ok _ h2M).trans e3)
      | null => exact ⟨1, _, (exists_err_then_pop ctx _).choose_spec⟩
      | bool b => exact ⟨1, _, (exists_err_then_pop ctx _).choose_spec⟩
      | num m => exact ⟨1, _, (exists_err_then_pop ctx _).choose_spec⟩
      | str s => exact ⟨1, _, (exists_err_then_pop ctx _).choose_spec⟩
      | arr ys => exact ⟨1, _, (exists_err_then_pop ctx _).choose_spec⟩
    | discriminator tag mapping =>
      cases inst with
      | obj kvs =>
        cases hk : kvs.lookup tag with
        | none =>
          obtain ⟨r, hr⟩ := exists_err_then_pop ctx
            (push_schema_token "tag" (push_schema_token "discriminator" st))
          refine ⟨1, r, ?_⟩
          rw [eval_succ]
          simp only [evalBody, Schema.form, hk]
          exact hr
        | some v =>
          cases v with
          | str sv =>
            cases hmp : mapping.lookup sv with
            | none =>
              obtain ⟨r, hr⟩ := exists_stop_or
                (fun st2 => pop_schema_token (pop_instance_token st2))
                (push_err ctx
                  (push_instance_token tag (push_schema_token "mapping"
                    (push_schema_token "discriminator" st))))
              refine ⟨1, r, ?_⟩
              rw [eval_succ]
              simp only [evalBody, Schema.form, hk, hmp]
              exact hr
            | some sub =>
              have harith :
                  (ctx.max_depth - (st.schema_frames.length + 1)) *
                      defsBound ctx.root_schema + schemaSize sub <
                  (ctx.max_depth - (st.schema_frames.length + 1)) *
                      defsBound ctx.root_schema +
                    schemaSize (Schema.mk defs
                      (.discriminator tag mapping)) := by
                have h1 := pairsSize_lookup hmp
                have hs1 : schemaSize (Schema.mk defs
                    (.discriminator tag mapping)) =
                    1 + pairsSize mapping := rfl
                rw [hs1]
                omega
              have hsz2 : schemaSize sub < defsBound ctx.root_schema := by
                have h1 := pairsSize_lookup hmp
                have hs1 : schemaSize (Schema.mk defs
                    (.discriminator tag mapping)) =
                    1 + pairsSize mapping := rfl
                rw [hs1] at hsz
                omega
              obtain ⟨f, r0, h0⟩ := ih
                ((ctx.max_depth - (st.schema_frames.length + 1)) *
                    defsBound ctx.root_schema +
                  schemaSize (Schema.mk defs (.discriminator tag mapping)))
                hm sub (.obj kvs) (some tag)
                (push_schema_token sv (push_schema_token "mapping"
                  (push_schema_token "discriminator" st))) harith hdep hsz2
              obtain ⟨q, hq⟩ := wrap_ok_some
                (fun st2 => pop_schema_token (pop_schema_token st2)) h0
              refine ⟨f + 1, q, ?_⟩
              rw [eval_succ]
              simp only [evalBody, Schema.form, hk, hmp]
              exact hq
          | null =>
            obtain ⟨r, hr⟩ := exists_stop_or
              (fun st2 => pop_schema_token (pop_instance_token st2))
              (push_err ctx (push_instance_token tag (push_schema_token "tag"
                (push_schema_token "discriminator" st))))
            refine ⟨1, r, ?_⟩
            rw [eval_succ]
            simp only [evalBody, Schema.form, hk]
            exact hr
          | bool b =>
            obtain ⟨r, hr⟩ := exists_stop_or
              (fun st2 => pop_schema_token (pop_instance_token st2))
              (push_err ctx (push_instance_token tag (push_schema_token "tag"
                (push_schema_token "discriminator" st))))
            refine ⟨1, r, ?_⟩
            rw [eval_succ]
            simp only [evalBody, Schema.form, hk]
            exact hr
          | num m =>
            obtain ⟨r, hr⟩ := exists_stop_or
              (fun st2 => pop_schema_token (pop_instance_token st2))
              (push_err ctx (push_instance_token tag (push_schema_token "tag"
                (push_schema_token "discriminator" st))))
            refine ⟨1, r, ?_⟩
            rw [eval_succ]
            simp only [evalBody, Schema.form, hk]
            exact hr
          | arr ys =>
            obtain ⟨r, hr⟩ := exists_stop_or
              (fun st2 => pop_schema_token (pop_instance_token st2))
              (push_err ctx (push_instance_token tag (push_schema_token "tag"
                (push_schema_token "discriminator" st))))
            refine ⟨1, r, ?_⟩
            rw [eval_succ]
            simp only [evalBody, Schema.form, hk]
            exact hr
          | obj kv2 =>
            obtain ⟨r, hr⟩ := exists_stop_or
              (fun st2 => pop_schema_token (pop_instance_token st2))
              (push_err ctx (push_instance_token tag (push_schema_token "tag"
                (push_schema_token "discriminator" st))))
            refine ⟨1, r, ?_⟩
            rw [eval_succ]
            simp only [evalBody, Schema.form, hk]
            exact hr
      | null => exact ⟨1, _, (exists_stop_or _ _).choose_spec⟩
      | bool b => exact ⟨1, _, (exists_stop_or _ _).choose_spec⟩
      | num m => exact ⟨1, _, (exists_stop_or _ _).choose_spec⟩
      | str s => exact ⟨1, _, (exists_stop_or _ _).choose_spec⟩
      | arr ys => exact ⟨1, _, (exists_stop_or _ _).choose_spec⟩

theorem cyc_eval_none :
    ∀ (fuel : Nat) (defs0 : Option (List (String × Schema))) (inst : Json)
      (pt : Option String) (st : VmState),
    eval ⟨0, 0, false, cycSchema, fun _ => false⟩ fuel
      (Schema.mk defs0 (.ref "a")) inst pt st = none := by
  intro fuel
  induction fuel with
  | zero => intro defs0 inst pt st; rfl
  | succ n ih =>
    intro defs0 inst pt st
    rw [eval_succ]
    simp only [evalBody, Schema.form]
    rw [if_neg (Nat.succ_ne_zero st.schema_frames.length)]
    exact (congrArg (wrap_ok pop_frame)
      (ih none inst none (push_frame ["a", "definitions"] st))).trans rfl

/-- C2 counterexample: with `max_depth = 0` and the cyclically-defined
schema `{"definitions": {"a": {"ref": "a"}}, "ref": "a"}`, `Vm::eval`
recurses forever — `cyc_eval_none` shows the fuel model returns no
result at ANY fuel; this closed instance exhibits it at fuel 1000,
contradicting the claim that evaluation terminates for every
configuration including `max_depth = 0`. -/
theorem c2_counterexample :
    validate 0 0 false (fun _ => false) 1000 cycSchema (.obj []) = none := by
  have h : eval ⟨0, 0, false, cycSchema, fun _ => false⟩ 1000 cycSchema
      (.obj []) none ⟨[], [], [], []⟩ = none :=
    cyc_eval_none 1000 (some [("a", Schema.mk none (.ref "a"))]) (.obj [])
      none ⟨[], [], [], []⟩
  unfold validate
  rw [h]

/-- C2 (amended): if every `ref` reachable from the root schema resolves
(`wf_root`, the invariant `Schema::from_serde` establishes) and
`max_depth ≥ 1`, then `validate` terminates: some fuel suffices, and the
result is an error list or `MaxDepthExceeded`, never a panic.  The
unamended claim — termination for every configuration, including
`max_depth = 0` on cyclic definitions — is refuted by the counterexample
above. -/
theorem c2_termination (max_failures max_depth : Nat) (strict : Bool)
    (rk : String → Bool) (schema : Schema) (inst : Json)
    (hwf : wf_root schema = true) (hmd : 1 ≤ max_depth) :
    ∃ fuel out,
      validate max_failures max_depth strict rk fuel schema inst =
        some out ∧ out ≠ .panicked := by
  simp only [wf_root, Bool.and_eq_true] at hwf
  obtain ⟨hok, hds⟩ := hwf
  have hsz : schemaSize schema < defsBound schema := by
    unfold defsBound
    omega
  obtain ⟨fuel, r, hr⟩ := eval_exists
    ⟨max_failures, max_depth, strict, schema, rk⟩ hmd
    ((max_depth - 1) * defsBound schema + schemaSize schema + 1) schema inst
    none ⟨[], [], [], []⟩
    (by
      show (max_depth - 1) * defsBound schema + schemaSize schema <
        (max_depth - 1) * defsBound schema + schemaSize schema + 1
      omega)
    hmd hsz
  have hnp := np_eval ⟨max_failures, max_depth, strict, schema, rk⟩ hds fuel
    schema inst none ⟨[], [], [], []⟩ r hok hr
  refine ⟨fuel, ?_⟩
  unfold validate
  rw [hr]
  cases r with
  | ok s => exact ⟨.ok s.errors, rfl, fun hc => VmOut.noConfusion hc⟩
  | stop s e =>
    cases e with
    | internal => exact ⟨.ok s.errors, rfl, fun hc => VmOut.noConfusion hc⟩
    | maxDepth => exact ⟨.maxDepthExceeded, rfl, fun hc => VmOut.noConfusion hc⟩
    | panicked => exact absurd rfl (hnp s)

/-- Witness for the amended C2 theorem: the cyclic schema of the
`infinite_loop` test, under the default configuration (`max_depth = 32`),
terminates. -/
theorem c2_termination_witness :
    wf_root cycSchema = true ∧ 1 ≤ 32 ∧
    ∃ fuel out,
      validate 0 32 false (fun _ => false) fuel cycSchema (.obj []) =
        some out ∧ out ≠ .panicked :=
  ⟨rfl, by decide,
    c2_termination 0 32 false (fun _ => false) cycSchema (.obj []) rfl
      (by decide)⟩

end Vm

namespace Reg

theorem mem_insertId (u u0 : String) (out : List String) :
    u ∈ insertId u0 out ↔ u ∈ out ∨ u = u0 := by
  unfold insertId
  by_cases hin : u0 ∈ out
  · rw [if_pos hin]
    constructor
    · exact Or.inl
    · rintro (h | rfl)
      · exact h
      · exact hin
  · rw [if_neg hin]
    simp

theorem nodup_insertId (u0 : String) (out : List String) (h : out.Nodup) :
    (insertId u0 out).Nodup := by
  unfold insertId
  by_cases hin : u0 ∈ out
  · rw [if_pos hin]
    exact h
  · rw [if_neg hin]
    simp [List.nodup_append, h, hin]

theorem cmi_spec_all : ∀ n : Nat,
    (∀ (schemas : List (Option String × RSchema)) (out : List String)
       (s : RSchema) (res : List String), rsizeS s ≤ n →
       cmi schemas out s = .ok res →
       (∀ u, u ∈ res ↔ u ∈ out ∨
         (some u ∈ refIds s ∧ schemas.lookup (some u) = none)) ∧
       (out.Nodup → res.Nodup)) ∧
    (∀ (schemas : List (Option String × RSchema)) (out : List String)
       (f : RForm) (res : List String), rsizeF f ≤ n →
       cmiForm schemas out f = .ok res →
       (∀ u, u ∈ res ↔ u ∈ out ∨
         (some u ∈ refIdsForm f ∧ schemas.lookup (some u) = none)) ∧
       (out.Nodup → res.Nodup)) ∧
    (∀ (schemas : List (Option String × RSchema)) (out : List String)
       (l : List (String × RSchema)) (res : List String), rsizeL l ≤ n →
       cmiList schemas out l = .ok res →
       (∀ u, u ∈ res ↔ u ∈ out ∨
         (some u ∈ refIdsList l ∧ schemas.lookup (some u) = none)) ∧
       (out.Nodup → res.Nodup)) := by
  intro n
  induction n using Nat.strong_induction_on with
  | _ n ih =>
    refine ⟨?_, ?_, ?_⟩
    · intro schemas out s res hsz h
      rcases s with ⟨root, form⟩
      cases root with
      | none =>
        simp only [cmi] at h
        simp only [rsizeS] at hsz
        obtain ⟨_, ihF, _⟩ := ih (n - 1) (by omega)
        obtain ⟨hm, hnd⟩ := ihF schemas out form res (by omega) h
        refine ⟨?_, hnd⟩
        intro u
        have hr : refIds (RSchema.mk none form) = refIdsForm form := by
          simp [refIds]
        rw [hr]
        exact hm u
      | some r0 =>
        rcases r0 with ⟨rid, rdefs⟩
        simp only [cmi] at h
        simp only [rsizeS] at hsz
        cases hc : cmiList schemas out rdefs with
        | error e =>
          rw [hc] at h
          exact Except.noConfusion h
        | ok out1 =>
          rw [hc] at h
          obtain ⟨_, ihF, ihL⟩ := ih (n - 1) (by omega)
          obtain ⟨hm1, hnd1⟩ := ihL schemas out rdefs out1 (by omega) hc
          obtain ⟨hm2, hnd2⟩ := ihF schemas out1 form res (by omega) h
          refine ⟨?_, fun hnd => hnd2 (hnd1 hnd)⟩
          intro u
          have hr : refIds (RSchema.mk (some (RRoot.mk rid rdefs)) form) =
              refIdsList rdefs ++ refIdsForm form := by
            simp [refIds]
          rw [hr, hm2 u, hm1 u]
          simp only [List.mem_append]
          tauto
    · intro schemas out f res hsz h
      cases f with
      | empty =>
        simp only [cmiForm] at h
        injection h with h2
        subst h2
        refine ⟨?_, id⟩
        intro u
        simp [refIdsForm]
      | typ t =>
        simp only [cmiForm] at h
        injection h with h2
        subst h2
        refine ⟨?_, id⟩
        intro u
        simp [refIdsForm]
      | enum vals =>
        simp only [cmiForm] at h
        injection h with h2
        subst h2
        refine ⟨?_, id⟩
        intro u
        simp [refIdsForm]
      | ref id rdef =>
        simp only [cmiForm] at h
        cases hlk : schemas.lookup id with
        | some refd =>
          simp only [hlk] at h
          cases hrd : refd.root_data with
          | none =>
            simp only [hrd] at h
            exact Except.noConfusion h
          | some rr =>
            rcases rr with ⟨i2, rdefs2⟩
            simp only [hrd] at h
            have hres : res = out := by
              cases rdef with
              | some d =>
                have h2 : (if (rdefs2.lookup d).isSome = true then
                    Except.ok out
                  else Except.error (CompErr.noSuchDef id d)) =
                    Except.ok res := h
                by_cases hd : (rdefs2.lookup d).isSome = true
                · rw [if_pos hd] at h2
                  injection h2 with h3
                  exact h3.symm
                · rw [if_neg hd] at h2
                  exact Except.noConfusion h2
              | none =>
                have h2 : (Except.ok out : Except CompErr (List String)) =
                    Except.ok res := h
                injection h2 with h3
                exact h3.symm
            subst hres
            refine ⟨?_, fun hh => hh⟩
            intro u
            constructor
            · exact Or.inl
            · rintro (hu | ⟨hid, hnone⟩)
              · exact hu
              · simp only [refIdsForm, List.mem_singleton] at hid
                rw [hid] at hnone
                rw [hlk] at hnone
                exact Option.noConfusion hnone
        | none =>
          simp only [hlk] at h
          cases id with
          | some u0 =>
            have h2 : (Except.ok (insertId u0 out) :
                Except CompErr (List String)) = Except.ok res := h
            injection h2 with h3
            subst h3
            refine ⟨?_, nodup_insertId u0 out⟩
            intro u
            rw [mem_insertId]
            constructor
            · rintro (hu | rfl)
              · exact Or.inl hu
              · exact Or.inr ⟨by simp [refIdsForm], hlk⟩
            · rintro (hu | ⟨hid, _⟩)
              · exact Or.inl hu
              · simp only [refIdsForm, List.mem_singleton] at hid
                injection hid with h3
                exact Or.inr h3
          | none =>
            exact Except.noConfusion h
      | elements sub =>
        simp only [cmiForm] at h
        simp only [rsizeF] at hsz
        obtain ⟨ihS, _, _⟩ := ih (n - 1) (by omega)
        obtain ⟨hm, hnd⟩ := ihS schemas out sub res (by omega) h
        refine ⟨?_, hnd⟩
        intro u
        have hr : refIdsForm (RForm.elements sub) = refIds sub := by
          simp [refIdsForm]
        rw [hr]
        exact hm u
      | properties req opt hasr =>
        simp only [cmiForm] at h
        simp only [rsizeF] at hsz
        cases hc : cmiList schemas out req with
        | error e =>
          rw [hc] at h
          exact Except.noConfusion h
        | ok out1 =>
          rw [hc] at h
          obtain ⟨_, _, ihL⟩ := ih (n - 1) (by omega)
          obtain ⟨hm1, hnd1⟩ := ihL schemas out req out1 (by omega) hc
          obtain ⟨hm2, hnd2⟩ := ihL schemas out1 opt res (by omega) h
          refine ⟨?_, fun hnd => hnd2 (hnd1 hnd)⟩
          intro u
          have hr : refIdsForm (RForm.properties req opt hasr) =
              refIdsList req ++ refIdsList opt := by
            simp [refIdsForm]
          rw [hr, hm2 u, hm1 u]
          simp only [List.mem_append]
          tauto
      | values sub =>
        simp only [cmiForm] at h
        simp only [rsizeF] at hsz
        obtain ⟨ihS, _, _⟩ := ih (n - 1) (by omega)
        obtain ⟨hm, hnd⟩ := ihS schemas out sub res (by omega) h
        refine ⟨?_, hnd⟩
        intro u
        have hr : refIdsForm (RForm.values sub) = refIds sub := by
          simp [refIdsForm]
        rw [hr]
        exact hm u
      | discriminator tag m =>
        simp only [cmiForm] at h
        simp only [rsizeF] at hsz
        obtain ⟨_, _, ihL⟩ := ih (n - 1) (by omega)
        obtain ⟨hm, hnd⟩ := ihL schemas out m res (by omega) h
        refine ⟨?_, hnd⟩
        intro u
        have hr : refIdsForm (RForm.discriminator tag m) = refIdsList m := by
          simp [refIdsForm]
        rw [hr]
        exact hm u
    · intro schemas out l res hsz h
      cases l with
      | nil =>
        simp only [cmiList] at h
        injection h with h2
        subst h2
        refine ⟨?_, id⟩
        intro u
        simp [refIdsList]
      | cons p rest =>
        rcases p with ⟨k, s1⟩
        simp only [cmiList] at h
        simp only [rsizeL] at hsz
        cases hc : cmi schemas out s1 with
        | error e =>
          rw [hc] at h
          exact Except.noConfusion h
        | ok out1 =>
          rw [hc] at h
          obtain ⟨ihS, _, ihL⟩ := ih (n - 1) (by omega)
          obtain ⟨hm1, hnd1⟩ := ihS schemas out s1 out1 (by omega) hc
          obtain ⟨hm2, hnd2⟩ := ihL schemas out1 rest res (by omega) h
          refine ⟨?_, fun hnd => hnd2 (hnd1 hnd)⟩
          intro u
          have hr : refIdsList ((k, s1) :: rest) =
              refIds s1 ++ refIdsList rest := by
            simp [refIdsList]
          rw [hr, hm2 u, hm1 u]
          simp only [List.mem_append]
          tauto

end Reg

namespace Reg

theorem cmiAll_spec (schemas : List (Option String × RSchema)) :
    ∀ (L : List (Option String × RSchema)) (out res : List String),
    cmiAll schemas out L = .ok res →
    (∀ u, u ∈ res ↔ u ∈ out ∨
      ((∃ p ∈ L, some u ∈ refIds p.2) ∧
        schemas.lookup (some u) = none)) ∧
    (out.Nodup → res.Nodup) := by
  intro L
  induction L with
  | nil =>
    intro out res h
    have h2 : (Except.ok out : Except CompErr (List String)) =
        Except.ok res := h
    injection h2 with h3
    subst h3
    refine ⟨?_, fun hh => hh⟩
    intro u
    simp
  | cons q rest ih =>
    rcases q with ⟨k0, s0⟩
    intro out res h
    simp only [cmiAll] at h
    cases hc : cmi schemas out s0 with
    | error e =>
      simp only [hc] at h
      exact Except.noConfusion h
    | ok out1 =>
      simp only [hc] at h
      obtain ⟨ihS, _, _⟩ := cmi_spec_all (rsizeS s0)
      obtain ⟨hm1, hnd1⟩ := ihS schemas out s0 out1 le_rfl hc
      obtain ⟨hm2, hnd2⟩ := ih out1 res h
      refine ⟨?_, fun hnd => hnd2 (hnd1 hnd)⟩
      intro u
      rw [hm2 u, hm1 u]
      constructor
      · rintro ((hu | ⟨hm, hn⟩) | ⟨⟨p, hp, hmp⟩, hn⟩)
        · exact Or.inl hu
        · exact Or.inr ⟨⟨(k0, s0), List.mem_cons_self (k0, s0) rest, hm⟩, hn⟩
        · exact Or.inr ⟨⟨p, List.mem_cons_of_mem (k0, s0) hp, hmp⟩, hn⟩
      · rintro (hu | ⟨⟨p, hp, hmp⟩, hn⟩)
        · exact Or.inl (Or.inl hu)
        · rcases List.mem_cons.mp hp with rfl | hp2
          · exact Or.inl (Or.inr ⟨hmp, hn⟩)
          · exact Or.inr ⟨⟨p, hp2, hmp⟩, hn⟩

/-- C6: after a successful `Registry::register`, the returned list is
exactly `missing_ids()`, holds each id once, consists precisely of the
reference targets of the registered schemas that resolve to no
registered schema, and `is_sealed()` holds iff it is empty. -/
theorem c6_register_missing (r : Registry) (s : RSchema) (r2 : Registry)
    (l : List String) (h : register r s = (r2, .ok l)) :
    missingIds r2 = l ∧ l.Nodup ∧
    (∀ u, u ∈ l ↔
      (∃ p ∈ r2.schemas, some u ∈ refIds p.2) ∧ get r2 (some u) = none) ∧
    (is_sealed r2 = true ↔ l = []) := by
  unfold register at h
  cases hrd : s.root_data with
  | none =>
    simp only [hrd] at h
    injection h with h1 h2
    exact Except.noConfusion h2
  | some rr =>
    rcases rr with ⟨rid, rdefs⟩
    simp only [hrd] at h
    cases hc : cmiAll (mapInsert rid s r.schemas) []
        (mapInsert rid s r.schemas) with
    | error e =>
      cases e with
      | noSuchDef i d =>
        simp only [hc] at h
        injection h with h1 h2
        exact Except.noConfusion h2
      | panicked =>
        simp only [hc] at h
        injection h with h1 h2
        exact Except.noConfusion h2
    | ok missing =>
      simp only [hc] at h
      injection h with h1 h2
      injection h2 with h3
      subst h3
      subst h1
      obtain ⟨hm, hnd⟩ := cmiAll_spec (mapInsert rid s r.schemas)
        (mapInsert rid s r.schemas) [] missing hc
      refine ⟨rfl, hnd List.nodup_nil, ?_, ?_⟩
      · intro u
        rw [hm u]
        simp only [List.not_mem_nil, false_or]
        exact Iff.rfl
      · cases missing <;> simp [is_sealed]

/-- Witness for C6: registering, into an empty registry, a root schema
with id `http://a` that references the absent base `http://b`. -/
theorem c6_register_missing_witness :
    register ⟨[], []⟩ c6s =
      (⟨[(some "http://a", c6s)], ["http://b"]⟩, .ok ["http://b"]) ∧
    (missingIds ⟨[(some "http://a", c6s)], ["http://b"]⟩ = ["http://b"] ∧
     (["http://b"] : List String).Nodup ∧
     (∀ u, u ∈ ["http://b"] ↔
       (∃ p ∈ ([(some "http://a", c6s)] :
           List (Option String × RSchema)), some u ∈ refIds p.2) ∧
       get ⟨[(some "http://a", c6s)], ["http://b"]⟩ (some u) = none) ∧
     (is_sealed ⟨[(some "http://a", c6s)], ["http://b"]⟩ = true ↔
       ["http://b"] = [])) :=
  ⟨rfl, c6_register_missing ⟨[], []⟩ c6s
    ⟨[(some "http://a", c6s)], ["http://b"]⟩ ["http://b"] rfl⟩

/-- C7 counterexample: `register` inserts the schema under its id
*before* `compute_missing_ids` runs, so when the latter bails with
`NoSuchDefinition` the inserted schema is already visible through
`get` — the registry state observably differs from before the failed
call, contradicting the claim that an erroring `register` leaves the
state unchanged. -/
theorem c7_counterexample :
    (register ⟨[], []⟩ c7s).2 =
      .error (.noSuchDef (some "http://a") "nope") ∧
    get (register ⟨[], []⟩ c7s).1 (some "http://a") ≠
      get (⟨[], []⟩ : Registry) (some "http://a") :=
  ⟨rfl, fun h => Option.noConfusion h⟩

/-- C7 (amended): when `register` fails, `missing_ids()` and
`is_sealed()` are unchanged, and the full state is unchanged for
`NonRoot`; but on a failure inside `compute_missing_ids` the schema map
has already been updated with the new schema under its id. -/
theorem c7_error_state (r : Registry) (s : RSchema) (r2 : Registry)
    (e : RegErr) (h : register r s = (r2, .error e)) :
    missingIds r2 = missingIds r ∧ is_sealed r2 = is_sealed r ∧
    (e = .nonRoot → r2 = r) ∧
    (e ≠ .nonRoot →
      ∃ rid rdefs, s.root_data = some (.mk rid rdefs) ∧
        r2.schemas = mapInsert rid s r.schemas) := by
  unfold register at h
  cases hrd : s.root_data with
  | none =>
    simp only [hrd] at h
    injection h with h1 h2
    injection h2 with h3
    subst h1
    exact ⟨rfl, rfl, fun _ => rfl, fun hne => absurd h3.symm hne⟩
  | some rr =>
    rcases rr with ⟨rid, rdefs⟩
    simp only [hrd] at h
    cases hc : cmiAll (mapInsert rid s r.schemas) []
        (mapInsert rid s r.schemas) with
    | ok missing =>
      simp only [hc] at h
      injection h with h1 h2
      exact Except.noConfusion h2
    | error ce =>
      cases ce with
      | noSuchDef i d =>
        simp only [hc] at h
        injection h with h1 h2
        injection h2 with h3
        subst h1
        refine ⟨rfl, rfl, ?_, ?_⟩
        · intro habs
          exact absurd (h3.trans habs) (fun hcon => RegErr.noConfusion hcon)
        · intro _
          exact ⟨rid, rdefs, rfl, rfl⟩
      | panicked =>
        simp only [hc] at h
        injection h with h1 h2
        injection h2 with h3
        subst h1
        refine ⟨rfl, rfl, ?_, ?_⟩
        · intro habs
          exact absurd (h3.trans habs) (fun hcon => RegErr.noConfusion hcon)
        · intro _
          exact ⟨rid, rdefs, rfl, rfl⟩

/-- Witness for the amended C7 theorem: a root schema with id `http://a`
referencing its own absent definition `nope` fails with
`NoSuchDefinition` while leaving `missing_ids` untouched and the schema
inserted. -/
theorem c7_error_state_witness :
    register ⟨[], []⟩ c7s =
      (⟨[(some "http://a", c7s)], []⟩,
        .error (.noSuchDef (some "http://a") "nope")) ∧
    (missingIds ⟨[(some "http://a", c7s)], []⟩ =
        missingIds (⟨[], []⟩ : Registry) ∧
     is_sealed ⟨[(some "http://a", c7s)], []⟩ =
        is_sealed (⟨[], []⟩ : Registry) ∧
     ((.noSuchDef (some "http://a") "nope" : RegErr) = .nonRoot →
        (⟨[(some "http://a", c7s)], []⟩ : Registry) = ⟨[], []⟩) ∧
     ((.noSuchDef (some "http://a") "nope" : RegErr) ≠ .nonRoot →
        ∃ rid rdefs, c7s.root_data = some (.mk rid rdefs) ∧
          (⟨[(some "http://a", c7s)], []⟩ :
            Registry).schemas = mapInsert rid c7s [])) :=
  ⟨rfl, c7_error_state ⟨[], []⟩ c7s ⟨[(some "http://a", c7s)], []⟩
    (.noSuchDef (some "http://a") "nope") rfl⟩

end Reg

namespace SerdeEmb

theorem lookup_size : ∀ (kvs : List (String × Json)) (k : String) (v : Json),
    kvs.lookup k = some v → jsize v ≤ jsizeO kvs := by
  intro kvs
  induction kvs with
  | nil => intro k v h; exact absurd h (by simp)
  | cons q rest ih =>
    rcases q with ⟨k0, v0⟩
    intro k v h
    simp only [List.lookup] at h
    cases hb : k == k0 with
    | true =>
      rw [hb] at h
      injection h with h2
      subst h2
      simp only [jsizeO]
      omega
    | false =>
      rw [hb] at h
      have := ih k v h
      simp only [jsizeO]
      omega

theorem mem_jsizeO : ∀ (l : List (String × Json)) (p : String × Json),
    p ∈ l → jsize p.2 ≤ jsizeO l := by
  intro l
  induction l with
  | nil => intro p h; exact absurd h (by simp)
  | cons q rest ih =>
    intro p h
    rcases q with ⟨k0, v0⟩
    simp only [jsizeO]
    rcases List.mem_cons.mp h with rfl | h2
    · exact Nat.le_add_right (jsize v0) (jsizeO rest)
    · have := ih p h2
      omega

theorem nodup_lookup_mem : ∀ (L : List (String × Json)),
    (L.map Prod.fst).Nodup → ∀ p ∈ L, L.lookup p.1 = some p.2 := by
  intro L
  induction L with
  | nil => intro _ p h; exact absurd h (by simp)
  | cons q rest ih =>
    rcases q with ⟨k0, v0⟩
    intro hnd p hp
    simp only [List.map, List.nodup_cons] at hnd
    obtain ⟨hnotin, hnd2⟩ := hnd
    rcases List.mem_cons.mp hp with rfl | h2
    · simp [List.lookup]
    · have hne : p.1 ≠ k0 := by
        intro hcon
        exact hnotin (hcon ▸ List.mem_map_of_mem Prod.fst h2)
      simp only [List.lookup, beq_eq_false_iff_ne.mpr hne]
      exact ih hnd2 p h2

theorem mem_keys_isSome : ∀ (L : List (String × Json)) (k : String),
    k ∈ L.map Prod.fst → (L.lookup k).isSome = true := by
  intro L
  induction L with
  | nil => intro k h; exact absurd h (by simp)
  | cons q rest ih =>
    rcases q with ⟨k0, v0⟩
    intro k hk
    simp only [List.lookup]
    cases hb : k == k0 with
    | true => rfl
    | false =>
      simp only [List.map, List.mem_cons] at hk
      rcases hk with rfl | hk2
      · rw [beq_self_eq_true] at hb
        exact Bool.noConfusion hb
      · exact ih k hk2

theorem isSome_lookup_append :
    ∀ (A B : List (String × Json)) (k : String),
    ((A ++ B).lookup k).isSome = true ↔
      (A.lookup k).isSome = true ∨ (B.lookup k).isSome = true := by
  intro A
  induction A with
  | nil => intro B k; simp
  | cons q rest ih =>
    rcases q with ⟨k0, v0⟩
    intro B k
    simp only [List.cons_append, List.lookup]
    cases hb : k == k0 with
    | true => simp
    | false => exact ih B k

theorem jeqObjSub_of_forall : ∀ (A L : List (String × Json)),
    (∀ p ∈ A, ∃ w, L.lookup p.1 = some w ∧ jeq p.2 w = true) →
    jeqObjSub A L = true := by
  intro A
  induction A with
  | nil => intro L _; rfl
  | cons q rest ih =>
    rcases q with ⟨k, v⟩
    intro L h
    obtain ⟨w, hw, hj⟩ := h (k, v) (List.mem_cons_self (k, v) rest)
    simp only [jeqObjSub, hw, hj, Bool.true_and]
    exact ih L (fun p hp => h p (List.mem_cons_of_mem (k, v) hp))

theorem wf_of_memO : ∀ (l : List (String × Json)),
    wfJsonO l = true → ∀ p ∈ l, wfJson p.2 = true := by
  intro l
  induction l with
  | nil => intro _ p h; exact absurd h (by simp)
  | cons q rest ih =>
    rcases q with ⟨k0, v0⟩
    intro hwf p hp
    simp only [wfJsonO, Bool.and_eq_true] at hwf
    rcases List.mem_cons.mp hp with rfl | h2
    · exact hwf.1
    · exact ih hwf.2 p h2

theorem wf_of_memA : ∀ (l : List Json),
    wfJsonA l = true → ∀ x ∈ l, wfJson x = true := by
  intro l
  induction l with
  | nil => intro _ x h; exact absurd h (by simp)
  | cons y rest ih =>
    intro hwf x hx
    simp only [wfJsonA, Bool.and_eq_true] at hwf
    rcases List.mem_cons.mp hx with rfl | h2
    · exact hwf.1
    · exact ih hwf.2 x h2

theorem mem_jsizeA : ∀ (l : List Json) (x : Json),
    x ∈ l → jsize x ≤ jsizeA l := by
  intro l
  induction l with
  | nil => intro x h; exact absurd h (by simp)
  | cons y rest ih =>
    intro x h
    simp only [jsizeA]
    rcases List.mem_cons.mp h with rfl | h2
    · omega
    · have := ih x h2
      omega

theorem keys_to_jsonList : ∀ (m : List (String × SerdeSchema)),
    (to_jsonList m).map Prod.fst = m.map Prod.fst := by
  intro m
  induction m with
  | nil => rfl
  | cons q rest ih =>
    rcases q with ⟨k, s⟩
    simp only [to_jsonList, List.map]
    rw [ih]

theorem keys_from_jsonList : ∀ (l : List (String × Json))
    (m : List (String × SerdeSchema)), from_jsonList l = some m →
    m.map Prod.fst = l.map Prod.fst := by
  intro l
  induction l with
  | nil =>
    intro m h
    have h2 : (some [] : Option (List (String × SerdeSchema))) = some m := h
    injection h2 with h3
    subst h3
    rfl
  | cons q rest ih =>
    rcases q with ⟨k0, v0⟩
    intro m h
    simp only [from_jsonList] at h
    cases hf : from_json v0 with
    | none => rw [hf] at h; exact Option.noConfusion h
    | some s0 =>
      rw [hf] at h
      cases hfr : from_jsonList rest with
      | none => rw [hfr] at h; exact Option.noConfusion h
      | some m1 =>
        rw [hfr] at h
        injection h with h2
        subst h2
        simp only [List.map]
        rw [ih m1 hfr]

theorem strictL_lookup : ∀ (kvs : List (String × Json)) (k : String)
    (v : Json), strictL kvs = true → kvs.lookup k = some v →
    strictEntry k v = true := by
  intro kvs
  induction kvs with
  | nil => intro k v _ h; exact absurd h (by simp)
  | cons q rest ih =>
    rcases q with ⟨k0, v0⟩
    intro k v hs h
    simp only [strictL, Bool.and_eq_true] at hs
    simp only [List.lookup] at h
    cases hb : k == k0 with
    | true =>
      rw [hb] at h
      injection h with h2
      subst h2
      rw [eq_of_beq hb]
      exact hs.1
    | false =>
      rw [hb] at h
      exact ih k v hs.2 h

theorem strictDiscL_map : ∀ (l : List (String × Json)) (v : Json),
    strictDiscL l = true → l.lookup "mapping" = some v →
    strictMap v = true := by
  intro l
  induction l with
  | nil => intro v _ h; exact absurd h (by simp)
  | cons q rest ih =>
    rcases q with ⟨k0, v0⟩
    intro v hs h
    simp only [strictDiscL, Bool.and_eq_true] at hs
    simp only [List.lookup] at h
    cases hb : ("mapping" == k0) with
    | true =>
      rw [hb] at h
      injection h with h2
      subst h2
      have hk0 : k0 = "mapping" := (eq_of_beq hb).symm
      subst hk0
      have h1 := hs.1
      rw [if_neg (by decide), if_pos (by decide)] at h1
      exact h1
    | false =>
      rw [hb] at h
      exact ih v hs.2 h

theorem strictDiscL_keys : ∀ (l : List (String × Json)),
    strictDiscL l = true → ∀ p ∈ l,
    p.1 = "propertyName" ∨ p.1 = "mapping" := by
  intro l
  induction l with
  | nil => intro _ p h; exact absurd h (by simp)
  | cons q rest ih =>
    rcases q with ⟨k0, v0⟩
    intro hs p hp
    simp only [strictDiscL, Bool.and_eq_true] at hs
    rcases List.mem_cons.mp hp with rfl | h2
    · have h1 := hs.1
      by_cases hpn : k0 = "propertyName"
      · exact Or.inl hpn
      · by_cases hmp : k0 = "mapping"
        · exact Or.inr hmp
        · rw [if_neg (by simp [beq_iff_eq, hpn]),
            if_neg (by simp [beq_iff_eq, hmp])] at h1
          exact Bool.noConfusion h1
    · exact ih hs.2 p h2

theorem strictEntry_notkw (k : String) (v : Json)
    (h : isKeyword k = false) : strictEntry k v = wfJson v := by
  simp only [isKeyword, Bool.or_eq_false_iff] at h
  obtain ⟨⟨⟨⟨⟨⟨⟨⟨h1, h2⟩, h3⟩, h4⟩, h5⟩, h6⟩, h7⟩, h8⟩, h9⟩ := h
  unfold strictEntry
  rw [if_neg (by simp [h5, h8]), if_neg (by simp [h2, h6, h7]),
    if_neg (by simp [h9]), if_neg (by simp [h1, h3, h4])]

end SerdeEmb

namespace SerdeEmb

theorem jeq_refl_sized : ∀ (n : Nat) (v : Json), jsize v ≤ n →
    wfJson v = true → jeq v v = true := by
  intro n
  induction n using Nat.strong_induction_on with
  | _ n ih =>
    intro v hsz hwf
    cases v with
    | null => rfl
    | bool b => simp [jeq]
    | num m => simp [jeq]
    | str s => simp [jeq]
    | arr xs =>
      simp only [jsize] at hsz
      simp only [wfJson] at hwf
      show jeqArr xs xs = true
      have hgen : ∀ ys : List Json, jsizeA ys ≤ jsizeA xs →
          wfJsonA ys = true → jeqArr ys ys = true := by
        intro ys
        induction ys with
        | nil => intro _ _; rfl
        | cons y rest ihy =>
          intro hy hwfy
          simp only [wfJsonA, Bool.and_eq_true] at hwfy
          simp only [jsizeA] at hy
          have h1 : jeq y y = true := by
            have hys : jsize y ≤ n - 1 := by omega
            exact ih (n - 1) (by omega) y hys hwfy.1
          simp only [jeqArr, h1, Bool.true_and]
          exact ihy (by omega) hwfy.2
      exact hgen xs le_rfl hwf
    | obj l =>
      simp only [jsize] at hsz
      simp only [wfJson, Bool.and_eq_true] at hwf
      obtain ⟨hnd, hwfl⟩ := hwf
      have hnd2 := of_decide_eq_true hnd
      show (jeqObjSub l l && l.all fun kv => (l.lookup kv.1).isSome) = true
      rw [Bool.and_eq_true]
      constructor
      · apply jeqObjSub_of_forall
        intro p hp
        refine ⟨p.2, nodup_lookup_mem l hnd2 p hp, ?_⟩
        have hps : jsize p.2 ≤ n - 1 := by
          have := mem_jsizeO l p hp
          omega
        exact ih (n - 1) (by omega) p.2 hps (wf_of_memO l hwfl p hp)
      · rw [List.all_eq_true]
        intro kv hkv
        exact mem_keys_isSome l kv.1 (List.mem_map_of_mem Prod.fst hkv)

end SerdeEmb

namespace SerdeEmb

theorem lookStr_some : ∀ (kvs : List (String × Json)) (k x : String),
    lookStr kvs k = some (some x) → kvs.lookup k = some (.str x) := by
  intro kvs
  induction kvs with
  | nil =>
    intro k x h
    exact Option.noConfusion (Option.some.inj h)
  | cons q rest ih =>
    rcases q with ⟨k0, v⟩
    intro k x h
    by_cases hk : k0 = k
    · subst hk
      simp only [lookStr] at h
      rw [if_pos (by simp)] at h
      cases v with
      | null => exact Option.noConfusion (Option.some.inj h)
      | str s =>
        injection h with h2
        injection h2 with h3
        rw [← h3]
        simp [List.lookup]
      | bool b => exact Option.noConfusion h
      | num m => exact Option.noConfusion h
      | arr xs => exact Option.noConfusion h
      | obj l => exact Option.noConfusion h
    · have hb1 : (k0 == k) = false := beq_eq_false_iff_ne.mpr hk
      have hb2 : (k == k0) = false := beq_eq_false_iff_ne.mpr (Ne.symm hk)
      simp only [lookStr] at h
      rw [if_neg (by simp [hb1])] at h
      simp only [List.lookup, hb2]
      exact ih k x h

theorem lookStr_none : ∀ (kvs : List (String × Json)) (k : String),
    lookStr kvs k = some none →
    kvs.lookup k = none ∨ kvs.lookup k = some .null := by
  intro kvs
  induction kvs with
  | nil => intro k _; exact Or.inl rfl
  | cons q rest ih =>
    rcases q with ⟨k0, v⟩
    intro k h
    by_cases hk : k0 = k
    · subst hk
      simp only [lookStr] at h
      rw [if_pos (by simp)] at h
      cases v with
      | null =>
        refine Or.inr ?_
        simp [List.lookup]
      | str s => exact Option.noConfusion (Option.some.inj h)
      | bool b => exact Option.noConfusion h
      | num m => exact Option.noConfusion h
      | arr xs => exact Option.noConfusion h
      | obj l => exact Option.noConfusion h
    · have hb1 : (k0 == k) = false := beq_eq_false_iff_ne.mpr hk
      have hb2 : (k == k0) = false := beq_eq_false_iff_ne.mpr (Ne.symm hk)
      simp only [lookStr] at h
      rw [if_neg (by simp [hb1])] at h
      simp only [List.lookup, hb2]
      exact ih k h

theorem lookSchema_some : ∀ (kvs : List (String × Json)) (k : String)
    (s0 : SerdeSchema), lookSchema kvs k = some (some s0) →
    ∃ v, kvs.lookup k = some v ∧ from_json v = some s0 := by
  intro kvs
  induction kvs with
  | nil =>
    intro k s0 h
    exact Option.noConfusion (Option.some.inj h)
  | cons q rest ih =>
    rcases q with ⟨k0, v⟩
    intro k s0 h
    by_cases hk : k0 = k
    · subst hk
      simp only [lookSchema] at h
      rw [if_pos (by simp)] at h
      cases v with
      | null => exact Option.noConfusion (Option.some.inj h)
      | obj l =>
        cases hf : from_json (.obj l) with
        | none => rw [hf] at h; exact Option.noConfusion h
        | some s1 =>
          rw [hf] at h
          injection h with h2
          injection h2 with h3
          refine ⟨.obj l, by simp [List.lookup], ?_⟩
          rw [h3] at hf
          exact hf
      | bool b => exact Option.noConfusion h
      | num m => exact Option.noConfusion h
      | str s => exact Option.noConfusion h
      | arr xs => exact Option.noConfusion h
    · have hb1 : (k0 == k) = false := beq_eq_false_iff_ne.mpr hk
      have hb2 : (k == k0) = false := beq_eq_false_iff_ne.mpr (Ne.symm hk)
      simp only [lookSchema] at h
      rw [if_neg (by simp [hb1])] at h
      simp only [List.lookup, hb2]
      exact ih k s0 h

theorem lookSchema_none : ∀ (kvs : List (String × Json)) (k : String),
    lookSchema kvs k = some none →
    kvs.lookup k = none ∨ kvs.lookup k = some .null := by
  intro kvs
  induction kvs with
  | nil => intro k _; exact Or.inl rfl
  | cons q rest ih =>
    rcases q with ⟨k0, v⟩
    intro k h
    by_cases hk : k0 = k
    · subst hk
      simp only [lookSchema] at h
      rw [if_pos (by simp)] at h
      cases v with
      | null =>
        refine Or.inr ?_
        simp [List.lookup]
      | obj l =>
        cases hf : from_json (.obj l) with
        | none => rw [hf] at h; exact Option.noConfusion h
        | some s1 =>
          rw [hf] at h
          exact Option.noConfusion (Option.some.inj h)
      | bool b => exact Option.noConfusion h
      | num m => exact Option.noConfusion h
      | str s => exact Option.noConfusion h
      | arr xs => exact Option.noConfusion h
    · have hb1 : (k0 == k) = false := beq_eq_false_iff_ne.mpr hk
      have hb2 : (k == k0) = false := beq_eq_false_iff_ne.mpr (Ne.symm hk)
      simp only [lookSchema] at h
      rw [if_neg (by simp [hb1])] at h
      simp only [List.lookup, hb2]
      exact ih k h

theorem lookMap_some : ∀ (kvs : List (String × Json)) (k : String)
    (m : List (String × SerdeSchema)), lookMap kvs k = some (some m) →
    ∃ l, kvs.lookup k = some (.obj l) ∧ from_jsonList l = some m := by
  intro kvs
  induction kvs with
  | nil =>
    intro k m h
    exact Option.noConfusion (Option.some.inj h)
  | cons q rest ih =>
    rcases q with ⟨k0, v⟩
    intro k m h
    by_cases hk : k0 = k
    · subst hk
      unfold lookMap at h
      rw [if_pos (by simp)] at h
      cases v with
      | null => exact Option.noConfusion (Option.some.inj h)
      | obj l =>
        have h2 : (match from_jsonList l with
            | some m1 => some (some m1)
            | none =>
              (none : Option (Option (List (String × SerdeSchema))))) =
            some (some m) := h
        cases hf : from_jsonList l with
        | none => rw [hf] at h2; exact Option.noConfusion h2
        | some m1 =>
          rw [hf] at h2
          injection h2 with h3
          injection h3 with h4
          refine ⟨l, by simp [List.lookup], ?_⟩
          rw [hf]
          exact congrArg some h4
      | bool b => exact Option.noConfusion h
      | num m2 => exact Option.noConfusion h
      | str s => exact Option.noConfusion h
      | arr xs => exact Option.noConfusion h
    · have hb1 : (k0 == k) = false := beq_eq_false_iff_ne.mpr hk
      have hb2 : (k == k0) = false := beq_eq_false_iff_ne.mpr (Ne.symm hk)
      unfold lookMap at h
      rw [if_neg (by simp [hb1])] at h
      simp only [List.lookup, hb2]
      exact ih k m h

theorem lookMap_none : ∀ (kvs : List (String × Json)) (k : String),
    lookMap kvs k = some none →
    kvs.lookup k = none ∨ kvs.lookup k = some .null := by
  intro kvs
  induction kvs with
  | nil => intro k _; exact Or.inl rfl
  | cons q rest ih =>
    rcases q with ⟨k0, v⟩
    intro k h
    by_cases hk : k0 = k
    · subst hk
      unfold lookMap at h
      rw [if_pos (by simp)] at h
      cases v with
      | null =>
        refine Or.inr ?_
        simp [List.lookup]
      | obj l =>
        have h2 : (match from_jsonList l with
            | some m1 => some (some m1)
            | none =>
              (none : Option (Option (List (String × SerdeSchema))))) =
            some none := h
        cases hf : from_jsonList l with
        | none => rw [hf] at h2; exact Option.noConfusion h2
        | some m1 =>
          rw [hf] at h2
          exact Option.noConfusion (Option.some.inj h2)
      | bool b => exact Option.noConfusion h
      | num m2 => exact Option.noConfusion h
      | str s => exact Option.noConfusion h
      | arr xs => exact Option.noConfusion h
    · have hb1 : (k0 == k) = false := beq_eq_false_iff_ne.mpr hk
      have hb2 : (k == k0) = false := beq_eq_false_iff_ne.mpr (Ne.symm hk)
      unfold lookMap at h
      rw [if_neg (by simp [hb1])] at h
      simp only [List.lookup, hb2]
      exact ih k h

theorem lookMapField_some : ∀ (l : List (String × Json))
    (m : List (String × SerdeSchema)), lookMapField l = some m →
    ∃ lm, l.lookup "mapping" = some (.obj lm) ∧
      from_jsonList lm = some m := by
  intro l
  induction l with
  | nil => intro m h; exact Option.noConfusion h
  | cons q rest ih =>
    rcases q with ⟨k0, v⟩
    intro m h
    by_cases hk : k0 = "mapping"
    · subst hk
      unfold lookMapField at h
      rw [if_pos (by simp)] at h
      cases v with
      | obj l2 =>
        refine ⟨l2, by simp [List.lookup], h⟩
      | null => exact Option.noConfusion h
      | bool b => exact Option.noConfusion h
      | num m2 => exact Option.noConfusion h
      | str s => exact Option.noConfusion h
      | arr xs => exact Option.noConfusion h
    · have hb1 : (k0 == "mapping") = false := beq_eq_false_iff_ne.mpr hk
      have hb2 : ("mapping" == k0) = false :=
        beq_eq_false_iff_ne.mpr (Ne.symm hk)
      unfold lookMapField at h
      rw [if_neg (by simp [hb1])] at h
      simp only [List.lookup, hb2]
      exact ih m h

theorem lookDisc_some : ∀ (kvs : List (String × Json)) (t : String)
    (m : List (String × SerdeSchema)),
    lookDisc kvs = some (some (.mk t m)) →
    ∃ l, kvs.lookup "discriminator" = some (.obj l) ∧
      l.lookup "propertyName" = some (.str t) ∧
      ∃ lm, l.lookup "mapping" = some (.obj lm) ∧
        from_jsonList lm = some m := by
  intro kvs
  induction kvs with
  | nil =>
    intro t m h
    exact Option.noConfusion (Option.some.inj h)
  | cons q rest ih =>
    rcases q with ⟨k0, v⟩
    intro t m h
    by_cases hk : k0 = "discriminator"
    · subst hk
      unfold lookDisc at h
      rw [if_pos (by simp)] at h
      cases v with
      | null => exact Option.noConfusion (Option.some.inj h)
      | obj l =>
        have h2 : (match l.lookup "propertyName" with
            | some (.str t1) =>
              (match lookMapField l with
               | some m1 => some (some (SerdeDiscriminator.mk t1 m1))
               | none => none)
            | _ => (none : Option (Option SerdeDiscriminator))) =
            some (some (SerdeDiscriminator.mk t m)) := h
        cases hpn : l.lookup "propertyName" with
        | none => rw [hpn] at h2; exact Option.noConfusion h2
        | some pv =>
          rw [hpn] at h2
          cases pv with
          | str t1 =>
            have h3 : (match lookMapField l with
                | some m1 => some (some (SerdeDiscriminator.mk t1 m1))
                | none => (none : Option (Option SerdeDiscriminator))) =
                some (some (SerdeDiscriminator.mk t m)) := h2
            cases hmf : lookMapField l with
            | none => rw [hmf] at h3; exact Option.noConfusion h3
            | some m1 =>
              rw [hmf] at h3
              injection h3 with h4
              injection h4 with h5
              injection h5 with h6 h7
              obtain ⟨lm, hlm, hfl⟩ := lookMapField_some l m1 hmf
              refine ⟨l, by simp [List.lookup], ?_, lm, hlm, ?_⟩
              · rw [hpn]
                exact congrArg (fun z => some (Json.str z)) h6
              · rw [hfl]
                exact congrArg some h7
          | null => exact Option.noConfusion h2
          | bool b => exact Option.noConfusion h2
          | num m2 => exact Option.noConfusion h2
          | arr xs => exact Option.noConfusion h2
          | obj l2 => exact Option.noConfusion h2
      | bool b => exact Option.noConfusion h
      | num m2 => exact Option.noConfusion h
      | str s => exact Option.noConfusion h
      | arr xs => exact Option.noConfusion h
    · have hb1 : (k0 == "discriminator") = false := beq_eq_false_iff_ne.mpr hk
      have hb2 : ("discriminator" == k0) = false :=
        beq_eq_false_iff_ne.mpr (Ne.symm hk)
      unfold lookDisc at h
      rw [if_neg (by simp [hb1])] at h
      simp only [List.lookup, hb2]
      exact ih t m h

theorem lookDisc_none : ∀ (kvs : List (String × Json)),
    lookDisc kvs = some none →
    kvs.lookup "discriminator" = none ∨
      kvs.lookup "discriminator" = some .null := by
  intro kvs
  induction kvs with
  | nil => intro _; exact Or.inl rfl
  | cons q rest ih =>
    rcases q with ⟨k0, v⟩
    intro h
    by_cases hk : k0 = "discriminator"
    · subst hk
      unfold lookDisc at h
      rw [if_pos (by simp)] at h
      cases v with
      | null =>
        refine Or.inr ?_
        simp [List.lookup]
      | obj l =>
        have h2 : (match l.lookup "propertyName" with
            | some (.str t1) =>
              (match lookMapField l with
               | some m1 => some (some (SerdeDiscriminator.mk t1 m1))
               | none => none)
            | _ => (none : Option (Option SerdeDiscriminator))) =
            some none := h
        cases hpn : l.lookup "propertyName" with
        | none => rw [hpn] at h2; exact Option.noConfusion h2
        | some pv =>
          rw [hpn] at h2
          cases pv with
          | str t1 =>
            have h3 : (match lookMapField l with
                | some m1 => some (some (SerdeDiscriminator.mk t1 m1))
                | none => (none : Option (Option SerdeDiscriminator))) =
                some none := h2
            cases hmf : lookMapField l with
            | none => rw [hmf] at h3; exact Option.noConfusion h3
            | some m1 =>
              rw [hmf] at h3
              exact Option.noConfusion (Option.some.inj h3)
          | null => exact Option.noConfusion h2
          | bool b => exact Option.noConfusion h2
          | num m2 => exact Option.noConfusion h2
          | arr xs => exact Option.noConfusion h2
          | obj l2 => exact Option.noConfusion h2
      | bool b => exact Option.noConfusion h
      | num m2 => exact Option.noConfusion h
      | str s => exact Option.noConfusion h
      | arr xs => exact Option.noConfusion h
    · have hb1 : (k0 == "discriminator") = false := beq_eq_false_iff_ne.mpr hk
      have hb2 : ("discriminator" == k0) = false :=
        beq_eq_false_iff_ne.mpr (Ne.symm hk)
      unfold lookDisc at h
      rw [if_neg (by simp [hb1])] at h
      simp only [List.lookup, hb2]
      exact ih h

end SerdeEmb

namespace SerdeEmb

theorem jeq_obj (A B : List (String × Json)) :
    jeq (.obj A) (.obj B) =
      (jeqObjSub A B && B.all fun kv => (A.lookup kv.1).isSome) := rfl

theorem to_json_mk (fid : Option String)
    (fdefs fprops fopts : Option (List (String × SerdeSchema)))
    (frxf ftyp : Option String) (felems fvals : Option SerdeSchema)
    (fdisc : Option SerdeDiscriminator) (ex : List (String × Json)) :
    to_json (.mk fid fdefs frxf ftyp felems fprops fopts fvals fdisc ex) =
      .obj (entS "id" fid ++
        (entJ "definitions" (to_jsonMap fdefs) ++
        (entS "ref" frxf ++
        (entS "type" ftyp ++
        (entJ "elements" (to_jsonOpt felems) ++
        (entJ "properties" (to_jsonMap fprops) ++
        (entJ "optionalProperties" (to_jsonMap fopts) ++
        (entJ "values" (to_jsonOpt fvals) ++
        (entJ "discriminator" (to_jsonDisc fdisc) ++
        ex))))))))) := rfl

theorem round_all : ∀ (n : Nat) (d : Json) (s : SerdeSchema),
    jsize d ≤ n → strictS d = true → from_json d = some s →
    jeq (to_json s) d = true := by
  intro n
  induction n using Nat.strong_induction_on with
  | _ n ih =>
    intro d s hsz hstrict h
    cases d with
    | null => exact absurd hstrict (by simp [strictS])
    | bool b => exact absurd hstrict (by simp [strictS])
    | num m => exact absurd hstrict (by simp [strictS])
    | str s2 => exact absurd hstrict (by simp [strictS])
    | arr xs => exact absurd hstrict (by simp [strictS])
    | obj kvs =>
      simp only [jsize] at hsz
      simp only [strictS, Bool.and_eq_true] at hstrict
      obtain ⟨hndb, hsl⟩ := hstrict
      have hnd : (kvs.map Prod.fst).Nodup := of_decide_eq_true hndb
      have hP1 : ∀ (v : Json) (s1 : SerdeSchema), jsize v ≤ n - 1 →
          strictS v = true → from_json v = some s1 →
          jeq (to_json s1) v = true :=
        fun v s1 hv hs hf => ih (n - 1) (by omega) v s1 hv hs hf
      have hP2 : ∀ (l : List (String × Json))
          (m : List (String × SerdeSchema)) (L : List (String × Json)),
          jsizeO l ≤ n - 1 → strictLS l = true →
          from_jsonList l = some m →
          (∀ p ∈ l, L.lookup p.1 = some p.2) →
          jeqObjSub (to_jsonList m) L = true := by
        intro l
        induction l with
        | nil =>
          intro m L _ _ hfl _
          have h2 : (some [] : Option (List (String × SerdeSchema))) =
              some m := hfl
          injection h2 with h3
          subst h3
          rfl
        | cons q rest ihl =>
          rcases q with ⟨k0, v0⟩
          intro m L hszl hstl hfl hmem
          unfold from_jsonList at hfl
          cases hf0 : from_json v0 with
          | none => rw [hf0] at hfl; exact Option.noConfusion hfl
          | some s0 =>
            rw [hf0] at hfl
            have hfl2 : (match from_jsonList rest with
                | some m1 => some ((k0, s0) :: m1)
                | none => (none : Option (List (String × SerdeSchema)))) =
                some m := hfl
            cases hfr : from_jsonList rest with
            | none => rw [hfr] at hfl2; exact Option.noConfusion hfl2
            | some m1 =>
              rw [hfr] at hfl2
              injection hfl2 with h3
              subst h3
              simp only [strictLS, Bool.and_eq_true] at hstl
              obtain ⟨hs0, hsrest⟩ := hstl
              simp only [jsizeO] at hszl
              have hj : jeq (to_json s0) v0 = true :=
                hP1 v0 s0 (by omega) hs0 hf0
              have hstep : jeqObjSub (to_jsonList ((k0, s0) :: m1)) L =
                  ((match L.lookup k0 with
                    | some w => jeq (to_json s0) w
                    | none => false) &&
                   jeqObjSub (to_jsonList m1) L) := rfl
              rw [hstep, hmem (k0, v0) (List.mem_cons_self (k0, v0) rest)]
              show (jeq (to_json s0) v0 && jeqObjSub (to_jsonList m1) L) =
                true
              rw [hj, Bool.true_and]
              exact ihl m1 L (by omega) hsrest hfr
                (fun p hp => hmem p (List.mem_cons_of_mem (k0, v0) hp))
      have hMapAll : ∀ (l : List (String × Json))
          (m : List (String × SerdeSchema)), from_jsonList l = some m →
          ∀ p ∈ l, ((to_jsonList m).lookup p.1).isSome = true :=
        fun l m hfl p hp => mem_keys_isSome _ p.1
          (by rw [keys_to_jsonList, keys_from_jsonList l m hfl]
              exact List.mem_map_of_mem Prod.fst hp)
      have hMapJeq : ∀ (l : List (String × Json))
          (m : List (String × SerdeSchema)), jsizeO l ≤ n - 1 →
          (l.map Prod.fst).Nodup → strictLS l = true →
          from_jsonList l = some m →
          jeq (.obj (to_jsonList m)) (.obj l) = true := by
        intro l m hszl hndl hstl hfl
        rw [jeq_obj, Bool.and_eq_true]
        refine ⟨hP2 l m l hszl hstl hfl (nodup_lookup_mem l hndl), ?_⟩
        rw [List.all_eq_true]
        exact fun kv hkv => hMapAll l m hfl kv hkv
      unfold from_json at h
      cases h1 : lookStr kvs "id" with
      | none => rw [h1] at h; exact Option.noConfusion h
      | some fid =>
      rw [h1] at h
      cases h2 : lookMap kvs "definitions" with
      | none => rw [h2] at h; exact Option.noConfusion h
      | some fdefs =>
      rw [h2] at h
      cases h3 : lookStr kvs "ref" with
      | none => rw [h3] at h; exact Option.noConfusion h
      | some frxf =>
      rw [h3] at h
      cases h4 : lookStr kvs "type" with
      | none => rw [h4] at h; exact Option.noConfusion h
      | some ftyp =>
      rw [h4] at h
      cases h5 : lookSchema kvs "elements" with
      | none => rw [h5] at h; exact Option.noConfusion h
      | some felems =>
      rw [h5] at h
      cases h6 : lookMap kvs "properties" with
      | none => rw [h6] at h; exact Option.noConfusion h
      | some fprops =>
      rw [h6] at h
      cases h7 : lookMap kvs "optionalProperties" with
      | none => rw [h7] at h; exact Option.noConfusion h
      | some fopts =>
      rw [h7] at h
      cases h8 : lookSchema kvs "values" with
      | none => rw [h8] at h; exact Option.noConfusion h
      | some fvals =>
      rw [h8] at h
      cases h9 : lookDisc kvs with
      | none => rw [h9] at h; exact Option.noConfusion h
      | some fdisc =>
      rw [h9] at h
      injection h with h10
      subst h10
      rw [to_json_mk, jeq_obj, Bool.and_eq_true]
      constructor
      · apply jeqObjSub_of_forall
        intro p hp
        simp only [List.mem_append] at hp
        rcases hp with hp | hp | hp | hp | hp | hp | hp | hp | hp | hp
        · cases fid with
          | none =>
            exact absurd (show p ∈ ([] : List (String × Json)) from hp)
              (by simp)
          | some x =>
            have hpe : p = ("id", Json.str x) := List.mem_singleton.mp
              (show p ∈ [("id", Json.str x)] from hp)
            subst hpe
            refine ⟨Json.str x, lookStr_some kvs "id" x h1, ?_⟩
            simp [jeq]
        · cases fdefs with
          | none =>
            exact absurd (show p ∈ ([] : List (String × Json)) from hp)
              (by simp)
          | some m =>
            have hpe : p = ("definitions", Json.obj (to_jsonList m)) :=
              List.mem_singleton.mp
                (show p ∈ [("definitions", Json.obj (to_jsonList m))]
                  from hp)
            subst hpe
            obtain ⟨l, hlk, hfl⟩ := lookMap_some kvs "definitions" m h2
            refine ⟨Json.obj l, hlk, ?_⟩
            have hse := strictL_lookup kvs "definitions" (Json.obj l) hsl hlk
            unfold strictEntry at hse
            rw [if_neg (by decide), if_pos (by decide)] at hse
            simp only [strictMap, Bool.and_eq_true] at hse
            obtain ⟨hndl, hstl⟩ := hse
            refine hMapJeq l m ?_ (of_decide_eq_true hndl) hstl hfl
            have := lookup_size kvs "definitions" (Json.obj l) hlk
            simp only [jsize] at this
            omega
        · cases frxf with
          | none =>
            exact absurd (show p ∈ ([] : List (String × Json)) from hp)
              (by simp)
          | some x =>
            have hpe : p = ("ref", Json.str x) := List.mem_singleton.mp
              (show p ∈ [("ref", Json.str x)] from hp)
            subst hpe
            refine ⟨Json.str x, lookStr_some kvs "ref" x h3, ?_⟩
            simp [jeq]
        · cases ftyp with
          | none =>
            exact absurd (show p ∈ ([] : List (String × Json)) from hp)
              (by simp)
          | some x =>
            have hpe : p = ("type", Json.str x) := List.mem_singleton.mp
              (show p ∈ [("type", Json.str x)] from hp)
            subst hpe
            refine ⟨Json.str x, lookStr_some kvs "type" x h4, ?_⟩
            simp [jeq]
        · cases felems with
          | none =>
            exact absurd (show p ∈ ([] : List (String × Json)) from hp)
              (by simp)
          | some s0 =>
            have hpe : p = ("elements", to_json s0) := List.mem_singleton.mp
              (show p ∈ [("elements", to_json s0)] from hp)
            subst hpe
            obtain ⟨v, hlk, hfv⟩ := lookSchema_some kvs "elements" s0 h5
            refine ⟨v, hlk, ?_⟩
            have hse := strictL_lookup kvs "elements" v hsl hlk
            unfold strictEntry at hse
            rw [if_pos (by decide)] at hse
            refine hP1 v s0 ?_ hse hfv
            have := lookup_size kvs "elements" v hlk
            omega
        · cases fprops with
          | none =>
            exact absurd (show p ∈ ([] : List (String × Json)) from hp)
              (by simp)
          | some m =>
            have hpe : p = ("properties", Json.obj (to_jsonList m)) :=
              List.mem_singleton.mp
                (show p ∈ [("properties", Json.obj (to_jsonList m))]
                  from hp)
            subst hpe
            obtain ⟨l, hlk, hfl⟩ := lookMap_some kvs "properties" m h6
            refine ⟨Json.obj l, hlk, ?_⟩
            have hse := strictL_lookup kvs "properties" (Json.obj l) hsl hlk
            unfold strictEntry at hse
            rw [if_neg (by decide), if_pos (by decide)] at hse
            simp only [strictMap, Bool.and_eq_true] at hse
            obtain ⟨hndl, hstl⟩ := hse
            refine hMapJeq l m ?_ (of_decide_eq_true hndl) hstl hfl
            have := lookup_size kvs "properties" (Json.obj l) hlk
            simp only [jsize] at this
            omega
        · cases fopts with
          | none =>
            exact absurd (show p ∈ ([] : List (String × Json)) from hp)
              (by simp)
          | some m =>
            have hpe : p = ("optionalProperties", Json.obj (to_jsonList m)) :=
              List.mem_singleton.mp
                (show p ∈ [("optionalProperties", Json.obj (to_jsonList m))]
                  from hp)
            subst hpe
            obtain ⟨l, hlk, hfl⟩ :=
              lookMap_some kvs "optionalProperties" m h7
            refine ⟨Json.obj l, hlk, ?_⟩
            have hse := strictL_lookup kvs "optionalProperties"
              (Json.obj l) hsl hlk
            unfold strictEntry at hse
            rw [if_neg (by decide), if_pos (by decide)] at hse
            simp only [strictMap, Bool.and_eq_true] at hse
            obtain ⟨hndl, hstl⟩ := hse
            refine hMapJeq l m ?_ (of_decide_eq_true hndl) hstl hfl
            have := lookup_size kvs "optionalProperties" (Json.obj l) hlk
            simp only [jsize] at this
            omega
        · cases fvals with
          | none =>
            exact absurd (show p ∈ ([] : List (String × Json)) from hp)
              (by simp)
          | some s0 =>
            have hpe : p = ("values", to_json s0) := List.mem_singleton.mp
              (show p ∈ [("values", to_json s0)] from hp)
            subst hpe
            obtain ⟨v, hlk, hfv⟩ := lookSchema_some kvs "values" s0 h8
            refine ⟨v, hlk, ?_⟩
            have hse := strictL_lookup kvs "values" v hsl hlk
            unfold strictEntry at hse
            rw [if_pos (by decide)] at hse
            refine hP1 v s0 ?_ hse hfv
            have := lookup_size kvs "values" v hlk
            omega
        · cases fdisc with
          | none =>
            exact absurd (show p ∈ ([] : List (String × Json)) from hp)
              (by simp)
          | some dd =>
            rcases dd with ⟨t, m⟩
            have hpe : p = ("discriminator", Json.obj
                [("propertyName", Json.str t),
                 ("mapping", Json.obj (to_jsonList m))]) :=
              List.mem_singleton.mp
                (show p ∈ [("discriminator", Json.obj
                  [("propertyName", Json.str t),
                   ("mapping", Json.obj (to_jsonList m))])] from hp)
            subst hpe
            obtain ⟨l, hlk, hpn, lm, hlm, hfl⟩ := lookDisc_some kvs t m h9
            refine ⟨Json.obj l, hlk, ?_⟩
            have hse := strictL_lookup kvs "discriminator" (Json.obj l)
              hsl hlk
            unfold strictEntry at hse
            rw [if_neg (by decide), if_neg (by decide),
              if_pos (by decide)] at hse
            simp only [strictDisc, Bool.and_eq_true] at hse
            obtain ⟨hndl, hdl⟩ := hse
            rw [jeq_obj, Bool.and_eq_true]
            constructor
            · apply jeqObjSub_of_forall
              intro q hq
              rcases List.mem_cons.mp hq with rfl | hq2
              · exact ⟨Json.str t, hpn, by simp [jeq]⟩
              · have hq3 : q = ("mapping", Json.obj (to_jsonList m)) :=
                  List.mem_singleton.mp hq2
                subst hq3
                refine ⟨Json.obj lm, hlm, ?_⟩
                have hsm := strictDiscL_map l (Json.obj lm) hdl hlm
                simp only [strictMap, Bool.and_eq_true] at hsm
                obtain ⟨hndlm, hstlm⟩ := hsm
                refine hMapJeq lm m ?_ (of_decide_eq_true hndlm) hstlm hfl
                have hsA := lookup_size kvs "discriminator" (Json.obj l) hlk
                have hsB := lookup_size l "mapping" (Json.obj lm) hlm
                simp only [jsize] at hsA hsB
                omega
            · rw [List.all_eq_true]
              intro kv hkv
              rcases strictDiscL_keys l hdl kv hkv with hk | hk
              · rw [hk]
                rfl
              · rw [hk]
                rfl
        · rw [List.mem_filter] at hp
          obtain ⟨hpk, hpnotkw⟩ := hp
          refine ⟨p.2, nodup_lookup_mem kvs hnd p hpk, ?_⟩
          have hse := strictL_lookup kvs p.1 p.2 hsl
            (nodup_lookup_mem kvs hnd p hpk)
          have hkw : isKeyword p.1 = false := by
            cases hik : isKeyword p.1
            · rfl
            · rw [hik] at hpnotkw
              exact absurd hpnotkw (by decide)
          rw [strictEntry_notkw p.1 p.2 hkw] at hse
          exact jeq_refl_sized (jsize p.2) p.2 le_rfl hse
      · rw [List.all_eq_true]
        intro kv hkv
        have happ : ∀ (A B : List (String × Json)) (k : String),
            ((B.lookup k).isSome = true) →
            (((A ++ B).lookup k).isSome = true) :=
          fun A B k hb => (isSome_lookup_append A B k).mpr (Or.inr hb)
        have happL : ∀ (A B : List (String × Json)) (k : String),
            ((A.lookup k).isSome = true) →
            (((A ++ B).lookup k).isSome = true) :=
          fun A B k ha => (isSome_lookup_append A B k).mpr (Or.inl ha)
        have hlkv := nodup_lookup_mem kvs hnd kv hkv
        have hsekv := strictL_lookup kvs kv.1 kv.2 hsl hlkv
        have hmemk := mem_keys_isSome kvs kv.1
          (List.mem_map_of_mem Prod.fst hkv)
        cases hik : isKeyword kv.1 with
        | false =>
          have hmemex : kv ∈ kvs.filter (fun kv2 => !(isKeyword kv2.1)) :=
            List.mem_filter.mpr ⟨hkv, by rw [hik]; rfl⟩
          have hex : ((kvs.filter
              (fun kv2 => !(isKeyword kv2.1))).lookup kv.1).isSome = true :=
            mem_keys_isSome _ kv.1 (List.mem_map_of_mem Prod.fst hmemex)
          exact happ _ _ _ (happ _ _ _ (happ _ _ _ (happ _ _ _ (happ _ _ _
            (happ _ _ _ (happ _ _ _ (happ _ _ _ (happ _ _ _ hex))))))))
        | true =>
          have hor : kv.1 = "id" ∨ kv.1 = "definitions" ∨ kv.1 = "ref" ∨
              kv.1 = "type" ∨ kv.1 = "elements" ∨ kv.1 = "properties" ∨
              kv.1 = "optionalProperties" ∨ kv.1 = "values" ∨
              kv.1 = "discriminator" := by
            simp only [isKeyword, Bool.or_eq_true, beq_iff_eq] at hik
            tauto
          rcases hor with hk | hk | hk | hk | hk | hk | hk | hk | hk
          · cases fid with
            | some x =>
              rw [hk]
              exact happL _ _ _ (by rfl)
            | none =>
              exfalso
              rcases lookStr_none kvs "id" h1 with hno | hnull
              · rw [hk, hno] at hmemk
                exact Bool.noConfusion hmemk
              · rw [hk] at hlkv
                rw [hlkv] at hnull
                have he : kv.2 = Json.null := Option.some.inj hnull
                rw [hk, he] at hsekv
                rw [show strictEntry "id" Json.null = false from by decide]
                  at hsekv
                exact Bool.noConfusion hsekv
          · cases fdefs with
            | some m =>
              rw [hk]
              exact happ _ _ _ (happL _ _ _ (by rfl))
            | none =>
              exfalso
              rcases lookMap_none kvs "definitions" h2 with hno | hnull
              · rw [hk, hno] at hmemk
                exact Bool.noConfusion hmemk
              · rw [hk] at hlkv
                rw [hlkv] at hnull
                have he : kv.2 = Json.null := Option.some.inj hnull
                rw [hk, he] at hsekv
                rw [show strictEntry "definitions" Json.null = false from
                  by decide] at hsekv
                exact Bool.noConfusion hsekv
          · cases frxf with
            | some x =>
              rw [hk]
              exact happ _ _ _ (happ _ _ _ (happL _ _ _ (by rfl)))
            | none =>
              exfalso
              rcases lookStr_none kvs "ref" h3 with hno | hnull
              · rw [hk, hno] at hmemk
                exact Bool.noConfusion hmemk
              · rw [hk] at hlkv
                rw [hlkv] at hnull
                have he : kv.2 = Json.null := Option.some.inj hnull
                rw [hk, he] at hsekv
                rw [show strictEntry "ref" Json.null = false from by decide]
                  at hsekv
                exact Bool.noConfusion hsekv
          · cases ftyp with
            | some x =>
              rw [hk]
              exact happ _ _ _ (happ _ _ _ (happ _ _ _ (happL _ _ _
                (by rfl))))
            | none =>
              exfalso
              rcases lookStr_none kvs "type" h4 with hno | hnull
              · rw [hk, hno] at hmemk
                exact Bool.noConfusion hmemk
              · rw [hk] at hlkv
                rw [hlkv] at hnull
                have he : kv.2 = Json.null := Option.some.inj hnull
                rw [hk, he] at hsekv
                rw [show strictEntry "type" Json.null = false from by decide]
                  at hsekv
                exact Bool.noConfusion hsekv
          · cases felems with
            | some s0 =>
              rw [hk]
              exact happ _ _ _ (happ _ _ _ (happ _ _ _ (happ _ _ _
                (happL _ _ _ (by rfl)))))
            | none =>
              exfalso
              rcases lookSchema_none kvs "elements" h5 with hno | hnull
              · rw [hk, hno] at hmemk
                exact Bool.noConfusion hmemk
              · rw [hk] at hlkv
                rw [hlkv] at hnull
                have he : kv.2 = Json.null := Option.some.inj hnull
                rw [hk, he] at hsekv
                rw [show strictEntry "elements" Json.null = false from
                  by decide] at hsekv
                exact Bool.noConfusion hsekv
          · cases fprops with
            | some m =>
              rw [hk]
              exact happ _ _ _ (happ _ _ _ (happ _ _ _ (happ _ _ _
                (happ _ _ _ (happL _ _ _ (by rfl))))))
            | none =>
              exfalso
              rcases lookMap_none kvs "properties" h6 with hno | hnull
              · rw [hk, hno] at hmemk
                exact Bool.noConfusion hmemk
              · rw [hk] at hlkv
                rw [hlkv] at hnull
                have he : kv.2 = Json.null := Option.some.inj hnull
                rw [hk, he] at hsekv
                rw [show strictEntry "properties" Json.null = false from
                  by decide] at hsekv
                exact Bool.noConfusion hsekv
          · cases fopts with
            | some m =>
              rw [hk]
              exact happ _ _ _ (happ _ _ _ (happ _ _ _ (happ _ _ _
                (happ _ _ _ (happ _ _ _ (happL _ _ _ (by rfl)))))))
            | none =>
              exfalso
              rcases lookMap_none kvs "optionalProperties" h7 with hno | hnull
              · rw [hk, hno] at hmemk
                exact Bool.noConfusion hmemk
              · rw [hk] at hlkv
                rw [hlkv] at hnull
                have he : kv.2 = Json.null := Option.some.inj hnull
                rw [hk, he] at hsekv
                rw [show strictEntry "optionalProperties" Json.null = false
                  from by decide] at hsekv
                exact Bool.noConfusion hsekv
          · cases fvals with
            | some s0 =>
              rw [hk]
              exact happ _ _ _ (happ _ _ _ (happ _ _ _ (happ _ _ _
                (happ _ _ _ (happ _ _ _ (happ _ _ _ (happL _ _ _
                  (by rfl))))))))
            | none =>
              exfalso
              rcases lookSchema_none kvs "values" h8 with hno | hnull
              · rw [hk, hno] at hmemk
                exact Bool.noConfusion hmemk
              · rw [hk] at hlkv
                rw [hlkv] at hnull
                have he : kv.2 = Json.null := Option.some.inj hnull
                rw [hk, he] at hsekv
                rw [show strictEntry "values" Json.null = false from
                  by decide] at hsekv
                exact Bool.noConfusion hsekv
          · cases fdisc with
            | some dd =>
              rcases dd with ⟨t, m⟩
              rw [hk]
              exact happ _ _ _ (happ _ _ _ (happ _ _ _ (happ _ _ _
                (happ _ _ _ (happ _ _ _ (happ _ _ _ (happ _ _ _
                  (happL _ _ _ (by rfl)))))))))
            | none =>
              exfalso
              rcases lookDisc_none kvs h9 with hno | hnull
              · rw [hk, hno] at hmemk
                exact Bool.noConfusion hmemk
              · rw [hk] at hlkv
                rw [hlkv] at hnull
                have he : kv.2 = Json.null := Option.some.inj hnull
                rw [hk, he] at hsekv
                rw [show strictEntry "discriminator" Json.null = false from
                  by decide] at hsekv
                exact Bool.noConfusion hsekv

end SerdeEmb

namespace SerdeEmb

/-- C8 counterexample: the document `{"id": null}` is accepted by the
Serde form (an `Option` field deserializes `null` to `None`), but
serializing the result skips `None` fields, yielding `{}` — the key
`id` is lost, so the round trip is not semantically equivalent. -/
theorem c8_counterexample :
    from_json (.obj [("id", Json.null)]) = some sdefault ∧
    to_json sdefault = .obj [] ∧
    jeq (to_json sdefault) (.obj [("id", Json.null)]) = false :=
  ⟨rfl, rfl, rfl⟩

/-- C8 (amended): for *strict* documents — objects with duplicate-free
keys whose keyword entries are non-`null` and recursively strict, whose
`discriminator` objects carry exactly `propertyName` and `mapping`, and
whose unknown entries are well-formed — deserialize-then-serialize
yields an order-insensitively equivalent document: the same key sets
with equal values at every level.  The unamended claim (every accepted
document round-trips) is refuted by the `{"id": null}` counterexample
above. -/
theorem c8_round_trip (d : Json) (s : SerdeSchema)
    (hstrict : strictS d = true) (h : from_json d = some s) :
    jeq (to_json s) d = true :=
  round_all (jsize d) d s le_rfl hstrict h

/-- Witness for the amended C8 theorem: a document with an `id` keyword
and an unknown `extra` key round-trips up to key reordering. -/
theorem c8_round_trip_witness :
    strictS (.obj [("id", Json.str "http://example.com/foo"),
      ("extra", Json.str "foo")]) = true ∧
    from_json (.obj [("id", Json.str "http://example.com/foo"),
      ("extra", Json.str "foo")]) = some (.mk
        (some "http://example.com/foo") none none none none none none none
        none [("extra", Json.str "foo")]) ∧
    jeq (to_json (SerdeSchema.mk (some "http://example.com/foo") none none
        none none none none none none [("extra", Json.str "foo")]))
      (.obj [("id", Json.str "http://example.com/foo"),
        ("extra", Json.str "foo")]) = true :=
  ⟨rfl, rfl,
    c8_round_trip (.obj [("id", Json.str "http://example.com/foo"),
      ("extra", Json.str "foo")])
      (.mk (some "http://example.com/foo") none none none none none none
        none none [("extra", Json.str "foo")]) rfl rfl⟩

/-- C9 counterexample: `SerdeSchema` has no `enum` field, so an `enum`
key (even a list of strings) is swallowed by the flattened `extra`
catch-all; and the discriminator's tag is deserialized from the wire
key `propertyName`, not `tag` — an object using `tag` is rejected. -/
theorem c9_counterexample :
    from_json (.obj [("enum", Json.arr [Json.str "a"])]) = some (.mk none
      none none none none none none none none
      [("enum", Json.arr [Json.str "a"])]) ∧
    from_json (.obj [("discriminator", .obj [("tag", Json.str "t"),
      ("mapping", Json.obj [])])]) = none ∧
    (from_json (.obj [("discriminator", .obj
      [("propertyName", Json.str "t"),
       ("mapping", Json.obj [])])])).isSome = true :=
  ⟨rfl, rfl, rfl⟩

/-- C9 (amended): deserializing keeps every unrecognized key — `enum`
included — verbatim in the `extra` catch-all rather than in a dedicated
field, and a parsed discriminator's tag comes from the wire key
`propertyName` of the `discriminator` object. -/
theorem c9_keyword_fields (kvs : List (String × Json)) (s : SerdeSchema)
    (h : from_json (.obj kvs) = some s) :
    s.extra = kvs.filter (fun kv => !(isKeyword kv.1)) ∧
    (∀ t m, s.discriminator = some (.mk t m) →
      ∃ l, kvs.lookup "discriminator" = some (.obj l) ∧
        l.lookup "propertyName" = some (.str t)) := by
  unfold from_json at h
  cases h1 : lookStr kvs "id" with
  | none => rw [h1] at h; exact Option.noConfusion h
  | some fid =>
  rw [h1] at h
  cases h2 : lookMap kvs "definitions" with
  | none => rw [h2] at h; exact Option.noConfusion h
  | some fdefs =>
  rw [h2] at h
  cases h3 : lookStr kvs "ref" with
  | none => rw [h3] at h; exact Option.noConfusion h
  | some frxf =>
  rw [h3] at h
  cases h4 : lookStr kvs "type" with
  | none => rw [h4] at h; exact Option.noConfusion h
  | some ftyp =>
  rw [h4] at h
  cases h5 : lookSchema kvs "elements" with
  | none => rw [h5] at h; exact Option.noConfusion h
  | some felems =>
  rw [h5] at h
  cases h6 : lookMap kvs "properties" with
  | none => rw [h6] at h; exact Option.noConfusion h
  | some fprops =>
  rw [h6] at h
  cases h7 : lookMap kvs "optionalProperties" with
  | none => rw [h7] at h; exact Option.noConfusion h
  | some fopts =>
  rw [h7] at h
  cases h8 : lookSchema kvs "values" with
  | none => rw [h8] at h; exact Option.noConfusion h
  | some fvals =>
  rw [h8] at h
  cases h9 : lookDisc kvs with
  | none => rw [h9] at h; exact Option.noConfusion h
  | some fdisc =>
  rw [h9] at h
  injection h with h10
  subst h10
  refine ⟨rfl, ?_⟩
  intro t m hd
  have hd2 : fdisc = some (SerdeDiscriminator.mk t m) := hd
  rw [hd2] at h9
  obtain ⟨l, hlk, hpn, _, _, _⟩ := lookDisc_some kvs t m h9
  exact ⟨l, hlk, hpn⟩

/-- Witness for the amended C9 theorem: a document with an `enum` key
and a `propertyName`-tagged discriminator. -/
theorem c9_keyword_fields_witness :
    from_json (.obj [("enum", Json.arr [Json.str "a"]),
      ("discriminator", .obj [("propertyName", Json.str "t"),
        ("mapping", Json.obj [])])]) = some (.mk none none none none none
      none none none (some (.mk "t" []))
      [("enum", Json.arr [Json.str "a"])]) ∧
    ((SerdeSchema.mk none none none none none none none none
        (some (.mk "t" [])) [("enum", Json.arr [Json.str "a"])]).extra =
      ([("enum", Json.arr [Json.str "a"]),
        ("discriminator", .obj [("propertyName", Json.str "t"),
          ("mapping", Json.obj [])])].filter
        (fun kv => !(isKeyword kv.1))) ∧
     (∀ t m, (SerdeSchema.mk none none none none none none none none
          (some (.mk "t" []))
          [("enum", Json.arr [Json.str "a"])]).discriminator =
            some (.mk t m) →
       ∃ l, ([("enum", Json.arr [Json.str "a"]),
          ("discriminator", .obj [("propertyName", Json.str "t"),
            ("mapping", Json.obj [])])] :
          List (String × Json)).lookup "discriminator" = some (.obj l) ∧
         l.lookup "propertyName" = some (.str t))) :=
  ⟨rfl, c9_keyword_fields [("enum", Json.arr [Json.str "a"]),
    ("discriminator", .obj [("propertyName", Json.str "t"),
      ("mapping", Json.obj [])])]
    (.mk none none none none none none none none (some (.mk "t" []))
      [("enum", Json.arr [Json.str "a"])]) rfl⟩

end SerdeEmb

namespace Gen1

/-- C1: refuted by the code — `first_pass` accepts a Serde input whose
`ref` and `properties` groups are both present.  The `Properties` arm
is the only form arm missing the `form != SchemaForm::Empty` test, so
it silently overwrites the already-chosen `Ref` form and returns
`Ok(..)` with a `Properties` schema; every sibling combination (here
`ref` + `type` and `ref` + `values`) is rejected with `InvalidForm` as
the claim and spec state.  The claim describes the evident intent
(`ErrorKind::InvalidForm` exists for exactly this, and all other arms
enforce it); the code deviates on `properties`/`optionalProperties`. -/
theorem c1_properties_overwrites_form :
    first_pass (fun _ => true) true
      (.mk none none (some "#") none none (some []) none none none []) =
      .ok (G1Schema.mk (some (G1Root.mk none []))
        (.properties [] []) []) ∧
    first_pass (fun _ => true) true
      (.mk none none (some "#") (some "boolean") none none none none
        none []) = .error .invalidForm ∧
    first_pass (fun _ => true) true
      (.mk none none (some "#") none none none none
        (some (.mk none none none none none none none none none []))
        none []) = .error .invalidForm :=
  ⟨rfl, rfl, rfl⟩

end Gen1
